import Mathlib

/-!
# promtool-tsdb-analyze-parser: the report parser of `main.go`

A shallow embedding of `parse` and `extractValues` (src/main.go) and of the
standard-library functions they call, followed by the properties of the
parser.

Modelling conventions.

* A Go `string` holding text is a Lean `String`; the byte-level functions of
  package `strings` used here (`HasPrefix`, `TrimPrefix`, `Split` on a
  one-byte separator) act on the characters, which is the same thing on
  well-formed UTF-8.
* `uint64` is `Nat`, reduced modulo `2^64` where the Go code can wrap.
* The input of `parse` is the text that the `io.Reader` delivers, given as the
  list of its lines: each is the text up to the next line feed, with a carriage
  return before the line feed still in place, and the last one is the text
  after the last line feed, when there is some. `NewScanner` is what
  `bufio.NewScanner(input)` makes of it with the default split function
  `ScanLines` and the default buffer of `MaxScanTokenSize` bytes: the outcomes
  of the successive calls of `scanner.Scan()`, `some line` when it returns true
  with `scanner.Text() = line`, `none` when it returns false. `parseScan` and
  `extractValuesFrom` are the two loops of main.go on such outcomes, and
  `parse` is `parseScan` on `NewScanner input`.
* `parseLoop` and `extractValues` are the same two loops on a scanner that
  delivers every line of a list and stops at its end; the list holds the lines
  it has yet to deliver. As long as every line fits the buffer they are what
  `parse` runs (`parseScan_map_some`, `extractValuesScan_map_some`,
  `parse_eq`).
* A Go function returning `(T, error)` returns a pair `T × Option Error`.
-/

namespace TsdbAnalyze

/-! ## Errors -/

/-- The two sentinel errors of `strconv` that `ParseUint` can wrap. -/
inductive NumErr where
  | ErrSyntax
  | ErrRange
  deriving DecidableEq

/-- Error values that `parse` can return: a `*strconv.NumError`, or the result
of `fmt.Errorf(format, line)` for a format with the single verb `%q`. -/
inductive Error where
  | NumError (Func : String) (Num : String) (Err : NumErr)
  | Errorf (format : String) (line : String)
  deriving DecidableEq

/-! ## Data model (main.go, lines 20-38) -/

/-- Go `type NameCount struct`. -/
structure NameCount where
  Name : String
  Count : Nat
  deriving DecidableEq

/-- Go `type Analysis struct`; the field defaults are Go's zero values. -/
structure Analysis where
  BlockID : String := ""
  Duration : String := ""
  Series : Nat := 0
  LabelNames : Nat := 0
  PostingsUnique : Nat := 0
  PostingsEntries : Nat := 0
  LabelPairsMostInvolvedInChurning : List NameCount := []
  LabelNamesMostInvolvedInChurning : List NameCount := []
  MostCommonLabelPairs : List NameCount := []
  LabelNamesWithHighestCumulativeLabelValueLength : List NameCount := []
  HighestCardinalityLabels : List NameCount := []
  HighestCardinalityMetricNames : List NameCount := []
  deriving DecidableEq

/-! ## Package `strings` -/

/-- Go `strings.HasPrefix(s, prefix)`. -/
def HasPrefix (s pre : String) : Bool :=
  pre.data.isPrefixOf s.data

/-- Go `strings.TrimPrefix(s, prefix)`: `s` without the leading `prefix`, or
`s` itself when it does not start with `prefix`. -/
def TrimPrefix (s pre : String) : String :=
  if HasPrefix s pre then String.mk (s.data.drop pre.data.length) else s

/-- Go `unicode.IsSpace`: the Latin-1 switch, then the `White_Space` table. -/
def isSpace (r : Char) : Bool :=
  let n := r.toNat
  if n ≤ 0xFF then
    n = 0x09 || n = 0x0A || n = 0x0B || n = 0x0C || n = 0x0D || n = 0x20 ||
      n = 0x85 || n = 0xA0
  else
    n = 0x1680 || (0x2000 ≤ n && n ≤ 0x200A) || n = 0x2028 || n = 0x2029 ||
      n = 0x202F || n = 0x205F || n = 0x3000

/-- Go `strings.TrimSpace(s)`: leading and trailing white space removed. -/
def TrimSpace (s : String) : String :=
  String.mk ((s.data.dropWhile isSpace).reverse.dropWhile isSpace).reverse

/-- The pieces of a character list between the occurrences of `sep`. -/
def splitChars (sep : Char) : List Char → List (List Char)
  | [] => [[]]
  | c :: cs =>
    if c = sep then [] :: splitChars sep cs
    else
      match splitChars sep cs with
      | [] => [[c]]
      | p :: ps => (c :: p) :: ps

/-- Go `strings.Split(s, sep)` for a one-byte separator: all substrings of `s`
between the separators, one more than there are separators. -/
def Split (s : String) (sep : Char) : List String :=
  (splitChars sep s.data).map String.mk

/-! ## `strconv.ParseUint(s, 10, 64)` -/

/-- Go `maxUint64 = 1<<64 - 1`. -/
def maxUint64 : Nat := 2 ^ 64 - 1

/-- Go `lower(c) = c | ('x' - 'X')` on a byte. -/
def lower (c : Nat) : Nat := c ||| 0x20

/-- The digit decoding `switch` of `ParseUint` for base 10 (where `_` is not
special): `none` is the `default` branch. A character outside ASCII starts
with a byte above `z` and takes the `default` branch. -/
def digitOf (c : Char) : Option Nat :=
  let b := c.toNat
  if 48 ≤ b ∧ b ≤ 57 then some (b - 48)
  else if b < 128 ∧ 97 ≤ lower b ∧ lower b ≤ 122 then some (lower b - 97 + 10)
  else none

/-- The digit loop of `ParseUint` with `base = 10`, `bitSize = 64`: `s0` is the
whole argument (kept for the error value), `n` the accumulator. -/
def ParseUintLoop (s0 : String) (n : Nat) : List Char → Nat × Option Error
  | [] => (n, none)
  | c :: cs =>
    match digitOf c with
    | none => (0, some (Error.NumError "ParseUint" s0 NumErr.ErrSyntax))
    | some d =>
      if d ≥ 10 then (0, some (Error.NumError "ParseUint" s0 NumErr.ErrSyntax))
      else if n ≥ maxUint64 / 10 + 1 then
        (maxUint64, some (Error.NumError "ParseUint" s0 NumErr.ErrRange))
      else
        let n10 := n * 10 % 2 ^ 64
        let n1 := (n10 + d) % 2 ^ 64
        if n1 < n10 ∨ n1 > maxUint64 then
          (maxUint64, some (Error.NumError "ParseUint" s0 NumErr.ErrRange))
        else ParseUintLoop s0 n1 cs

/-- Go `strconv.ParseUint(s, 10, 64)`. -/
def ParseUint (s : String) : Nat × Option Error :=
  if s = "" then (0, some (Error.NumError "ParseUint" s NumErr.ErrSyntax))
  else ParseUintLoop s 0 s.data

/-! ## `extractValues` (main.go, lines 180-198) -/

/-- A `*bufio.Scanner` that delivers every line of its input: the lines not yet
read. -/
abbrev Scanner := List String

/-- The `for scanner.Scan()` loop of `extractValues`; `values` is the slice
built so far. Returns the Go result pair and the scanner as it is left. -/
def extractValuesLoop (values : List NameCount) :
    Scanner → (List NameCount × Option Error) × Scanner
  | [] => ((values, none), [])
  | line :: scanner =>
    if TrimSpace line = "" then ((values, none), scanner)
    else
      match Split line ' ' with
      | [part0, part1] =>
        match ParseUint part0 with
        | (_, some _) =>
          (([], some (Error.Errorf "expected uint64 as first part of label pair %q" line)),
            scanner)
        | (count, none) => extractValuesLoop (values ++ [NameCount.mk part1 count]) scanner
      | _ => (([], some (Error.Errorf "expected two parts in label pair %q" line)), scanner)

/-- Go `func extractValues(scanner *bufio.Scanner) ([]NameCount, error)`. -/
def extractValues (scanner : Scanner) : (List NameCount × Option Error) × Scanner :=
  extractValuesLoop [] scanner

/-! ## The loop of `parse` (main.go, lines 84-177) -/

/-- The `for scanner.Scan()` loop of `parse`, followed by its final
`return analysis, nil`. The result is the Go result pair: on an error the
`analysis` built so far is returned with it. -/
def parseLoop (analysis : Analysis) (scanner : Scanner) : Analysis × Option Error :=
  match scanner with
  | [] => (analysis, none)
  | line :: scanner =>
    if HasPrefix line "Block ID: " then
      parseLoop { analysis with BlockID := TrimPrefix line "Block ID: " } scanner
    else if HasPrefix line "Duration: " then
      parseLoop { analysis with Duration := TrimPrefix line "Duration: " } scanner
    else if HasPrefix line "Series: " then
      match ParseUint (TrimPrefix line "Series: ") with
      | (v, some err) => ({ analysis with Series := v }, some err)
      | (v, none) => parseLoop { analysis with Series := v } scanner
    else if HasPrefix line "Label names: " then
      match ParseUint (TrimPrefix line "Label names: ") with
      | (v, some err) => ({ analysis with LabelNames := v }, some err)
      | (v, none) => parseLoop { analysis with LabelNames := v } scanner
    else if HasPrefix line "Postings (unique label pairs): " then
      match ParseUint (TrimPrefix line "Postings (unique label pairs): ") with
      | (v, some err) => ({ analysis with PostingsUnique := v }, some err)
      | (v, none) => parseLoop { analysis with PostingsUnique := v } scanner
    else if HasPrefix line "Postings entries (total label pairs): " then
      match ParseUint (TrimPrefix line "Postings entries (total label pairs): ") with
      | (v, some err) => ({ analysis with PostingsEntries := v }, some err)
      | (v, none) => parseLoop { analysis with PostingsEntries := v } scanner
    else if line = "Label pairs most involved in churning:" then
      match _hcall : extractValues scanner with
      | ((_, some err), _) => (analysis, some err)
      | ((values, none), scanner1) =>
        parseLoop { analysis with LabelPairsMostInvolvedInChurning := values } scanner1
    else if line = "Label names most involved in churning:" then
      match _hcall : extractValues scanner with
      | ((_, some err), _) => (analysis, some err)
      | ((values, none), scanner1) =>
        parseLoop { analysis with LabelNamesMostInvolvedInChurning := values } scanner1
    else if line = "Most common label pairs:" then
      match _hcall : extractValues scanner with
      | ((_, some err), _) => (analysis, some err)
      | ((values, none), scanner1) =>
        parseLoop { analysis with MostCommonLabelPairs := values } scanner1
    else if line = "Label names with highest cumulative label value length:" then
      match _hcall : extractValues scanner with
      | ((_, some err), _) => (analysis, some err)
      | ((values, none), scanner1) =>
        parseLoop
          { analysis with LabelNamesWithHighestCumulativeLabelValueLength := values } scanner1
    else if line = "Highest cardinality labels:" then
      match _hcall : extractValues scanner with
      | ((_, some err), _) => (analysis, some err)
      | ((values, none), scanner1) =>
        parseLoop { analysis with HighestCardinalityLabels := values } scanner1
    else if line = "Highest cardinality metric names:" then
      match _hcall : extractValues scanner with
      | ((_, some err), _) => (analysis, some err)
      | ((values, none), scanner1) =>
        parseLoop { analysis with HighestCardinalityMetricNames := values } scanner1
    else parseLoop analysis scanner
termination_by scanner.length
decreasing_by
  all_goals simp_wf
  all_goals
    have hlen : ∀ (sc : Scanner) (vs : List NameCount),
        (extractValuesLoop vs sc).2.length ≤ sc.length := by
      intro sc
      induction sc with
      | nil => intro _; simp [extractValuesLoop]
      | cons l sc ih =>
        intro vs
        unfold extractValuesLoop
        split
        · simp
        · split
          · split
            · simp
            · exact Nat.le_succ_of_le (ih _)
          · simp
    have h2 := hlen scanner []
    simp only [extractValues] at _hcall
    rw [_hcall] at h2
    exact Nat.lt_succ_of_le h2

/-! ## Vocabulary of the specification -/

/-- The four numeric header fields. -/
inductive Counter where
  | Series
  | LabelNames
  | PostingsUnique
  | PostingsEntries
  deriving DecidableEq

/-- The literal prefix of a numeric header line. -/
def Counter.pre : Counter → String
  | .Series => "Series: "
  | .LabelNames => "Label names: "
  | .PostingsUnique => "Postings (unique label pairs): "
  | .PostingsEntries => "Postings entries (total label pairs): "

/-- The Report with one counter replaced. -/
def Analysis.setCounter (a : Analysis) : Counter → Nat → Analysis
  | .Series, v => { a with Series := v }
  | .LabelNames, v => { a with LabelNames := v }
  | .PostingsUnique, v => { a with PostingsUnique := v }
  | .PostingsEntries, v => { a with PostingsEntries := v }

/-- The counter of a Report. -/
def Analysis.getCounter (a : Analysis) : Counter → Nat
  | .Series => a.Series
  | .LabelNames => a.LabelNames
  | .PostingsUnique => a.PostingsUnique
  | .PostingsEntries => a.PostingsEntries

/-- The six ranked-list sections. -/
inductive Section where
  | LabelPairsMostInvolvedInChurning
  | LabelNamesMostInvolvedInChurning
  | MostCommonLabelPairs
  | LabelNamesWithHighestCumulativeLabelValueLength
  | HighestCardinalityLabels
  | HighestCardinalityMetricNames
  deriving DecidableEq

/-- The literal title line of a section. -/
def Section.title : Section → String
  | .LabelPairsMostInvolvedInChurning => "Label pairs most involved in churning:"
  | .LabelNamesMostInvolvedInChurning => "Label names most involved in churning:"
  | .MostCommonLabelPairs => "Most common label pairs:"
  | .LabelNamesWithHighestCumulativeLabelValueLength =>
    "Label names with highest cumulative label value length:"
  | .HighestCardinalityLabels => "Highest cardinality labels:"
  | .HighestCardinalityMetricNames => "Highest cardinality metric names:"

/-- The Report with the list of one section replaced. -/
def Analysis.setList (a : Analysis) : Section → List NameCount → Analysis
  | .LabelPairsMostInvolvedInChurning, v => { a with LabelPairsMostInvolvedInChurning := v }
  | .LabelNamesMostInvolvedInChurning, v => { a with LabelNamesMostInvolvedInChurning := v }
  | .MostCommonLabelPairs, v => { a with MostCommonLabelPairs := v }
  | .LabelNamesWithHighestCumulativeLabelValueLength, v =>
    { a with LabelNamesWithHighestCumulativeLabelValueLength := v }
  | .HighestCardinalityLabels, v => { a with HighestCardinalityLabels := v }
  | .HighestCardinalityMetricNames, v => { a with HighestCardinalityMetricNames := v }

/-- The list of one section of a Report. -/
def Analysis.getList (a : Analysis) : Section → List NameCount
  | .LabelPairsMostInvolvedInChurning => a.LabelPairsMostInvolvedInChurning
  | .LabelNamesMostInvolvedInChurning => a.LabelNamesMostInvolvedInChurning
  | .MostCommonLabelPairs => a.MostCommonLabelPairs
  | .LabelNamesWithHighestCumulativeLabelValueLength =>
    a.LabelNamesWithHighestCumulativeLabelValueLength
  | .HighestCardinalityLabels => a.HighestCardinalityLabels
  | .HighestCardinalityMetricNames => a.HighestCardinalityMetricNames

/-- A line is blank: empty, or made of white space only. -/
def isBlank (line : String) : Bool :=
  line.data.all isSpace

/-- The value of a run of decimal digits read most significant digit first,
continuing from the value `n` of the digits before it. -/
def decValueFrom (n : Nat) (cs : List Char) : Nat :=
  cs.foldl (fun acc c => 10 * acc + (c.toNat - 48)) n

/-- The value of a string of decimal digits. -/
def decValue (s : String) : Nat :=
  decValueFrom 0 s.data

/-- An ASCII decimal digit, `0` to `9`. -/
def isDecDigit (c : Char) : Bool :=
  decide (48 ≤ c.toNat ∧ c.toNat ≤ 57)

/-- A non-empty string of ASCII decimal digits. -/
def isNumeral (s : String) : Bool :=
  !s.data.isEmpty && s.data.all isDecDigit

/-- A non-empty string of ASCII decimal digits whose value is below `2^64`:
the text of an unsigned 64-bit integer. -/
def isUint64 (s : String) : Bool :=
  isNumeral s && decide (decValue s < 2 ^ 64)

/-- A line begins with one of the six recognized prefixes or equals one of the
six recognized section titles. -/
def isRecognized (line : String) : Bool :=
  HasPrefix line "Block ID: " || HasPrefix line "Duration: " ||
  HasPrefix line "Series: " || HasPrefix line "Label names: " ||
  HasPrefix line "Postings (unique label pairs): " ||
  HasPrefix line "Postings entries (total label pairs): " ||
  line = "Label pairs most involved in churning:" ||
  line = "Label names most involved in churning:" ||
  line = "Most common label pairs:" ||
  line = "Label names with highest cumulative label value length:" ||
  line = "Highest cardinality labels:" ||
  line = "Highest cardinality metric names:"

/-- A section body line is well formed: cut at every single space it gives
exactly two pieces, and the first is the text of an unsigned 64-bit integer. -/
def isEntryLine (line : String) : Bool :=
  match Split line ' ' with
  | [part0, _] => isUint64 part0
  | _ => false

/-- The entry that a well-formed section body line denotes: the second piece
as name, the value of the first piece as count. -/
def entryOfLine (line : String) : NameCount :=
  match Split line ' ' with
  | [part0, part1] => NameCount.mk part1 (decValue part0)
  | _ => NameCount.mk "" 0

/-- The error reported for a section body line that is not well formed. -/
def entryError (line : String) : Error :=
  if (Split line ' ').length = 2 then
    Error.Errorf "expected uint64 as first part of label pair %q" line
  else Error.Errorf "expected two parts in label pair %q" line

/-- The lines of a section body: those before the first blank line. -/
def bodyLines (scanner : List String) : List String :=
  scanner.takeWhile (fun line => !isBlank line)

/-- The first line of a section body that is not well formed, if any. -/
def firstMalformed (scanner : List String) : Option String :=
  (bodyLines scanner).find? (fun line => !isEntryLine line)

/-- The text of a ranked entry as the report writes it: the count and the
name that a line `<count> <name>` is made of. -/
structure EntryText where
  count : String
  name : String
  deriving DecidableEq

/-- The line `<count> <name>`. -/
def EntryText.line (e : EntryText) : String :=
  e.count ++ " " ++ e.name

/-- A valid entry line: the count is the text of an unsigned 64-bit integer
and the name holds no space. -/
def EntryText.valid (e : EntryText) : Bool :=
  isUint64 e.count && decide (' ' ∉ e.name.data)

/-- The ranked entry (name, count) that the text denotes. -/
def EntryText.entry (e : EntryText) : NameCount :=
  NameCount.mk e.name (decValue e.count)

/-- The decimal text of a number. -/
def decimal (n : Nat) : String :=
  String.mk (Nat.toDigits 10 n)

/-- The line `<count> <name>` of a ranked entry, the count in decimal. -/
def entryLine (e : NameCount) : String :=
  decimal e.Count ++ " " ++ e.Name

/-- The whitespace-separated tokens of a line, in the words of the
specification: the maximal runs of characters that are not white space.
`cur` is the token being read, last character first. -/
def whitespaceTokensFrom (cur : List Char) : List Char → List String
  | [] => if cur.isEmpty then [] else [String.mk cur.reverse]
  | c :: cs =>
    if isSpace c then
      if cur.isEmpty then whitespaceTokensFrom [] cs
      else String.mk cur.reverse :: whitespaceTokensFrom [] cs
    else whitespaceTokensFrom (c :: cur) cs

/-- The whitespace-separated tokens of a line. -/
def whitespaceTokens (line : String) : List String :=
  whitespaceTokensFrom [] line.data

/-- The series counter after the classifier has met each of `lines`, starting
from the value `init`: every line beginning with `Series: ` overwrites it. -/
def seriesAfter (init : Nat) (lines : List String) : Nat :=
  lines.foldl
    (fun acc line =>
      if HasPrefix line "Series: " then (ParseUint (TrimPrefix line "Series: ")).1 else acc)
    init

/-- The parts a well-formed report is made of: a scalar field line, a blank
line, or a section (title, entry lines, closing blank line). -/
inductive Item where
  | blockID (value : String)
  | duration (value : String)
  | counter (c : Counter) (value : String)
  | blank (line : String)
  | sect (sec : Section) (entries : List EntryText) (closing : String)

/-- The values are valid: a counter is the text of an unsigned 64-bit integer,
a blank line is blank, a section has valid entry lines and a blank closing
line. -/
def Item.valid : Item → Bool
  | .blockID _ => true
  | .duration _ => true
  | .counter _ value => isUint64 value
  | .blank line => isBlank line
  | .sect _ entries closing => entries.all EntryText.valid && isBlank closing

/-- The lines of the input that a part stands for. -/
def Item.lines : Item → List String
  | .blockID value => ["Block ID: " ++ value]
  | .duration value => ["Duration: " ++ value]
  | .counter c value => [c.pre ++ value]
  | .blank line => [line]
  | .sect sec entries closing => sec.title :: (entries.map EntryText.line ++ [closing])

/-- The effect of one part on the Report: it replaces the field it names. -/
def Item.apply (i : Item) (a : Analysis) : Analysis :=
  match i with
  | .blockID value => { a with BlockID := value }
  | .duration value => { a with Duration := value }
  | .counter c value => a.setCounter c (decValue value)
  | .blank _ => a
  | .sect sec entries _ => a.setList sec (entries.map EntryText.entry)

/-- The block id that a part gives, if it is a `Block ID: ` line. -/
def Item.blockIDValue : Item → Option String
  | .blockID value => some value
  | _ => none

/-- The duration that a part gives, if it is a `Duration: ` line. -/
def Item.durationValue : Item → Option String
  | .duration value => some value
  | _ => none

/-- The value that a part gives to counter `c`, if it is a line of its prefix. -/
def Item.counterValue (c : Counter) : Item → Option Nat
  | .counter c1 value => if c1 = c then some (decValue value) else none
  | _ => none

/-- The list that a part gives to section `sec`, if it is a section of its
title. -/
def Item.listValue (sec : Section) : Item → Option (List NameCount)
  | .sect sec1 entries _ => if sec1 = sec then some (entries.map EntryText.entry) else none
  | _ => none

/-- The value given by the last occurrence among `items`, or `dflt` when there
is no occurrence. -/
def lastOf {α : Type} (f : Item → Option α) (dflt : α) (items : List Item) : α :=
  ((items.filterMap f).getLast?).getD dflt

/-! ## Error messages (`strconv.Quote`, `fmt.Errorf`, `NumError.Error`) -/

/-- Go `lowerhex[n]`, the hexadecimal digit of `n < 16`. -/
def lowerhex (n : Nat) : Char :=
  if n < 10 then Char.ofNat (48 + n) else Char.ofNat (87 + n)

/-- Go `strconv.IsPrint`: the fast path for Latin-1 is written out; `table`
stands for the lookup in the Unicode tables of package `strconv`, which decides
the characters above U+00FF. -/
def IsPrint (table : Char → Bool) (r : Char) : Bool :=
  let n := r.toNat
  if n ≤ 0xFF then
    if 0x20 ≤ n ∧ n ≤ 0x7E then true
    else if 0xA1 ≤ n ∧ n ≤ 0xFF then n != 0xAD
    else false
  else table r

/-- Go `appendEscapedRune(buf, r, '"', false, false)`: what `strconv.Quote`
writes for one character. -/
def appendEscapedRune (table : Char → Bool) (r : Char) : List Char :=
  let n := r.toNat
  if r = '"' ∨ r = '\\' then ['\\', r]
  else if IsPrint table r then [r]
  else if n = 7 then ['\\', 'a']
  else if n = 8 then ['\\', 'b']
  else if n = 12 then ['\\', 'f']
  else if n = 10 then ['\\', 'n']
  else if n = 13 then ['\\', 'r']
  else if n = 9 then ['\\', 't']
  else if n = 11 then ['\\', 'v']
  else if n < 0x20 ∨ n = 0x7F then ['\\', 'x', lowerhex (n / 16 % 16), lowerhex (n % 16)]
  else if n < 0x10000 then
    ['\\', 'u', lowerhex (n / 4096 % 16), lowerhex (n / 256 % 16), lowerhex (n / 16 % 16),
      lowerhex (n % 16)]
  else
    ['\\', 'U', lowerhex (n / 268435456 % 16), lowerhex (n / 16777216 % 16),
      lowerhex (n / 1048576 % 16), lowerhex (n / 65536 % 16), lowerhex (n / 4096 % 16),
      lowerhex (n / 256 % 16), lowerhex (n / 16 % 16), lowerhex (n % 16)]

/-- Go `strconv.Quote(s)`, which is also what the verb `%q` prints for a
string: the escaped characters between double quotes. -/
def Quote (table : Char → Bool) (s : String) : String :=
  String.mk ('"' :: (s.data.flatMap (appendEscapedRune table) ++ ['"']))

/-- Go `fmt.Sprintf(format, arg)` for a string `arg` and a format whose only
verb is one `%q`: the format with the verb replaced by the quoted argument. -/
def Sprintf (table : Char → Bool) (arg : String) : List Char → List Char
  | [] => []
  | [c] => [c]
  | c :: d :: rest =>
    if c = '%' ∧ d = 'q' then (Quote table arg).data ++ rest
    else c :: Sprintf table arg (d :: rest)

/-- The text of `strconv.ErrSyntax` and `strconv.ErrRange`. -/
def NumErr.text : NumErr → String
  | .ErrSyntax => "invalid syntax"
  | .ErrRange => "value out of range"

/-- The method `Error()` of the error values: the message. -/
def Error.message (table : Char → Bool) : Error → String
  | .NumError func num err =>
    "strconv." ++ func ++ ": parsing " ++ Quote table num ++ ": " ++ err.text
  | .Errorf format line => String.mk (Sprintf table line format.data)

/-- The characters of `needle` occur in `hay` as a contiguous substring. -/
def occursIn (needle hay : String) : Bool :=
  hay.data.tails.any (fun t => needle.data.isPrefixOf t)

/-! ## The classifier as an ordered list of recognizers -/

/-- The twelve recognizers of the classifier: six prefixes, six titles. -/
inductive Recognizer where
  | blockID
  | duration
  | counter (c : Counter)
  | title (sec : Section)
  deriving DecidableEq

/-- The twelve recognizers, in the order of the source. -/
def Recognizer.all : List Recognizer :=
  [.blockID, .duration, .counter .Series, .counter .LabelNames, .counter .PostingsUnique,
    .counter .PostingsEntries, .title .LabelPairsMostInvolvedInChurning,
    .title .LabelNamesMostInvolvedInChurning, .title .MostCommonLabelPairs,
    .title .LabelNamesWithHighestCumulativeLabelValueLength, .title .HighestCardinalityLabels,
    .title .HighestCardinalityMetricNames]

/-- The test of a recognizer: `line begins with <prefix>` or
`line equals <title>`. -/
def Recognizer.test (r : Recognizer) (line : String) : Bool :=
  match r with
  | .blockID => HasPrefix line "Block ID: "
  | .duration => HasPrefix line "Duration: "
  | .counter c => HasPrefix line c.pre
  | .title sec => decide (line = sec.title)

/-- The classifier in the words of the specification: the (test, handler)
pairs are tried in the given order and the first test that holds selects the
handler; the handlers are those of `parse`. -/
def parseOrdered (order : List Recognizer) (analysis : Analysis) (scanner : Scanner) :
    Analysis × Option Error :=
  match scanner with
  | [] => (analysis, none)
  | line :: scanner =>
    match order.find? (fun r => r.test line) with
    | none => parseOrdered order analysis scanner
    | some .blockID =>
      parseOrdered order { analysis with BlockID := TrimPrefix line "Block ID: " } scanner
    | some .duration =>
      parseOrdered order { analysis with Duration := TrimPrefix line "Duration: " } scanner
    | some (.counter c) =>
      match ParseUint (TrimPrefix line c.pre) with
      | (v, some err) => (analysis.setCounter c v, some err)
      | (v, none) => parseOrdered order (analysis.setCounter c v) scanner
    | some (.title sec) =>
      match _hcall : extractValues scanner with
      | ((_, some err), _) => (analysis, some err)
      | ((values, none), scanner1) => parseOrdered order (analysis.setList sec values) scanner1
termination_by scanner.length
decreasing_by
  all_goals simp_wf
  have hlen : ∀ (sc : Scanner) (vs : List NameCount),
      (extractValuesLoop vs sc).2.length ≤ sc.length := by
    intro sc
    induction sc with
    | nil => intro _; simp [extractValuesLoop]
    | cons l sc ih =>
      intro vs
      unfold extractValuesLoop
      split
      · simp
      · split
        · split
          · simp
          · exact Nat.le_succ_of_le (ih _)
        · simp
  have h2 := hlen scanner []
  simp only [extractValues] at _hcall
  rw [_hcall] at h2
  exact Nat.lt_succ_of_le h2

/-! ## The loops on a scanner that can stop before the end of input

The outcomes of the successive calls of `scanner.Scan()` are a list: `some line`
when it returns true with `scanner.Text() = line`, `none` when it returns false;
after the last outcome listed it returns false. Outcomes can follow a `none`:
after `bufio.ErrTooLong` a further call of `Scan` still delivers the text held
in the buffer. On a list without `none` these loops are `parseLoop` and
`extractValuesLoop` (`parseScan_map_some`, `extractValuesScan_map_some`). -/

/-- The `for scanner.Scan()` loop of `extractValues` on such a scanner: the
loop also ends when `Scan` returns false. `scanner.Err()` is not called. -/
def extractValuesScan (values : List NameCount) :
    List (Option String) → (List NameCount × Option Error) × List (Option String)
  | [] => ((values, none), [])
  | none :: scanner => ((values, none), scanner)
  | some line :: scanner =>
    if TrimSpace line = "" then ((values, none), scanner)
    else
      match Split line ' ' with
      | [part0, part1] =>
        match ParseUint part0 with
        | (_, some _) =>
          (([], some (Error.Errorf "expected uint64 as first part of label pair %q" line)),
            scanner)
        | (count, none) => extractValuesScan (values ++ [NameCount.mk part1 count]) scanner
      | _ => (([], some (Error.Errorf "expected two parts in label pair %q" line)), scanner)

/-- Go `extractValues` on a scanner that can stop before the end of input. -/
def extractValuesFrom (scanner : List (Option String)) :
    (List NameCount × Option Error) × List (Option String) :=
  extractValuesScan [] scanner

/-- The loop of `parse` and its final `return analysis, nil` on a scanner that
can stop before the end of input: the loop ends when `Scan` returns false, and
`scanner.Err()` is not called. -/
def parseScan (analysis : Analysis) (scanner : List (Option String)) :
    Analysis × Option Error :=
  match scanner with
  | [] => (analysis, none)
  | none :: _ => (analysis, none)
  | some line :: scanner =>
    if HasPrefix line "Block ID: " then
      parseScan { analysis with BlockID := TrimPrefix line "Block ID: " } scanner
    else if HasPrefix line "Duration: " then
      parseScan { analysis with Duration := TrimPrefix line "Duration: " } scanner
    else if HasPrefix line "Series: " then
      match ParseUint (TrimPrefix line "Series: ") with
      | (v, some err) => ({ analysis with Series := v }, some err)
      | (v, none) => parseScan { analysis with Series := v } scanner
    else if HasPrefix line "Label names: " then
      match ParseUint (TrimPrefix line "Label names: ") with
      | (v, some err) => ({ analysis with LabelNames := v }, some err)
      | (v, none) => parseScan { analysis with LabelNames := v } scanner
    else if HasPrefix line "Postings (unique label pairs): " then
      match ParseUint (TrimPrefix line "Postings (unique label pairs): ") with
      | (v, some err) => ({ analysis with PostingsUnique := v }, some err)
      | (v, none) => parseScan { analysis with PostingsUnique := v } scanner
    else if HasPrefix line "Postings entries (total label pairs): " then
      match ParseUint (TrimPrefix line "Postings entries (total label pairs): ") with
      | (v, some err) => ({ analysis with PostingsEntries := v }, some err)
      | (v, none) => parseScan { analysis with PostingsEntries := v } scanner
    else if line = "Label pairs most involved in churning:" then
      match _hcall : extractValuesFrom scanner with
      | ((_, some err), _) => (analysis, some err)
      | ((values, none), scanner1) =>
        parseScan { analysis with LabelPairsMostInvolvedInChurning := values } scanner1
    else if line = "Label names most involved in churning:" then
      match _hcall : extractValuesFrom scanner with
      | ((_, some err), _) => (analysis, some err)
      | ((values, none), scanner1) =>
        parseScan { analysis with LabelNamesMostInvolvedInChurning := values } scanner1
    else if line = "Most common label pairs:" then
      match _hcall : extractValuesFrom scanner with
      | ((_, some err), _) => (analysis, some err)
      | ((values, none), scanner1) =>
        parseScan { analysis with MostCommonLabelPairs := values } scanner1
    else if line = "Label names with highest cumulative label value length:" then
      match _hcall : extractValuesFrom scanner with
      | ((_, some err), _) => (analysis, some err)
      | ((values, none), scanner1) =>
        parseScan
          { analysis with LabelNamesWithHighestCumulativeLabelValueLength := values } scanner1
    else if line = "Highest cardinality labels:" then
      match _hcall : extractValuesFrom scanner with
      | ((_, some err), _) => (analysis, some err)
      | ((values, none), scanner1) =>
        parseScan { analysis with HighestCardinalityLabels := values } scanner1
    else if line = "Highest cardinality metric names:" then
      match _hcall : extractValuesFrom scanner with
      | ((_, some err), _) => (analysis, some err)
      | ((values, none), scanner1) =>
        parseScan { analysis with HighestCardinalityMetricNames := values } scanner1
    else parseScan analysis scanner
termination_by scanner.length
decreasing_by
  all_goals simp_wf
  all_goals
    have hlen : ∀ (sc : List (Option String)) (vs : List NameCount),
        (extractValuesScan vs sc).2.length ≤ sc.length := by
      intro sc
      induction sc with
      | nil => intro _; simp [extractValuesScan]
      | cons l sc ih =>
        intro vs
        cases l with
        | none => simp [extractValuesScan]
        | some l =>
          unfold extractValuesScan
          split
          · simp
          · split
            · split
              · simp
              · exact Nat.le_succ_of_le (ih _)
            · simp
    have h2 := hlen scanner []
    simp only [extractValuesFrom] at _hcall
    rw [_hcall] at h2
    exact Nat.lt_succ_of_le h2

/-! ## `bufio.NewScanner(input)` and `parse` (main.go, lines 82-85) -/

/-- Go `bufio.MaxScanTokenSize = 64 * 1024`: the size up to which the buffer of
a scanner built by `bufio.NewScanner` grows. -/
def MaxScanTokenSize : Nat := 64 * 1024

/-- The number of bytes of a character in UTF-8. -/
def utf8Size (c : Char) : Nat :=
  if c.toNat < 0x80 then 1
  else if c.toNat < 0x800 then 2
  else if c.toNat < 0x10000 then 3
  else 4

/-- Go `len(s)`: the number of bytes of the text. -/
def byteLength (s : String) : Nat :=
  (s.data.map utf8Size).sum

/-- Go `dropCR` of package `bufio`: the line without one trailing carriage
return. -/
def dropCR (line : String) : String :=
  if line.data.getLast? = some '\r' then String.mk line.data.dropLast else line

/-- The first `n` bytes of a text. When the cut falls inside a character, each
byte kept of that character is shown as U+FFFD: such a byte is part of no
prefix, is no digit and is no white space. -/
def firstBytes : Nat → List Char → List Char
  | _, [] => []
  | n, c :: cs =>
    if utf8Size c ≤ n then c :: firstBytes (n - utf8Size c) cs
    else List.replicate n (Char.ofNat 0xFFFD)

/-- What the buffer of the scanner holds when a line does not fit, as `Scan`
delivers it if it is called again: the first `MaxScanTokenSize` bytes of the
line, without a trailing carriage return. -/
def bufferText (line : String) : String :=
  dropCR (String.mk (firstBytes MaxScanTokenSize line.data))

/-- What the scanner `bufio.NewScanner(input)` does, with its default split
function `ScanLines`: the outcomes of its successive calls of `Scan`. The input
is the text that the reader delivers, as the list of its lines (the text
between the line feeds). A line of fewer than `MaxScanTokenSize` bytes fits the
buffer with its line feed and is delivered, without a trailing carriage return.
At the first line that does not fit, `Scan` returns false (`ErrTooLong`) and
nothing more is read; called again, it delivers what the buffer holds, the
first `MaxScanTokenSize` bytes of that line, and then returns false. -/
def NewScanner : List String → List (Option String)
  | [] => []
  | line :: input =>
    if byteLength line < MaxScanTokenSize then some (dropCR line) :: NewScanner input
    else [none, some (bufferText line)]

/-- Go `func parse(input io.Reader) (analysis Analysis, err error)`:
`scanner := bufio.NewScanner(input)`, then the loop, with `analysis` starting
as the zero value. `scanner.Err()` is never called. -/
def parse (input : List String) : Analysis × Option Error :=
  parseScan {} (NewScanner input)

/-- The text made of `n` times the character `c`. -/
def repeated (c : Char) (n : Nat) : String :=
  String.mk (List.replicate n c)

/-- An `io.Reader` whose reading can fail: the lines of the text it delivers,
and the error of the read that ends it, `none` for `io.EOF`. -/
structure Input where
  lines : List String
  err : Option String
  deriving DecidableEq

/-- Go `parse` on such a reader. When a read fails the scanner hands the text
it holds to the split function as the last of the input, as it does at
`io.EOF`, and keeps the error for `scanner.Err()`, which `parse` does not
call. -/
def parseInput (input : Input) : Analysis × Option Error :=
  parse input.lines

/-- The errors with which a scanner stops reading before the end of input:
`bufio.ErrTooLong`, or the error of a failed read. -/
inductive ScanError where
  | ErrTooLong
  | ReadError (text : String)
  deriving DecidableEq

/-- Go `scanner.Err()` once `Scan` has returned false: `ErrTooLong` when a line
did not fit the buffer, else the error of the failed read, if a read failed. -/
def scanErr (input : Input) : Option ScanError :=
  if input.lines.all (fun line => decide (byteLength line < MaxScanTokenSize)) then
    input.err.map ScanError.ReadError
  else some ScanError.ErrTooLong

/-- The ordered classifier of the specification on the scanner of `parse`: as
`parseOrdered`, and the loop ends when `Scan` returns false. -/
def parseOrderedScan (order : List Recognizer) (analysis : Analysis)
    (scanner : List (Option String)) : Analysis × Option Error :=
  match scanner with
  | [] => (analysis, none)
  | none :: _ => (analysis, none)
  | some line :: scanner =>
    match order.find? (fun r => r.test line) with
    | none => parseOrderedScan order analysis scanner
    | some .blockID =>
      parseOrderedScan order { analysis with BlockID := TrimPrefix line "Block ID: " } scanner
    | some .duration =>
      parseOrderedScan order { analysis with Duration := TrimPrefix line "Duration: " } scanner
    | some (.counter c) =>
      match ParseUint (TrimPrefix line c.pre) with
      | (v, some err) => (analysis.setCounter c v, some err)
      | (v, none) => parseOrderedScan order (analysis.setCounter c v) scanner
    | some (.title sec) =>
      match _hcall : extractValuesFrom scanner with
      | ((_, some err), _) => (analysis, some err)
      | ((values, none), scanner1) =>
        parseOrderedScan order (analysis.setList sec values) scanner1
termination_by scanner.length
decreasing_by
  all_goals simp_wf
  have hlen : ∀ (sc : List (Option String)) (vs : List NameCount),
      (extractValuesScan vs sc).2.length ≤ sc.length := by
    intro sc
    induction sc with
    | nil => intro _; simp [extractValuesScan]
    | cons l sc ih =>
      intro vs
      cases l with
      | none => simp [extractValuesScan]
      | some l =>
        unfold extractValuesScan
        split
        · simp
        · split
          · split
            · simp
            · exact Nat.le_succ_of_le (ih _)
          · simp
  have h2 := hlen scanner []
  simp only [extractValuesFrom] at _hcall
  rw [_hcall] at h2
  exact Nat.lt_succ_of_le h2

/-! ## One step of the classifier -/

theorem parseLoop_nil (a : Analysis) : parseLoop a [] = (a, none) := by
  rw [parseLoop]

theorem parseLoop_blockID (a : Analysis) (s : String) (rest : List String) :
    parseLoop a (("Block ID: " ++ s) :: rest) = parseLoop { a with BlockID := s } rest := by
  rw [parseLoop]
  simp [HasPrefix, TrimPrefix, List.isPrefixOf]

theorem parseLoop_duration (a : Analysis) (s : String) (rest : List String) :
    parseLoop a (("Duration: " ++ s) :: rest) = parseLoop { a with Duration := s } rest := by
  rw [parseLoop]
  simp [HasPrefix, TrimPrefix, List.isPrefixOf]

theorem parseLoop_counter (a : Analysis) (c : Counter) (s : String) (rest : List String) :
    parseLoop a ((c.pre ++ s) :: rest) =
      match (ParseUint s).2 with
      | some err => (a.setCounter c (ParseUint s).1, some err)
      | none => parseLoop (a.setCounter c (ParseUint s).1) rest := by
  rw [parseLoop]
  cases c <;> simp [Counter.pre, HasPrefix, TrimPrefix, List.isPrefixOf, Analysis.setCounter]
  all_goals
    have hs : String.mk s.data = s := rfl
    rw [hs]
    rcases ParseUint s with ⟨v, _ | e⟩ <;> rfl

theorem parseLoop_section (a : Analysis) (sec : Section) (rest : List String) :
    parseLoop a (sec.title :: rest) =
      match (extractValues rest).1.2 with
      | some err => (a, some err)
      | none => parseLoop (a.setList sec (extractValues rest).1.1) (extractValues rest).2 := by
  rw [parseLoop]
  cases sec <;> simp [Section.title, HasPrefix, List.isPrefixOf, Analysis.setList]
  all_goals
    rcases extractValues rest with ⟨⟨v, _ | e⟩, r⟩ <;> rfl

theorem parseLoop_ignored (a : Analysis) (line : String) (rest : List String)
    (h : isRecognized line = false) : parseLoop a (line :: rest) = parseLoop a rest := by
  rw [parseLoop]
  simp only [isRecognized, Bool.or_eq_false_iff, decide_eq_false_iff_not] at h
  obtain ⟨⟨⟨⟨⟨⟨⟨⟨⟨⟨⟨h1, h2⟩, h3⟩, h4⟩, h5⟩, h6⟩, h7⟩, h8⟩, h9⟩, h10⟩, h11⟩, h12⟩ := h
  simp [h1, h2, h3, h4, h5, h6, h7, h8, h9, h10, h11, h12]

theorem HasPrefix_iff (line pre : String) :
    HasPrefix line pre = true ↔ ∃ s, line = pre ++ s := by
  unfold HasPrefix
  rw [List.isPrefixOf_iff_prefix]
  constructor
  · rintro ⟨t, ht⟩
    refine ⟨String.mk t, ?_⟩
    apply String.ext
    simp [ht]
  · rintro ⟨s, rfl⟩
    exact ⟨s.data, by simp⟩

/-- Every line falls in exactly one of the classifier's cases. -/
theorem line_cases (line : String) :
    (∃ s, line = "Block ID: " ++ s) ∨ (∃ s, line = "Duration: " ++ s) ∨
      (∃ c : Counter, ∃ s, line = c.pre ++ s) ∨ (∃ sec : Section, line = sec.title) ∨
      isRecognized line = false := by
  by_cases h : isRecognized line = false
  · exact Or.inr (Or.inr (Or.inr (Or.inr h)))
  · simp only [isRecognized, Bool.or_eq_false_iff, decide_eq_false_iff_not, not_and_or,
      Bool.not_eq_false, not_not, HasPrefix_iff] at h
    rcases h with ((((((((((h | h) | h) | h) | h) | h) | h) | h) | h) | h) | h) | h
    · exact Or.inl h
    · exact Or.inr (Or.inl h)
    · exact Or.inr (Or.inr (Or.inl ⟨.Series, h⟩))
    · exact Or.inr (Or.inr (Or.inl ⟨.LabelNames, h⟩))
    · exact Or.inr (Or.inr (Or.inl ⟨.PostingsUnique, h⟩))
    · exact Or.inr (Or.inr (Or.inl ⟨.PostingsEntries, h⟩))
    · exact Or.inr (Or.inr (Or.inr (Or.inl ⟨.LabelPairsMostInvolvedInChurning, h⟩)))
    · exact Or.inr (Or.inr (Or.inr (Or.inl ⟨.LabelNamesMostInvolvedInChurning, h⟩)))
    · exact Or.inr (Or.inr (Or.inr (Or.inl ⟨.MostCommonLabelPairs, h⟩)))
    · exact Or.inr (Or.inr (Or.inr (Or.inl
        ⟨.LabelNamesWithHighestCumulativeLabelValueLength, h⟩)))
    · exact Or.inr (Or.inr (Or.inr (Or.inl ⟨.HighestCardinalityLabels, h⟩)))
    · exact Or.inr (Or.inr (Or.inr (Or.inl ⟨.HighestCardinalityMetricNames, h⟩)))

/-! ## `ParseUint` reads exactly the decimal numerals below `2^64` -/

theorem decValueFrom_ge (cs : List Char) (n : Nat) : n ≤ decValueFrom n cs := by
  induction cs generalizing n with
  | nil => simp [decValueFrom]
  | cons c cs ih =>
    have h := ih (10 * n + (c.toNat - 48))
    simp only [decValueFrom, List.foldl_cons] at h ⊢
    omega

theorem decValueFrom_cons (n : Nat) (c : Char) (cs : List Char) :
    decValueFrom n (c :: cs) = decValueFrom (10 * n + (c.toNat - 48)) cs := rfl

theorem digitOf_of_digit (c : Char) (h : isDecDigit c = true) :
    digitOf c = some (c.toNat - 48) := by
  simp only [isDecDigit, decide_eq_true_eq] at h
  simp [digitOf, h]

theorem digitOf_of_not_digit (c : Char) (h : isDecDigit c = false) :
    digitOf c = none ∨ ∃ d, digitOf c = some d ∧ 10 ≤ d := by
  simp only [isDecDigit, decide_eq_false_iff_not] at h
  unfold digitOf
  simp only [h, if_false]
  split
  · exact Or.inr ⟨_, rfl, by omega⟩
  · exact Or.inl rfl

/-- The digit loop returns the value of the digits when they are all digits
and the value fits. -/
theorem ParseUintLoop_ok (s0 : String) (cs : List Char) (n : Nat)
    (hd : cs.all isDecDigit = true) (hv : decValueFrom n cs < 2 ^ 64) :
    ParseUintLoop s0 n cs = (decValueFrom n cs, none) := by
  induction cs generalizing n with
  | nil => simp [ParseUintLoop, decValueFrom]
  | cons c cs ih =>
    simp only [List.all_cons, Bool.and_eq_true] at hd
    have hc := hd.1
    rw [decValueFrom_cons] at hv ⊢
    have hge := decValueFrom_ge cs (10 * n + (c.toNat - 48))
    have hdig := digitOf_of_digit c hc
    simp only [isDecDigit, decide_eq_true_eq] at hc
    unfold ParseUintLoop
    simp only [hdig, maxUint64]
    have h1 : ¬ (c.toNat - 48 ≥ 10) := by omega
    have h2 : ¬ (n ≥ (2 ^ 64 - 1) / 10 + 1) := by omega
    have h3 : n * 10 % 2 ^ 64 = n * 10 := Nat.mod_eq_of_lt (by omega)
    have h4 : (n * 10 + (c.toNat - 48)) % 2 ^ 64 = 10 * n + (c.toNat - 48) := by
      rw [Nat.mod_eq_of_lt (by omega)]; omega
    simp only [h1, h2, if_false, h3, h4]
    have h5 : ¬ (10 * n + (c.toNat - 48) < n * 10 ∨ 10 * n + (c.toNat - 48) > 2 ^ 64 - 1) := by
      omega
    simp only [h5, if_false]
    exact ih _ hd.2 hv

/-- The digit loop fails when a character is not a digit or the value does not
fit. -/
theorem ParseUintLoop_err (s0 : String) (cs : List Char) (n : Nat) (hn : n < 2 ^ 64)
    (h : ¬ (cs.all isDecDigit = true ∧ decValueFrom n cs < 2 ^ 64)) :
    ∃ e, (ParseUintLoop s0 n cs).2 = some e := by
  induction cs generalizing n with
  | nil => exact absurd ⟨by simp, by simpa [decValueFrom] using hn⟩ h
  | cons c cs ih =>
    unfold ParseUintLoop
    by_cases hc : isDecDigit c = true
    · have hdig := digitOf_of_digit c hc
      simp only [hdig, maxUint64]
      have hc2 := hc
      simp only [isDecDigit, decide_eq_true_eq] at hc2
      have h1 : ¬ (c.toNat - 48 ≥ 10) := by omega
      simp only [h1, if_false]
      split
      · exact ⟨_, rfl⟩
      · rename_i h2
        have h3 : n * 10 % 2 ^ 64 = n * 10 := Nat.mod_eq_of_lt (by omega)
        simp only [h3]
        split
        · exact ⟨_, rfl⟩
        · rename_i h5
          have h4 : (n * 10 + (c.toNat - 48)) % 2 ^ 64 = 10 * n + (c.toNat - 48) := by
            rw [Nat.mod_eq_of_lt (by omega)]; omega
          rw [h4]
          apply ih
          · omega
          · intro hh
            apply h
            simp only [List.all_cons, Bool.and_eq_true]
            exact ⟨⟨hc, hh.1⟩, by rw [decValueFrom_cons]; exact hh.2⟩
    · simp only [Bool.not_eq_true] at hc
      rcases digitOf_of_not_digit c hc with hnone | ⟨d, hd, hd10⟩
      · simp [hnone]
      · simp [hd, hd10]

/-- Success of `ParseUint`: exactly on the texts of unsigned 64-bit integers,
with their value. -/
theorem ParseUint_ok (s : String) (h : isUint64 s = true) :
    ParseUint s = (decValue s, none) := by
  simp only [isUint64, isNumeral, Bool.and_eq_true, Bool.not_eq_true', decide_eq_true_eq] at h
  obtain ⟨⟨hne, hd⟩, hv⟩ := h
  have hs : s ≠ "" := by
    intro hs
    rw [hs] at hne
    simp at hne
  unfold ParseUint
  rw [if_neg hs]
  exact ParseUintLoop_ok s s.data 0 hd hv

theorem ParseUint_err (s : String) (h : isUint64 s = false) :
    ∃ e, (ParseUint s).2 = some e := by
  unfold ParseUint
  by_cases hs : s = ""
  · rw [if_pos hs]
    exact ⟨_, rfl⟩
  · rw [if_neg hs]
    apply ParseUintLoop_err s s.data 0 (by omega)
    intro hh
    have hne : s.data.isEmpty = false := by
      cases hdata : s.data with
      | nil => exact absurd (String.ext hdata) hs
      | cons c cs => rfl
    simp [isUint64, isNumeral, hne, hh.1, decValue] at h
    omega

theorem ParseUint_isNone_iff (s : String) :
    (ParseUint s).2 = none ↔ isUint64 s = true := by
  constructor
  · intro h
    by_contra hn
    simp only [Bool.not_eq_true] at hn
    obtain ⟨e, he⟩ := ParseUint_err s hn
    rw [he] at h
    exact Option.noConfusion h
  · intro h
    rw [ParseUint_ok s h]

/-! ## `TrimSpace` and `Split` -/

theorem TrimSpace_eq_empty_iff (s : String) : TrimSpace s = "" ↔ isBlank s = true := by
  unfold TrimSpace isBlank
  have h0 : ∀ l : List Char, String.mk l = "" ↔ l = [] := by
    intro l
    constructor
    · intro h
      have := congrArg String.data h
      simpa using this
    · rintro rfl
      rfl
  rw [h0, List.reverse_eq_nil_iff, List.dropWhile_eq_nil_iff, List.all_eq_true]
  constructor
  · intro h
    have hnil : s.data.dropWhile isSpace = [] := by
      cases hd : s.data.dropWhile isSpace with
      | nil => rfl
      | cons c t =>
        have hne : s.data.dropWhile isSpace ≠ [] := by rw [hd]; simp
        have h1 := List.head_dropWhile_not isSpace s.data hne
        have h2 := h ((s.data.dropWhile isSpace).head hne)
          (List.mem_reverse.mpr (List.head_mem hne))
        rw [h2] at h1
        exact Bool.noConfusion h1
    rw [List.dropWhile_eq_nil_iff] at hnil
    exact hnil
  · intro h x hx
    rw [List.mem_reverse] at hx
    exact h x ((List.dropWhile_sublist isSpace).subset hx)

theorem splitChars_of_not_mem (sep : Char) (cs : List Char) (h : sep ∉ cs) :
    splitChars sep cs = [cs] := by
  induction cs with
  | nil => rfl
  | cons c cs ih =>
    simp only [List.mem_cons, not_or] at h
    have hc : ¬ c = sep := fun e => h.1 e.symm
    simp [splitChars, hc, ih h.2]

theorem splitChars_append_sep (sep : Char) (a b : List Char) (h : sep ∉ a) :
    splitChars sep (a ++ sep :: b) = a :: splitChars sep b := by
  induction a with
  | nil => simp [splitChars]
  | cons c cs ih =>
    simp only [List.mem_cons, not_or] at h
    have hc : ¬ c = sep := fun e => h.1 e.symm
    simp [splitChars, hc, ih h.2]

theorem Split_append_space (a b : String) (h : ' ' ∉ a.data) :
    Split (a ++ " " ++ b) ' ' = a :: Split b ' ' := by
  unfold Split
  have : (a ++ " " ++ b).data = a.data ++ ' ' :: b.data := by simp
  rw [this, splitChars_append_sep ' ' _ _ h]
  rfl

theorem Split_of_not_mem (b : String) (h : ' ' ∉ b.data) : Split b ' ' = [b] := by
  unfold Split
  rw [splitChars_of_not_mem ' ' _ h]
  rfl

theorem splitChars_ne_nil (sep : Char) (cs : List Char) : splitChars sep cs ≠ [] := by
  cases cs with
  | nil => simp [splitChars]
  | cons c cs =>
    unfold splitChars
    split
    · simp
    · split <;> simp

/-- `splitChars` cuts at every separator and nowhere else: no piece holds the
separator, and the pieces joined by the separator give the text back. -/
theorem splitChars_spec (sep : Char) (cs : List Char) :
    (∀ p ∈ splitChars sep cs, sep ∉ p) ∧ [sep].intercalate (splitChars sep cs) = cs := by
  induction cs with
  | nil => simp [splitChars, List.intercalate]
  | cons c cs ih =>
    unfold splitChars
    by_cases hc : c = sep
    · rw [if_pos hc]
      rcases hs : splitChars sep cs with _ | ⟨p, ps⟩
      · exact absurd hs (splitChars_ne_nil sep cs)
      · rw [hs] at ih
        refine ⟨?_, ?_⟩
        · intro q hq
          rcases List.mem_cons.mp hq with rfl | hq
          · simp
          · exact ih.1 q hq
        · have h2 := ih.2
          simp only [List.intercalate, List.intersperse, List.flatten_cons, List.nil_append,
            List.singleton_append] at h2 ⊢
          rw [h2, hc]
    · rw [if_neg hc]
      rcases hs : splitChars sep cs with _ | ⟨p, ps⟩
      · exact absurd hs (splitChars_ne_nil sep cs)
      · rw [hs] at ih
        refine ⟨?_, ?_⟩
        · intro q hq
          rcases List.mem_cons.mp hq with rfl | hq
          · intro hm
            rcases List.mem_cons.mp hm with h | h
            · exact hc h.symm
            · exact ih.1 p (List.mem_cons_self p ps) h
          · exact ih.1 q (List.mem_cons_of_mem p hq)
        · have h2 := ih.2
          cases ps with
          | nil =>
            simp only [List.intercalate, List.intersperse, List.flatten_cons, List.flatten_nil,
              List.append_nil] at h2 ⊢
            rw [h2]
          | cons p2 ps2 =>
            simp only [List.intercalate, List.intersperse, List.flatten_cons, List.cons_append] at h2 ⊢
            rw [h2]

theorem Split_ne_nil (s : String) : Split s ' ' ≠ [] := by
  unfold Split
  simpa using splitChars_ne_nil ' ' s.data

/-! ## One step of `extractValues` -/

theorem extractValuesLoop_nil (vs : List NameCount) :
    extractValuesLoop vs [] = ((vs, none), []) := rfl

theorem extractValuesLoop_blank (vs : List NameCount) (line : String) (rest : List String)
    (h : isBlank line = true) : extractValuesLoop vs (line :: rest) = ((vs, none), rest) := by
  rw [extractValuesLoop, if_pos ((TrimSpace_eq_empty_iff line).mpr h)]

theorem extractValuesLoop_entry (vs : List NameCount) (line : String) (rest : List String)
    (hb : isBlank line = false) (h : isEntryLine line = true) :
    extractValuesLoop vs (line :: rest) = extractValuesLoop (vs ++ [entryOfLine line]) rest := by
  have hb2 : ¬ TrimSpace line = "" := by
    rw [TrimSpace_eq_empty_iff, hb]; simp
  rw [extractValuesLoop, if_neg hb2]
  unfold isEntryLine at h
  unfold entryOfLine
  rcases hs : Split line ' ' with _ | ⟨p0, _ | ⟨p1, _ | ⟨p2, t⟩⟩⟩
  all_goals simp only [hs] at h ⊢
  all_goals first
    | exact Bool.noConfusion h
    | rw [ParseUint_ok p0 h]

theorem extractValuesLoop_malformed (vs : List NameCount) (line : String) (rest : List String)
    (hb : isBlank line = false) (h : isEntryLine line = false) :
    extractValuesLoop vs (line :: rest) = (([], some (entryError line)), rest) := by
  have hb2 : ¬ TrimSpace line = "" := by
    rw [TrimSpace_eq_empty_iff, hb]; simp
  rw [extractValuesLoop, if_neg hb2]
  unfold isEntryLine at h
  unfold entryError
  rcases hs : Split line ' ' with _ | ⟨p0, _ | ⟨p1, _ | ⟨p2, t⟩⟩⟩
  all_goals simp only [hs] at h ⊢
  · rfl
  · rfl
  · obtain ⟨e, he⟩ := ParseUint_err p0 h
    rcases hp : ParseUint p0 with ⟨v, _ | e2⟩
    · rw [hp] at he
      exact Option.noConfusion he
    · rfl
  · simp

theorem bodyLines_cons_blank (line : String) (rest : List String) (h : isBlank line = true) :
    bodyLines (line :: rest) = [] := by
  simp [bodyLines, h]

theorem bodyLines_cons_not_blank (line : String) (rest : List String)
    (h : isBlank line = false) : bodyLines (line :: rest) = line :: bodyLines rest := by
  simp [bodyLines, h]

/-- The whole of `extractValues`: entries up to the first blank line, unless a
line before it is malformed. -/
theorem extractValuesLoop_eq (scanner : List String) (vs : List NameCount) :
    (extractValuesLoop vs scanner).1 =
      match firstMalformed scanner with
      | none => (vs ++ (bodyLines scanner).map entryOfLine, none)
      | some line => ([], some (entryError line)) := by
  induction scanner generalizing vs with
  | nil => simp [extractValuesLoop, firstMalformed, bodyLines]
  | cons l rest ih =>
    by_cases hb : isBlank l = true
    · rw [extractValuesLoop_blank vs l rest hb]
      simp [firstMalformed, bodyLines_cons_blank l rest hb]
    · simp only [Bool.not_eq_true] at hb
      by_cases he : isEntryLine l = true
      · rw [extractValuesLoop_entry vs l rest hb he, ih]
        simp only [firstMalformed, bodyLines_cons_not_blank l rest hb, List.find?_cons, he,
          Bool.not_true, List.map_cons]
        cases List.find? (fun line => !isEntryLine line) (bodyLines rest) <;> simp
      · simp only [Bool.not_eq_true] at he
        rw [extractValuesLoop_malformed vs l rest hb he]
        simp [firstMalformed, bodyLines_cons_not_blank l rest hb, List.find?_cons, he]

/-- Where `extractValues` leaves the scanner when it succeeds: just past the
blank line that ends the body. -/
theorem extractValuesLoop_rest (scanner : List String) (vs : List NameCount)
    (h : firstMalformed scanner = none) :
    (extractValuesLoop vs scanner).2 = scanner.drop ((bodyLines scanner).length + 1) := by
  induction scanner generalizing vs with
  | nil => simp [extractValuesLoop]
  | cons l rest ih =>
    by_cases hb : isBlank l = true
    · rw [extractValuesLoop_blank vs l rest hb]
      simp [bodyLines_cons_blank l rest hb]
    · simp only [Bool.not_eq_true] at hb
      by_cases he : isEntryLine l = true
      · have h2 : firstMalformed rest = none := by
          simpa [firstMalformed, bodyLines_cons_not_blank l rest hb, List.find?_cons, he]
            using h
        rw [extractValuesLoop_entry vs l rest hb he, ih _ h2]
        simp [bodyLines_cons_not_blank l rest hb]
      · simp only [Bool.not_eq_true] at he
        simp [firstMalformed, bodyLines_cons_not_blank l rest hb, List.find?_cons, he] at h

/-! ## Valid entry lines -/

theorem isSpace_of_digit (c : Char) (h : isDecDigit c = true) : isSpace c = false := by
  simp only [isDecDigit, decide_eq_true_eq] at h
  have h255 : c.toNat ≤ 0xFF := by omega
  simp only [isSpace, h255, if_true, Bool.or_eq_false_iff, decide_eq_false_iff_not]
  omega

theorem ne_space_of_digit (c : Char) (h : isDecDigit c = true) : c ≠ ' ' := by
  rintro rfl
  exact absurd h (by decide)

theorem isNumeral_data (s : String) (h : isNumeral s = true) :
    ∃ c cs, s.data = c :: cs ∧ isDecDigit c = true ∧ ∀ x ∈ s.data, isDecDigit x = true := by
  simp only [isNumeral, Bool.and_eq_true, Bool.not_eq_true', List.all_eq_true] at h
  cases hd : s.data with
  | nil => rw [hd] at h; simp at h
  | cons c cs =>
    rw [hd] at h
    exact ⟨c, cs, rfl, h.2 c (List.mem_cons_self c cs), h.2⟩

theorem isUint64_isNumeral (s : String) (h : isUint64 s = true) : isNumeral s = true := by
  simp only [isUint64, Bool.and_eq_true] at h
  exact h.1

theorem EntryText.not_blank (e : EntryText) (h : e.valid = true) :
    isBlank e.line = false := by
  simp only [EntryText.valid, Bool.and_eq_true] at h
  obtain ⟨c, cs, hd, hc, -⟩ := isNumeral_data e.count (isUint64_isNumeral _ h.1)
  have hl : e.line.data = c :: (cs ++ ' ' :: e.name.data) := by
    simp [EntryText.line, hd]
  simp [isBlank, hl, isSpace_of_digit c hc]

theorem EntryText.split (e : EntryText) (h : e.valid = true) :
    Split e.line ' ' = [e.count, e.name] := by
  simp only [EntryText.valid, Bool.and_eq_true, decide_eq_true_eq] at h
  obtain ⟨c, cs, -, -, hall⟩ := isNumeral_data e.count (isUint64_isNumeral _ h.1)
  have hns : ' ' ∉ e.count.data := fun hm => ne_space_of_digit ' ' (hall _ hm) rfl
  rw [EntryText.line, Split_append_space _ _ hns, Split_of_not_mem _ h.2]

theorem EntryText.isEntryLine (e : EntryText) (h : e.valid = true) :
    isEntryLine e.line = true := by
  have hs := EntryText.split e h
  simp only [EntryText.valid, Bool.and_eq_true] at h
  simp [TsdbAnalyze.isEntryLine, hs, h.1]

theorem EntryText.entryOfLine (e : EntryText) (h : e.valid = true) :
    entryOfLine e.line = e.entry := by
  simp [TsdbAnalyze.entryOfLine, EntryText.split e h, EntryText.entry]

/-- The extractor on a body of valid entry lines closed by a blank line. -/
theorem extractValuesLoop_entries_blank (es : List EntryText) (h : ∀ e ∈ es, e.valid = true)
    (vs : List NameCount) (b : String) (hb : isBlank b = true) (rest : List String) :
    extractValuesLoop vs (es.map EntryText.line ++ b :: rest) =
      ((vs ++ es.map EntryText.entry, none), rest) := by
  induction es generalizing vs with
  | nil => simpa using extractValuesLoop_blank vs b rest hb
  | cons e es ih =>
    have he := h e (List.mem_cons_self e es)
    rw [List.map_cons, List.cons_append,
      extractValuesLoop_entry vs _ _ (EntryText.not_blank e he) (EntryText.isEntryLine e he),
      ih (fun x hx => h x (List.mem_cons_of_mem e hx)), EntryText.entryOfLine e he]
    simp

/-- The extractor on a body of valid entry lines closed by the end of input. -/
theorem extractValuesLoop_entries_eof (es : List EntryText) (h : ∀ e ∈ es, e.valid = true)
    (vs : List NameCount) :
    extractValuesLoop vs (es.map EntryText.line) = ((vs ++ es.map EntryText.entry, none), []) := by
  induction es generalizing vs with
  | nil => simp [extractValuesLoop]
  | cons e es ih =>
    have he := h e (List.mem_cons_self e es)
    rw [List.map_cons,
      extractValuesLoop_entry vs _ _ (EntryText.not_blank e he) (EntryText.isEntryLine e he),
      ih (fun x hx => h x (List.mem_cons_of_mem e hx)), EntryText.entryOfLine e he]
    simp

/-- The classifier on a whole section closed by a blank line. -/
theorem parseLoop_section_blank (a : Analysis) (sec : Section) (es : List EntryText)
    (h : ∀ e ∈ es, e.valid = true) (b : String) (hb : isBlank b = true) (rest : List String) :
    parseLoop a (sec.title :: (es.map EntryText.line ++ b :: rest)) =
      parseLoop (a.setList sec (es.map EntryText.entry)) rest := by
  rw [parseLoop_section, extractValues, extractValuesLoop_entries_blank es h [] b hb rest]
  simp

/-- The classifier on a whole section closed by the end of input. -/
theorem parseLoop_section_eof (a : Analysis) (sec : Section) (es : List EntryText)
    (h : ∀ e ∈ es, e.valid = true) :
    parseLoop a (sec.title :: es.map EntryText.line) =
      (a.setList sec (es.map EntryText.entry), none) := by
  rw [parseLoop_section, extractValues, extractValuesLoop_entries_eof es h []]
  simp [parseLoop_nil]

/-! ## Decimal text -/

theorem decValueFrom_append (m : Nat) (a b : List Char) :
    decValueFrom m (a ++ b) = decValueFrom (decValueFrom m a) b := by
  simp [decValueFrom, List.foldl_append]

theorem digitChar_spec (k : Nat) (hk : k < 10) :
    isDecDigit (Nat.digitChar k) = true ∧ (Nat.digitChar k).toNat - 48 = k := by
  interval_cases k <;> exact ⟨by decide, by decide⟩

/-- With enough fuel `Nat.toDigitsCore` puts, in front of the accumulator, a
non-empty run of digits whose value is the number. -/
theorem toDigitsCore_run (fuel n : Nat) (acc : List Char) (hfuel : n < fuel) :
    ∃ run : List Char, run ≠ [] ∧ run.all isDecDigit = true ∧ decValueFrom 0 run = n ∧
      Nat.toDigitsCore 10 fuel n acc = run ++ acc := by
  induction fuel generalizing n acc with
  | zero => omega
  | succ fuel ih =>
    have hmod : n % 10 < 10 := Nat.mod_lt _ (by omega)
    obtain ⟨hdig, hval⟩ := digitChar_spec (n % 10) hmod
    unfold Nat.toDigitsCore
    by_cases hq : n / 10 = 0
    · simp only [hq, if_true]
      refine ⟨[Nat.digitChar (n % 10)], by simp, by simp [hdig], ?_, rfl⟩
      simp only [decValueFrom, List.foldl_cons, List.foldl_nil, hval]
      omega
    · simp only [hq, if_false]
      obtain ⟨run, hne, hall, hv, hrun⟩ :=
        ih (n / 10) (Nat.digitChar (n % 10) :: acc) (by omega)
      refine ⟨run ++ [Nat.digitChar (n % 10)], by simp, ?_, ?_, by simp [hrun]⟩
      · simp [List.all_append, hall, hdig]
      · rw [decValueFrom_append, hv]
        simp only [decValueFrom, List.foldl_cons, List.foldl_nil, hval]
        omega

theorem decimal_spec (n : Nat) :
    isNumeral (decimal n) = true ∧ decValue (decimal n) = n := by
  obtain ⟨run, hne, hall, hv, hrun⟩ := toDigitsCore_run (n + 1) n [] (by omega)
  have hd : (decimal n).data = run := by
    simp [decimal, Nat.toDigits, hrun]
  constructor
  · simp only [isNumeral, hd, Bool.and_eq_true, Bool.not_eq_true', hall, and_true]
    cases run with
    | nil => exact absurd rfl hne
    | cons c cs => rfl
  · simp [decValue, hd, hv]

theorem decimal_isUint64 (n : Nat) (h : n < 2 ^ 64) : isUint64 (decimal n) = true := by
  obtain ⟨h1, h2⟩ := decimal_spec n
  simp only [isUint64, h1, h2, Bool.true_and, decide_eq_true_eq]
  exact h

/-! ## Entries written in decimal -/

theorem entryLine_eq (e : NameCount) :
    entryLine e = (EntryText.mk (decimal e.Count) e.Name).line := rfl

theorem entryText_of_entry (e : NameCount) (hn : ' ' ∉ e.Name.data) (hc : e.Count < 2 ^ 64) :
    (EntryText.mk (decimal e.Count) e.Name).valid = true ∧
      (EntryText.mk (decimal e.Count) e.Name).entry = e := by
  constructor
  · simp [EntryText.valid, decimal_isUint64 e.Count hc, hn]
  · simp [EntryText.entry, (decimal_spec e.Count).2]

/-! ### Recognized lines are never consumed silently by the extractor -/

theorem isBlank_word_line (w r : String) (hw : isBlank w = false) :
    isBlank (w ++ " " ++ r) = false := by
  simp only [isBlank, String.data_append, List.all_append, Bool.and_eq_false_iff] at hw ⊢
  exact Or.inl (Or.inl hw)

theorem isEntryLine_word_line (w r : String) (hw : ' ' ∉ w.data) (hnum : isUint64 w = false) :
    isEntryLine (w ++ " " ++ r) = false := by
  unfold isEntryLine
  rw [Split_append_space w r hw]
  rcases Split r ' ' with _ | ⟨p1, _ | ⟨p2, t⟩⟩
  · rfl
  · exact hnum
  · rfl

/-- The first words of the twelve recognized prefixes and titles. -/
theorem first_words :
    ∀ w ∈ ["Block", "Duration:", "Series:", "Label", "Postings", "Most", "Highest"],
      isBlank w = false ∧ ' ' ∉ w.data ∧ isUint64 w = false := by
  decide

theorem word_line_not_consumed (w r0 s : String)
    (hw : w ∈ ["Block", "Duration:", "Series:", "Label", "Postings", "Most", "Highest"]) :
    isBlank (w ++ " " ++ r0 ++ s) = false ∧ isEntryLine (w ++ " " ++ r0 ++ s) = false := by
  obtain ⟨h1, h2, h3⟩ := first_words w hw
  rw [String.append_assoc (w ++ " ") r0 s]
  exact ⟨isBlank_word_line w _ h1, isEntryLine_word_line w _ h2 h3⟩

theorem counter_line_not_consumed (c : Counter) (s : String) :
    isBlank (c.pre ++ s) = false ∧ isEntryLine (c.pre ++ s) = false := by
  cases c
  · exact word_line_not_consumed "Series:" "" s (by decide)
  · exact word_line_not_consumed "Label" "names: " s (by decide)
  · exact word_line_not_consumed "Postings" "(unique label pairs): " s (by decide)
  · exact word_line_not_consumed "Postings" "entries (total label pairs): " s (by decide)

theorem firstMalformed_of_ok (scanner : List String) (vs : List NameCount)
    (h : (extractValuesLoop vs scanner).1.2 = none) : firstMalformed scanner = none := by
  have key := extractValuesLoop_eq scanner vs
  cases hf : firstMalformed scanner with
  | none => rfl
  | some line =>
    rw [hf] at key
    rw [key] at h
    exact Option.noConfusion h

/-- A line given to a successful extractor was a well-formed entry line, or
blank, or is still in the scanner afterwards. -/
theorem mem_consumed_or_rest (scanner : List String) (h : firstMalformed scanner = none)
    (line : String) (hmem : line ∈ scanner) :
    isEntryLine line = true ∨ isBlank line = true ∨
      line ∈ scanner.drop ((bodyLines scanner).length + 1) := by
  induction scanner with
  | nil => exact absurd hmem (List.not_mem_nil line)
  | cons l rest ih =>
    by_cases hb : isBlank l = true
    · rcases List.mem_cons.mp hmem with rfl | hrest
      · exact Or.inr (Or.inl hb)
      · right; right
        simpa [bodyLines_cons_blank l rest hb] using hrest
    · simp only [Bool.not_eq_true] at hb
      have hfind : (!isEntryLine l) = false ∧ firstMalformed rest = none := by
        simp only [firstMalformed, bodyLines_cons_not_blank l rest hb, List.find?_cons] at h
        cases he : (!isEntryLine l) with
        | true => rw [he] at h; exact Option.noConfusion h
        | false => rw [he] at h; exact ⟨rfl, h⟩
      rcases List.mem_cons.mp hmem with rfl | hrest
      · left
        simpa using hfind.1
      · rcases ih hfind.2 hrest with h1 | h1 | h1
        · exact Or.inl h1
        · exact Or.inr (Or.inl h1)
        · right; right
          simpa [bodyLines_cons_not_blank l rest hb] using h1

theorem extractValues_rest_length (scanner : List String) :
    (extractValues scanner).2.length ≤ scanner.length := by
  unfold extractValues
  generalize ([] : List NameCount) = vs
  induction scanner generalizing vs with
  | nil => simp [extractValuesLoop]
  | cons l rest ih =>
    by_cases hb : isBlank l = true
    · rw [extractValuesLoop_blank vs l rest hb]
      simp
    · simp only [Bool.not_eq_true] at hb
      by_cases he : isEntryLine l = true
      · rw [extractValuesLoop_entry vs l rest hb he]
        exact Nat.le_succ_of_le (ih _)
      · simp only [Bool.not_eq_true] at he
        rw [extractValuesLoop_malformed vs l rest hb he]
        simp

theorem parseLoop_bad_counter (c : Counter) (s : String) (hbad : (ParseUint s).2 ≠ none) :
    ∀ (n : Nat) (lines : List String) (a : Analysis), lines.length ≤ n →
      (c.pre ++ s) ∈ lines → (parseLoop a lines).2 ≠ none := by
  intro n
  induction n with
  | zero =>
    intro lines a hlen hmem
    cases lines with
    | nil => exact absurd hmem (List.not_mem_nil _)
    | cons l rest => simp at hlen
  | succ n ih =>
    intro lines a hlen hmem
    cases lines with
    | nil => exact absurd hmem (List.not_mem_nil _)
    | cons line rest =>
      have hlen2 : rest.length ≤ n := by simpa using hlen
      by_cases hhead : line = c.pre ++ s
      · subst hhead
        rw [parseLoop_counter]
        cases hp : (ParseUint s).2 with
        | none => exact absurd hp hbad
        | some e => simp
      · have hrest : (c.pre ++ s) ∈ rest := by
          rcases List.mem_cons.mp hmem with h | h
          · exact absurd h.symm hhead
          · exact h
        rcases line_cases line with ⟨t, rfl⟩ | ⟨t, rfl⟩ | ⟨c2, t, rfl⟩ | ⟨sec, rfl⟩ | hign
        · rw [parseLoop_blockID]
          exact ih rest _ hlen2 hrest
        · rw [parseLoop_duration]
          exact ih rest _ hlen2 hrest
        · rw [parseLoop_counter]
          cases hp : (ParseUint t).2 with
          | none => exact ih rest _ hlen2 hrest
          | some e => simp
        · rw [parseLoop_section]
          cases hp : (extractValues rest).1.2 with
          | some e => simp
          | none =>
            have hfm := firstMalformed_of_ok rest [] hp
            have hlen3 := extractValues_rest_length rest
            apply ih _ _ (Nat.le_trans hlen3 hlen2)
            rcases mem_consumed_or_rest rest hfm _ hrest with h1 | h1 | h1
            · rw [(counter_line_not_consumed c s).2] at h1
              exact Bool.noConfusion h1
            · rw [(counter_line_not_consumed c s).1] at h1
              exact Bool.noConfusion h1
            · unfold extractValues
              rw [extractValuesLoop_rest rest [] hfm]
              exact h1
        · rw [parseLoop_ignored a line rest hign]
          exact ih rest _ hlen2 hrest

/-! ### The series counter of a successful parse -/

theorem recognized_not_consumed (line : String) (h : isRecognized line = true) :
    isBlank line = false ∧ isEntryLine line = false := by
  rcases line_cases line with ⟨t, rfl⟩ | ⟨t, rfl⟩ | ⟨c, t, rfl⟩ | ⟨sec, rfl⟩ | hign
  · exact word_line_not_consumed "Block" "ID: " t (by decide)
  · exact word_line_not_consumed "Duration:" "" t (by decide)
  · exact counter_line_not_consumed c t
  · cases sec <;> decide
  · rw [hign] at h
    exact Bool.noConfusion h

theorem isRecognized_of_series (line : String) (h : HasPrefix line "Series: " = true) :
    isRecognized line = true := by
  simp [isRecognized, h]

/-- The lines that a successful extractor consumed are well-formed entry lines
or blank. -/
theorem consumed_lines (scanner : List String) (h : firstMalformed scanner = none)
    (line : String) (hmem : line ∈ scanner.take ((bodyLines scanner).length + 1)) :
    isEntryLine line = true ∨ isBlank line = true := by
  induction scanner with
  | nil => simp at hmem
  | cons l rest ih =>
    by_cases hb : isBlank l = true
    · rw [bodyLines_cons_blank l rest hb] at hmem
      simp only [List.length_nil, Nat.zero_add, List.take_succ_cons, List.take_zero,
        List.mem_singleton] at hmem
      rw [hmem]
      exact Or.inr hb
    · simp only [Bool.not_eq_true] at hb
      have hfind : (!isEntryLine l) = false ∧ firstMalformed rest = none := by
        simp only [firstMalformed, bodyLines_cons_not_blank l rest hb, List.find?_cons] at h
        cases he : (!isEntryLine l) with
        | true => rw [he] at h; exact Option.noConfusion h
        | false => rw [he] at h; exact ⟨rfl, h⟩
      rw [bodyLines_cons_not_blank l rest hb] at hmem
      simp only [List.length_cons, List.take_succ_cons, List.mem_cons] at hmem
      rcases hmem with rfl | hrest
      · left
        simpa using hfind.1
      · exact ih hfind.2 hrest

theorem seriesAfter_cons (init : Nat) (line : String) (rest : List String) :
    seriesAfter init (line :: rest) =
      seriesAfter
        (if HasPrefix line "Series: " then (ParseUint (TrimPrefix line "Series: ")).1 else init)
        rest := rfl

theorem seriesAfter_append (init : Nat) (xs ys : List String) :
    seriesAfter init (xs ++ ys) = seriesAfter (seriesAfter init xs) ys := by
  simp [seriesAfter, List.foldl_append]

theorem seriesAfter_skip (init : Nat) (xs : List String)
    (h : ∀ line ∈ xs, HasPrefix line "Series: " = false) : seriesAfter init xs = init := by
  induction xs with
  | nil => rfl
  | cons l rest ih =>
    rw [seriesAfter_cons, h l (List.mem_cons_self l rest)]
    exact ih (fun x hx => h x (List.mem_cons_of_mem l hx))

theorem seriesAfter_unrecognized (init : Nat) (line : String) (rest : List String)
    (h : HasPrefix line "Series: " = false) :
    seriesAfter init (line :: rest) = seriesAfter init rest := by
  rw [seriesAfter_cons, h]
  rfl

theorem setCounter_series (a : Analysis) (c : Counter) (v : Nat) :
    (a.setCounter c v).Series = if c = Counter.Series then v else a.Series := by
  cases c <;> rfl

theorem setList_series (a : Analysis) (sec : Section) (vs : List NameCount) :
    (a.setList sec vs).Series = a.Series := by
  cases sec <;> rfl

theorem counter_hasPrefix_series (c : Counter) (t : String) :
    HasPrefix (c.pre ++ t) "Series: " = decide (c = Counter.Series) := by
  cases c <;> simp [Counter.pre, HasPrefix, List.isPrefixOf]

/-- When the parse succeeds, the series counter is the fold of the `Series: `
lines over the whole input. -/
theorem parseLoop_series :
    ∀ (n : Nat) (lines : List String) (a r : Analysis), lines.length ≤ n →
      parseLoop a lines = (r, none) → r.Series = seriesAfter a.Series lines := by
  intro n
  induction n with
  | zero =>
    intro lines a r hlen h
    cases lines with
    | nil =>
      rw [parseLoop_nil] at h
      rw [← (Prod.mk.inj h).1]
      rfl
    | cons l rest => simp at hlen
  | succ n ih =>
    intro lines a r hlen h
    cases lines with
    | nil =>
      rw [parseLoop_nil] at h
      rw [← (Prod.mk.inj h).1]
      rfl
    | cons line rest =>
      have hlen2 : rest.length ≤ n := by simpa using hlen
      rcases line_cases line with ⟨t, rfl⟩ | ⟨t, rfl⟩ | ⟨c, t, rfl⟩ | ⟨sec, rfl⟩ | hign
      · rw [parseLoop_blockID] at h
        rw [seriesAfter_unrecognized _ _ _ (by simp [HasPrefix, List.isPrefixOf])]
        have hr := ih rest _ r hlen2 h
        exact hr
      · rw [parseLoop_duration] at h
        rw [seriesAfter_unrecognized _ _ _ (by simp [HasPrefix, List.isPrefixOf])]
        have hr := ih rest _ r hlen2 h
        exact hr
      · rw [parseLoop_counter] at h
        cases hp : (ParseUint t).2 with
        | some e =>
          rw [hp] at h
          exact Option.noConfusion (Prod.mk.inj h).2
        | none =>
          rw [hp] at h
          have hr := ih rest _ r hlen2 h
          rw [hr, seriesAfter_cons, counter_hasPrefix_series, setCounter_series]
          by_cases hc : c = Counter.Series
          · subst hc
            have htrim : TrimPrefix (Counter.Series.pre ++ t) "Series: " = t := by
              simp [TrimPrefix, HasPrefix, Counter.pre, List.isPrefixOf]
            simp [htrim]
          · simp [hc]
      · rw [parseLoop_section] at h
        cases hp : (extractValues rest).1.2 with
        | some e =>
          rw [hp] at h
          exact Option.noConfusion (Prod.mk.inj h).2
        | none =>
          rw [hp] at h
          have hfm := firstMalformed_of_ok rest [] hp
          have hlen3 := extractValues_rest_length rest
          have hr := ih _ _ r (Nat.le_trans hlen3 hlen2) h
          have hrest : (extractValues rest).2 = rest.drop ((bodyLines rest).length + 1) :=
            extractValuesLoop_rest rest [] hfm
          rw [hr, setList_series, hrest]
          rw [seriesAfter_unrecognized _ _ _ (by cases sec <;> decide)]
          conv_rhs => rw [← List.take_append_drop ((bodyLines rest).length + 1) rest]
          rw [seriesAfter_append, seriesAfter_skip a.Series (rest.take _)]
          intro l hl
          cases hpre : HasPrefix l "Series: " with
          | false => rfl
          | true =>
            have hnc := recognized_not_consumed l (isRecognized_of_series l hpre)
            rcases consumed_lines rest hfm l hl with h1 | h1
            · rw [hnc.2] at h1
              exact Bool.noConfusion h1
            · rw [hnc.1] at h1
              exact Bool.noConfusion h1
      · rw [parseLoop_ignored a line rest hign] at h
        have hpre : HasPrefix line "Series: " = false := by
          cases hpre : HasPrefix line "Series: " with
          | false => rfl
          | true =>
            rw [isRecognized_of_series line hpre] at hign
            exact Bool.noConfusion hign
        rw [seriesAfter_unrecognized _ _ _ hpre]
        exact ih rest _ r hlen2 h

/-! ### Last write wins -/

theorem parseLoop_item (i : Item) (hi : i.valid = true) (a : Analysis) (rest : List String) :
    parseLoop a (i.lines ++ rest) = parseLoop (i.apply a) rest := by
  cases i with
  | blockID value => exact parseLoop_blockID a value rest
  | duration value => exact parseLoop_duration a value rest
  | counter c value =>
    simp only [Item.valid] at hi
    simp only [Item.lines, List.cons_append, List.nil_append, Item.apply]
    rw [parseLoop_counter, ParseUint_ok value hi]
  | blank line =>
    simp only [Item.valid] at hi
    have hrec : isRecognized line = false := by
      cases hr : isRecognized line with
      | false => rfl
      | true =>
        rw [(recognized_not_consumed line hr).1] at hi
        exact Bool.noConfusion hi
    exact parseLoop_ignored a line rest hrec
  | sect sec entries closing =>
    simp only [Item.valid, Bool.and_eq_true, List.all_eq_true] at hi
    simp only [Item.lines, List.cons_append, List.append_assoc, List.nil_append, Item.apply]
    exact parseLoop_section_blank a sec entries hi.1 closing hi.2 rest

theorem parseLoop_items (items : List Item) (h : ∀ i ∈ items, i.valid = true) (a : Analysis) :
    parseLoop a (items.flatMap Item.lines) =
      (items.foldl (fun acc i => i.apply acc) a, none) := by
  induction items generalizing a with
  | nil => exact parseLoop_nil a
  | cons i items ih =>
    rw [List.flatMap_cons, parseLoop_item i (h i (List.mem_cons_self i items)),
      ih (fun x hx => h x (List.mem_cons_of_mem i hx))]
    rfl

theorem lastOf_cons {α : Type} (f : Item → Option α) (dflt : α) (i : Item) (items : List Item) :
    lastOf f dflt (i :: items) = lastOf f ((f i).getD dflt) items := by
  unfold lastOf
  cases hf : f i with
  | none => rw [List.filterMap_cons_none hf]; rfl
  | some v =>
    rw [List.filterMap_cons_some hf, List.getLast?_cons]
    cases (List.filterMap f items).getLast? <;> rfl

/-- A field that each part either replaces or leaves alone ends with the value
of the last part that replaces it. -/
theorem foldl_apply_field {α : Type} (proj : Analysis → α) (f : Item → Option α)
    (hstep : ∀ (i : Item) (a : Analysis), proj (i.apply a) = (f i).getD (proj a))
    (items : List Item) (a : Analysis) :
    proj (items.foldl (fun acc i => i.apply acc) a) = lastOf f (proj a) items := by
  induction items generalizing a with
  | nil => rfl
  | cons i items ih =>
    rw [List.foldl_cons, ih, hstep, lastOf_cons]

theorem parseLoop_unrecognized (input : List String) (a : Analysis)
    (h : ∀ line ∈ input, isRecognized line = false) : parseLoop a input = (a, none) := by
  induction input with
  | nil => exact parseLoop_nil a
  | cons line rest ih =>
    rw [parseLoop_ignored a line rest (h line (List.mem_cons_self line rest))]
    exact ih (fun l hl => h l (List.mem_cons_of_mem line hl))

/-! ### A malformed line inside a section body -/

theorem extractValuesLoop_entries_malformed (es : List EntryText)
    (h : ∀ e ∈ es, e.valid = true) (vs : List NameCount) (line : String)
    (hb : isBlank line = false) (he : isEntryLine line = false) (rest : List String) :
    extractValuesLoop vs (es.map EntryText.line ++ line :: rest) =
      (([], some (entryError line)), rest) := by
  induction es generalizing vs with
  | nil => exact extractValuesLoop_malformed vs line rest hb he
  | cons e es ih =>
    have hv := h e (List.mem_cons_self e es)
    rw [List.map_cons, List.cons_append,
      extractValuesLoop_entry vs _ _ (EntryText.not_blank e hv) (EntryText.isEntryLine e hv)]
    exact ih (fun x hx => h x (List.mem_cons_of_mem e hx)) _

theorem parseLoop_section_malformed (a : Analysis) (sec : Section) (es : List EntryText)
    (h : ∀ e ∈ es, e.valid = true) (line : String) (hb : isBlank line = false)
    (he : isEntryLine line = false) (rest : List String) :
    parseLoop a (sec.title :: (es.map EntryText.line ++ line :: rest)) =
      (a, some (entryError line)) := by
  rw [parseLoop_section, extractValues, extractValuesLoop_entries_malformed es h [] line hb he rest]

/-! ### A section that is not closed by a blank line -/

theorem isRecognized_title (sec : Section) : isRecognized sec.title = true := by
  cases sec <;> decide

/-- A section title followed by valid entry lines and then, with no blank line
in between, by a recognized line makes the parse fail wherever it stands. -/
theorem parseLoop_unclosed_section (sec : Section) (es : List EntryText)
    (hes : ∀ e ∈ es, e.valid = true) (line : String) (hl : isRecognized line = true)
    (after : List String) :
    ∀ (n : Nat) (before : List String) (a : Analysis), before.length ≤ n →
      (parseLoop a
        (before ++ sec.title :: (es.map EntryText.line ++ line :: after))).2 ≠ none := by
  have hnc := recognized_not_consumed line hl
  intro n
  induction n with
  | zero =>
    intro before a hlen
    have hnil : before = [] := List.eq_nil_of_length_eq_zero (Nat.le_zero.mp hlen)
    subst hnil
    rw [List.nil_append, parseLoop_section_malformed a sec es hes line hnc.1 hnc.2 after]
    simp
  | succ n ih =>
    intro before a hlen
    cases before with
    | nil =>
      rw [List.nil_append, parseLoop_section_malformed a sec es hes line hnc.1 hnc.2 after]
      simp
    | cons x before =>
      have hlen2 : before.length ≤ n := by simpa using hlen
      rw [List.cons_append]
      rcases line_cases x with ⟨t, rfl⟩ | ⟨t, rfl⟩ | ⟨c, t, rfl⟩ | ⟨sec2, rfl⟩ | hign
      · rw [parseLoop_blockID]
        exact ih before _ hlen2
      · rw [parseLoop_duration]
        exact ih before _ hlen2
      · rw [parseLoop_counter]
        cases hp : (ParseUint t).2 with
        | none => exact ih before _ hlen2
        | some e => simp
      · rw [parseLoop_section]
        cases hp : (extractValues
            (before ++ sec.title :: (es.map EntryText.line ++ line :: after))).1.2 with
        | some e => simp
        | none =>
          have hfm := firstMalformed_of_ok _ [] hp
          have hrest := extractValuesLoop_rest _ [] hfm
          have hk : (bodyLines
              (before ++ sec.title :: (es.map EntryText.line ++ line :: after))).length + 1 ≤
              before.length := by
            by_contra hcon
            obtain ⟨j, hj⟩ : ∃ j, (bodyLines
                (before ++ sec.title :: (es.map EntryText.line ++ line :: after))).length + 1 =
                before.length + (j + 1) :=
              ⟨(bodyLines (before ++ sec.title ::
                (es.map EntryText.line ++ line :: after))).length - before.length, by omega⟩
            have hmem : sec.title ∈ (before ++ sec.title ::
                (es.map EntryText.line ++ line :: after)).take ((bodyLines
                (before ++ sec.title :: (es.map EntryText.line ++ line :: after))).length + 1) := by
              rw [hj, List.take_append]
              simp
            have htn := recognized_not_consumed sec.title (isRecognized_title sec)
            rcases consumed_lines _ hfm _ hmem with h1 | h1
            · rw [htn.2] at h1
              exact Bool.noConfusion h1
            · rw [htn.1] at h1
              exact Bool.noConfusion h1
          unfold extractValues
          rw [hrest, List.drop_append_of_le_length hk]
          apply ih
          rw [List.length_drop]
          omega
      · rw [parseLoop_ignored a x _ hign]
        exact ih before _ hlen2

/-! ### Names are single tokens -/

theorem entryOfLine_name (line : String) (h : isEntryLine line = true) :
    ' ' ∉ (entryOfLine line).Name.data := by
  unfold isEntryLine at h
  unfold entryOfLine
  rcases hs : Split line ' ' with _ | ⟨p0, _ | ⟨p1, _ | ⟨p2, t⟩⟩⟩
  all_goals simp only [hs] at h ⊢
  all_goals first
    | exact Bool.noConfusion h
    | skip
  have hmem : p1 ∈ Split line ' ' := by rw [hs]; simp
  unfold Split at hmem
  obtain ⟨q, hq, rfl⟩ := List.mem_map.mp hmem
  exact (splitChars_spec ' ' line.data).1 q hq

theorem extractValues_names (scanner : List String)
    (h : (extractValues scanner).1.2 = none) :
    ∀ e ∈ (extractValues scanner).1.1, ' ' ∉ e.Name.data := by
  have hfm := firstMalformed_of_ok scanner [] h
  have key := extractValuesLoop_eq scanner []
  rw [hfm] at key
  unfold extractValues
  rw [key]
  intro e he
  simp only [List.nil_append, List.mem_map] at he
  obtain ⟨line, hline, rfl⟩ := he
  apply entryOfLine_name
  simp only [firstMalformed, List.find?_eq_none, Bool.not_eq_true', Bool.not_eq_false] at hfm
  exact hfm line hline

theorem getList_setList (a : Analysis) (sec2 sec : Section) (vs : List NameCount) :
    (a.setList sec2 vs).getList sec = if sec2 = sec then vs else a.getList sec := by
  cases sec2 <;> cases sec <;> rfl

theorem getList_setCounter (a : Analysis) (c : Counter) (v : Nat) (sec : Section) :
    (a.setCounter c v).getList sec = a.getList sec := by
  cases c <;> cases sec <;> rfl

/-- The classifier keeps the property that no stored name holds a space. -/
theorem parseLoop_names :
    ∀ (n : Nat) (lines : List String) (a r : Analysis), lines.length ≤ n →
      (∀ sec : Section, ∀ e ∈ a.getList sec, ' ' ∉ e.Name.data) →
      parseLoop a lines = (r, none) →
      ∀ sec : Section, ∀ e ∈ r.getList sec, ' ' ∉ e.Name.data := by
  intro n
  induction n with
  | zero =>
    intro lines a r hlen ha h
    cases lines with
    | nil =>
      rw [parseLoop_nil] at h
      rw [← (Prod.mk.inj h).1]
      exact ha
    | cons l rest => simp at hlen
  | succ n ih =>
    intro lines a r hlen ha h
    cases lines with
    | nil =>
      rw [parseLoop_nil] at h
      rw [← (Prod.mk.inj h).1]
      exact ha
    | cons line rest =>
      have hlen2 : rest.length ≤ n := by simpa using hlen
      rcases line_cases line with ⟨t, rfl⟩ | ⟨t, rfl⟩ | ⟨c, t, rfl⟩ | ⟨sec2, rfl⟩ | hign
      · rw [parseLoop_blockID] at h
        refine ih rest _ r hlen2 ?_ h
        intro sec e he
        exact ha sec e (by cases sec <;> exact he)
      · rw [parseLoop_duration] at h
        refine ih rest _ r hlen2 ?_ h
        intro sec e he
        exact ha sec e (by cases sec <;> exact he)
      · rw [parseLoop_counter] at h
        cases hp : (ParseUint t).2 with
        | some e =>
          rw [hp] at h
          exact Option.noConfusion (Prod.mk.inj h).2
        | none =>
          rw [hp] at h
          refine ih rest _ r hlen2 ?_ h
          intro sec e he
          rw [getList_setCounter] at he
          exact ha sec e he
      · rw [parseLoop_section] at h
        cases hp : (extractValues rest).1.2 with
        | some e =>
          rw [hp] at h
          exact Option.noConfusion (Prod.mk.inj h).2
        | none =>
          rw [hp] at h
          have hlen3 := extractValues_rest_length rest
          refine ih _ _ r (Nat.le_trans hlen3 hlen2) ?_ h
          intro sec e he
          rw [getList_setList] at he
          by_cases hsec : sec2 = sec
          · rw [if_pos hsec] at he
            exact extractValues_names rest hp e he
          · rw [if_neg hsec] at he
            exact ha sec e he
      · rw [parseLoop_ignored a line rest hign] at h
        exact ih rest _ r hlen2 ha h

/-! ### What is returned with an error -/

theorem ParseUintLoop_err_value (s0 : String) (cs : List Char) (n : Nat)
    (h : (ParseUintLoop s0 n cs).2 ≠ none) :
    (ParseUintLoop s0 n cs).1 = 0 ∨ (ParseUintLoop s0 n cs).1 = maxUint64 := by
  induction cs generalizing n with
  | nil => simp [ParseUintLoop] at h
  | cons c cs ih =>
    unfold ParseUintLoop at h ⊢
    cases hd : digitOf c with
    | none => exact Or.inl rfl
    | some d =>
      simp only [hd] at h ⊢
      by_cases h1 : d ≥ 10
      · rw [if_pos h1]
        exact Or.inl rfl
      · rw [if_neg h1] at h ⊢
        by_cases h2 : n ≥ maxUint64 / 10 + 1
        · rw [if_pos h2]
          exact Or.inr rfl
        · rw [if_neg h2] at h ⊢
          by_cases h3 : (n * 10 % 2 ^ 64 + d) % 2 ^ 64 < n * 10 % 2 ^ 64 ∨
              (n * 10 % 2 ^ 64 + d) % 2 ^ 64 > maxUint64
          · simp only [h3, if_true]
            first
              | exact Or.inr rfl
              | exact Or.inr trivial
          · simp only [h3, if_false] at h ⊢
            exact ih _ h

theorem ParseUint_err_value (s : String) (h : (ParseUint s).2 ≠ none) :
    (ParseUint s).1 = 0 ∨ (ParseUint s).1 = maxUint64 := by
  unfold ParseUint at h ⊢
  split
  · exact Or.inl rfl
  · rename_i hs
    rw [if_neg hs] at h
    exact ParseUintLoop_err_value s s.data 0 h

theorem parseLoop_items_append (items : List Item) (h : ∀ i ∈ items, i.valid = true)
    (a : Analysis) (rest : List String) :
    parseLoop a (items.flatMap Item.lines ++ rest) =
      parseLoop (items.foldl (fun acc i => i.apply acc) a) rest := by
  induction items generalizing a with
  | nil => rfl
  | cons i items ih =>
    rw [List.flatMap_cons, List.append_assoc,
      parseLoop_item i (h i (List.mem_cons_self i items)),
      ih (fun x hx => h x (List.mem_cons_of_mem i hx))]
    rfl

/-! ### The message of a malformed entry line -/

theorem message_entryError (table : Char → Bool) (line : String) :
    ∃ text : String, Error.message table (entryError line) = text ++ Quote table line := by
  unfold entryError
  split
  · refine ⟨"expected uint64 as first part of label pair ", ?_⟩
    apply String.ext
    simp [Error.message, Sprintf]
  · refine ⟨"expected two parts in label pair ", ?_⟩
    apply String.ext
    simp [Error.message, Sprintf]

theorem occursIn_of_append (needle pre post : String) :
    occursIn needle (pre ++ needle ++ post) = true := by
  unfold occursIn
  rw [List.any_eq_true]
  refine ⟨needle.data ++ post.data, ?_, ?_⟩
  · rw [List.mem_tails]
    exact ⟨pre.data, by simp⟩
  · rw [List.isPrefixOf_iff_prefix]
    exact List.prefix_append _ _

theorem flatMap_escaped_plain (table : Char → Bool) (cs : List Char)
    (h : ∀ c ∈ cs, c ≠ '"' ∧ c ≠ '\\' ∧ IsPrint table c = true) :
    cs.flatMap (appendEscapedRune table) = cs := by
  induction cs with
  | nil => rfl
  | cons c cs ih =>
    obtain ⟨h1, h2, h3⟩ := h c (List.mem_cons_self c cs)
    have hc : appendEscapedRune table c = [c] := by
      simp [appendEscapedRune, h1, h2, h3]
    rw [List.flatMap_cons, hc, ih (fun x hx => h x (List.mem_cons_of_mem c hx))]
    rfl

theorem Quote_plain (table : Char → Bool) (s : String)
    (h : ∀ c ∈ s.data, c ≠ '"' ∧ c ≠ '\\' ∧ IsPrint table c = true) :
    Quote table s = "\"" ++ s ++ "\"" := by
  unfold Quote
  rw [flatMap_escaped_plain table s.data h]
  apply String.ext
  simp

/-! ### The twelve recognizers are mutually exclusive -/

theorem test_title_only (r : Recognizer) (sec : Section) (h : r.test sec.title = true) :
    r = Recognizer.title sec := by
  revert h
  cases sec <;> rcases r with _ | _ | c | s
  all_goals first
    | decide
    | (cases c <;> decide)
    | (cases s <;> decide)

theorem test_exclusive (line : String) (r1 r2 : Recognizer) (h1 : r1.test line = true)
    (h2 : r2.test line = true) : r1 = r2 := by
  rcases r2 with _ | _ | c2 | s2
  case title =>
    have hl : line = s2.title := by simpa [Recognizer.test] using h2
    subst hl
    exact test_title_only r1 s2 h1
  all_goals
    rcases r1 with _ | _ | c1 | s1
  case blockID.title | duration.title | counter.title =>
    have hl : line = s1.title := by simpa [Recognizer.test] using h1
    subst hl
    exact (test_title_only _ s1 h2).symm
  all_goals
    simp only [Recognizer.test] at h1 h2
    obtain ⟨t, rfl⟩ := (HasPrefix_iff _ _).mp h1
  case blockID.blockID => rfl
  case duration.duration => rfl
  case blockID.duration => simp [HasPrefix, List.isPrefixOf] at h2
  case duration.blockID => simp [HasPrefix, List.isPrefixOf] at h2
  case blockID.counter => cases c1 <;> simp [HasPrefix, List.isPrefixOf, Counter.pre] at h2
  case duration.counter => cases c1 <;> simp [HasPrefix, List.isPrefixOf, Counter.pre] at h2
  case counter.blockID => cases c2 <;> simp [HasPrefix, List.isPrefixOf, Counter.pre] at h2
  case counter.duration => cases c2 <;> simp [HasPrefix, List.isPrefixOf, Counter.pre] at h2
  case counter.counter =>
    cases c1 <;> cases c2 <;> first
      | rfl
      | simp [HasPrefix, List.isPrefixOf, Counter.pre] at h2

theorem find_test (order : List Recognizer) (line : String) (r : Recognizer)
    (hmem : r ∈ order) (h : r.test line = true) :
    order.find? (fun x => x.test line) = some r := by
  cases hf : order.find? (fun x => x.test line) with
  | none =>
    rw [List.find?_eq_none] at hf
    exact absurd h (hf r hmem)
  | some x =>
    have hx := List.find?_some hf
    rw [test_exclusive line x r hx h]

theorem find_test_none (order : List Recognizer) (line : String)
    (h : isRecognized line = false) : order.find? (fun x => x.test line) = none := by
  rw [List.find?_eq_none]
  intro r _
  simp only [isRecognized, Bool.or_eq_false_iff, decide_eq_false_iff_not] at h
  obtain ⟨⟨⟨⟨⟨⟨⟨⟨⟨⟨⟨h1, h2⟩, h3⟩, h4⟩, h5⟩, h6⟩, h7⟩, h8⟩, h9⟩, h10⟩, h11⟩, h12⟩ := h
  rcases r with _ | _ | c | s
  · simp [Recognizer.test, h1]
  · simp [Recognizer.test, h2]
  · cases c <;> simp [Recognizer.test, Counter.pre, h3, h4, h5, h6]
  · cases s <;> simp [Recognizer.test, Section.title, h7, h8, h9, h10, h11, h12]

theorem TrimPrefix_append (pre s : String) : TrimPrefix (pre ++ s) pre = s := by
  have h : HasPrefix (pre ++ s) pre = true := (HasPrefix_iff _ _).mpr ⟨s, rfl⟩
  rw [TrimPrefix, if_pos h]
  apply String.ext
  simp

theorem parseOrdered_nil (order : List Recognizer) (a : Analysis) :
    parseOrdered order a [] = (a, none) := by
  rw [parseOrdered]

theorem parseOrdered_found (order : List Recognizer) (a : Analysis) (line : String)
    (rest : List String) (r : Recognizer) (hmem : r ∈ order) (h : r.test line = true) :
    parseOrdered order a (line :: rest) =
      match r with
      | .blockID => parseOrdered order { a with BlockID := TrimPrefix line "Block ID: " } rest
      | .duration => parseOrdered order { a with Duration := TrimPrefix line "Duration: " } rest
      | .counter c =>
        match (ParseUint (TrimPrefix line c.pre)).2 with
        | some err => (a.setCounter c (ParseUint (TrimPrefix line c.pre)).1, some err)
        | none => parseOrdered order (a.setCounter c (ParseUint (TrimPrefix line c.pre)).1) rest
      | .title sec =>
        match (extractValues rest).1.2 with
        | some err => (a, some err)
        | none =>
          parseOrdered order (a.setList sec (extractValues rest).1.1) (extractValues rest).2 := by
  rw [parseOrdered]
  simp only [find_test order line r hmem h]
  rcases r with _ | _ | c | sec
  · rfl
  · rfl
  · simp only
    rcases ParseUint (TrimPrefix line c.pre) with ⟨v, _ | e⟩ <;> rfl
  · simp only
    rcases extractValues rest with ⟨⟨v, _ | e⟩, s⟩ <;> rfl

theorem parseOrdered_ignored (order : List Recognizer) (a : Analysis) (line : String)
    (rest : List String) (h : isRecognized line = false) :
    parseOrdered order a (line :: rest) = parseOrdered order a rest := by
  rw [parseOrdered]
  simp only [find_test_none order line h]

/-- With all twelve recognizers in the list, the ordered classifier does what
`parse` does, whatever the order. -/
theorem parseOrdered_eq (order : List Recognizer) (hall : ∀ r : Recognizer, r ∈ order) :
    ∀ (n : Nat) (lines : List String) (a : Analysis), lines.length ≤ n →
      parseOrdered order a lines = parseLoop a lines := by
  intro n
  induction n with
  | zero =>
    intro lines a hlen
    have hnil : lines = [] := List.eq_nil_of_length_eq_zero (Nat.le_zero.mp hlen)
    rw [hnil, parseOrdered_nil, parseLoop_nil]
  | succ n ih =>
    intro lines a hlen
    cases lines with
    | nil => rw [parseOrdered_nil, parseLoop_nil]
    | cons line rest =>
      have hlen2 : rest.length ≤ n := by simpa using hlen
      rcases line_cases line with ⟨t, rfl⟩ | ⟨t, rfl⟩ | ⟨c, t, rfl⟩ | ⟨sec, rfl⟩ | hign
      · rw [parseOrdered_found order a _ rest Recognizer.blockID (hall _)
          ((HasPrefix_iff _ _).mpr ⟨t, rfl⟩), parseLoop_blockID, TrimPrefix_append]
        exact ih rest _ hlen2
      · rw [parseOrdered_found order a _ rest Recognizer.duration (hall _)
          ((HasPrefix_iff _ _).mpr ⟨t, rfl⟩), parseLoop_duration, TrimPrefix_append]
        exact ih rest _ hlen2
      · rw [parseOrdered_found order a _ rest (Recognizer.counter c) (hall _)
          ((HasPrefix_iff _ _).mpr ⟨t, rfl⟩), parseLoop_counter]
        simp only [TrimPrefix_append]
        cases (ParseUint t).2 with
        | some e => rfl
        | none => exact ih rest _ hlen2
      · rw [parseOrdered_found order a _ rest (Recognizer.title sec) (hall _)
          (by simp [Recognizer.test]), parseLoop_section]
        simp only []
        cases (extractValues rest).1.2 with
        | some e => rfl
        | none => exact ih _ _ (Nat.le_trans (extractValues_rest_length rest) hlen2)
      · rw [parseOrdered_ignored order a line rest hign, parseLoop_ignored a line rest hign]
        exact ih rest _ hlen2

theorem mem_all (r : Recognizer) : r ∈ Recognizer.all := by
  rcases r with _ | _ | c | s
  · decide
  · decide
  · cases c <;> decide
  · cases s <;> decide

/-! ### A scanner that stops before the end of input -/

theorem parseScan_nil (a : Analysis) : parseScan a [] = (a, none) := by
  rw [parseScan]

theorem parseScan_none (a : Analysis) (rest : List (Option String)) :
    parseScan a (none :: rest) = (a, none) := by
  rw [parseScan]

theorem parseScan_blockID (a : Analysis) (s : String) (rest : List (Option String)) :
    parseScan a (some ("Block ID: " ++ s) :: rest) = parseScan { a with BlockID := s } rest := by
  rw [parseScan]
  simp [HasPrefix, TrimPrefix, List.isPrefixOf]

theorem parseScan_duration (a : Analysis) (s : String) (rest : List (Option String)) :
    parseScan a (some ("Duration: " ++ s) :: rest) = parseScan { a with Duration := s } rest := by
  rw [parseScan]
  simp [HasPrefix, TrimPrefix, List.isPrefixOf]

theorem parseScan_counter (a : Analysis) (c : Counter) (s : String)
    (rest : List (Option String)) :
    parseScan a (some (c.pre ++ s) :: rest) =
      match (ParseUint s).2 with
      | some err => (a.setCounter c (ParseUint s).1, some err)
      | none => parseScan (a.setCounter c (ParseUint s).1) rest := by
  rw [parseScan]
  cases c <;> simp [Counter.pre, HasPrefix, TrimPrefix, List.isPrefixOf, Analysis.setCounter]
  all_goals
    have hs : String.mk s.data = s := rfl
    rw [hs]
    rcases ParseUint s with ⟨v, _ | e⟩ <;> rfl

theorem parseScan_section (a : Analysis) (sec : Section) (rest : List (Option String)) :
    parseScan a (some sec.title :: rest) =
      match (extractValuesFrom rest).1.2 with
      | some err => (a, some err)
      | none =>
        parseScan (a.setList sec (extractValuesFrom rest).1.1) (extractValuesFrom rest).2 := by
  rw [parseScan]
  cases sec <;> simp [Section.title, HasPrefix, List.isPrefixOf, Analysis.setList]
  all_goals
    rcases extractValuesFrom rest with ⟨⟨v, _ | e⟩, r⟩ <;> rfl

theorem parseScan_ignored (a : Analysis) (line : String) (rest : List (Option String))
    (h : isRecognized line = false) : parseScan a (some line :: rest) = parseScan a rest := by
  rw [parseScan]
  simp only [isRecognized, Bool.or_eq_false_iff, decide_eq_false_iff_not] at h
  obtain ⟨⟨⟨⟨⟨⟨⟨⟨⟨⟨⟨h1, h2⟩, h3⟩, h4⟩, h5⟩, h6⟩, h7⟩, h8⟩, h9⟩, h10⟩, h11⟩, h12⟩ := h
  simp [h1, h2, h3, h4, h5, h6, h7, h8, h9, h10, h11, h12]

/-- One step of the extractor is the same on both scanners. -/
theorem extractValuesScan_some (vs : List NameCount) (line : String)
    (rest : List (Option String)) :
    extractValuesScan vs (some line :: rest) =
      if isBlank line = true then ((vs, none), rest)
      else if isEntryLine line = true then extractValuesScan (vs ++ [entryOfLine line]) rest
      else (([], some (entryError line)), rest) := by
  rw [extractValuesScan]
  by_cases hb : isBlank line = true
  · rw [if_pos ((TrimSpace_eq_empty_iff line).mpr hb), if_pos hb]
  · have hb2 : ¬ TrimSpace line = "" := fun h => hb ((TrimSpace_eq_empty_iff line).mp h)
    rw [if_neg hb2, if_neg hb]
    unfold isEntryLine entryOfLine entryError
    rcases hs : Split line ' ' with _ | ⟨p0, _ | ⟨p1, _ | ⟨p2, t⟩⟩⟩
    · simp
    · simp
    · simp only [List.length_cons, List.length_nil, if_true]
      by_cases hu : isUint64 p0 = true
      · rw [if_pos hu, ParseUint_ok p0 hu]
      · rw [if_neg hu]
        simp only [Bool.not_eq_true] at hu
        obtain ⟨e, he⟩ := ParseUint_err p0 hu
        rcases hp : ParseUint p0 with ⟨v, _ | e2⟩
        · rw [hp] at he
          exact Option.noConfusion he
        · rfl
    · simp

/-- On a scanner that stops only at the end of input, the extractor is
`extractValues`. -/
theorem extractValuesScan_map_some (lines : List String) (vs : List NameCount) :
    extractValuesScan vs (lines.map some) =
      ((extractValuesLoop vs lines).1, (extractValuesLoop vs lines).2.map some) := by
  induction lines generalizing vs with
  | nil => rfl
  | cons line rest ih =>
    rw [List.map_cons, extractValuesScan_some]
    by_cases hb : isBlank line = true
    · rw [if_pos hb, extractValuesLoop_blank vs line rest hb]
    · rw [if_neg hb]
      simp only [Bool.not_eq_true] at hb
      by_cases he : isEntryLine line = true
      · rw [if_pos he, extractValuesLoop_entry vs line rest hb he, ih]
      · rw [if_neg he]
        simp only [Bool.not_eq_true] at he
        rw [extractValuesLoop_malformed vs line rest hb he]

/-- On a scanner that stops only at the end of input, the classifier is the
loop of `parse`. -/
theorem parseScan_map_some :
    ∀ (n : Nat) (lines : List String) (a : Analysis), lines.length ≤ n →
      parseScan a (lines.map some) = parseLoop a lines := by
  intro n
  induction n with
  | zero =>
    intro lines a hlen
    have hnil : lines = [] := List.eq_nil_of_length_eq_zero (Nat.le_zero.mp hlen)
    rw [hnil, List.map_nil, parseScan_nil, parseLoop_nil]
  | succ n ih =>
    intro lines a hlen
    cases lines with
    | nil => rw [List.map_nil, parseScan_nil, parseLoop_nil]
    | cons line rest =>
      have hlen2 : rest.length ≤ n := by simpa using hlen
      rw [List.map_cons]
      rcases line_cases line with ⟨t, rfl⟩ | ⟨t, rfl⟩ | ⟨c, t, rfl⟩ | ⟨sec, rfl⟩ | hign
      · rw [parseScan_blockID, parseLoop_blockID]
        exact ih rest _ hlen2
      · rw [parseScan_duration, parseLoop_duration]
        exact ih rest _ hlen2
      · rw [parseScan_counter, parseLoop_counter]
        cases (ParseUint t).2 with
        | some e => rfl
        | none => exact ih rest _ hlen2
      · rw [parseScan_section, parseLoop_section, extractValuesFrom,
          extractValuesScan_map_some rest [], extractValues]
        cases (extractValuesLoop [] rest).1.2 with
        | some e => rfl
        | none =>
          have hlen3 := extractValues_rest_length rest
          unfold extractValues at hlen3
          exact ih _ _ (Nat.le_trans hlen3 hlen2)
      · rw [parseScan_ignored a line _ hign, parseLoop_ignored a line rest hign]
        exact ih rest _ hlen2

theorem extractValuesScan_entries_blank (es : List EntryText) (h : ∀ e ∈ es, e.valid = true)
    (vs : List NameCount) (b : String) (hb : isBlank b = true) (rest : List (Option String)) :
    extractValuesScan vs ((es.map EntryText.line).map some ++ some b :: rest) =
      ((vs ++ es.map EntryText.entry, none), rest) := by
  induction es generalizing vs with
  | nil =>
    rw [List.map_nil, List.map_nil, List.nil_append, extractValuesScan_some, if_pos hb]
    simp
  | cons e es ih =>
    have he := h e (List.mem_cons_self e es)
    have hnb : ¬ isBlank e.line = true := by rw [EntryText.not_blank e he]; simp
    rw [List.map_cons, List.map_cons, List.cons_append, extractValuesScan_some, if_neg hnb,
      if_pos (EntryText.isEntryLine e he), ih (fun x hx => h x (List.mem_cons_of_mem e hx)),
      EntryText.entryOfLine e he]
    simp

theorem parseScan_item (i : Item) (hi : i.valid = true) (a : Analysis)
    (rest : List (Option String)) :
    parseScan a (i.lines.map some ++ rest) = parseScan (i.apply a) rest := by
  cases i with
  | blockID value => exact parseScan_blockID a value rest
  | duration value => exact parseScan_duration a value rest
  | counter c value =>
    simp only [Item.valid] at hi
    simp only [Item.lines, List.map_cons, List.map_nil, List.cons_append, List.nil_append,
      Item.apply]
    rw [parseScan_counter, ParseUint_ok value hi]
  | blank line =>
    simp only [Item.valid] at hi
    have hrec : isRecognized line = false := by
      cases hr : isRecognized line with
      | false => rfl
      | true =>
        rw [(recognized_not_consumed line hr).1] at hi
        exact Bool.noConfusion hi
    exact parseScan_ignored a line rest hrec
  | sect sec entries closing =>
    simp only [Item.valid, Bool.and_eq_true, List.all_eq_true] at hi
    simp only [Item.lines, List.map_cons, List.map_append, List.map_nil, List.cons_append,
      List.append_assoc, List.nil_append, Item.apply]
    rw [parseScan_section, extractValuesFrom,
      extractValuesScan_entries_blank entries hi.1 [] closing hi.2 rest]
    simp

theorem parseScan_items_append (items : List Item) (h : ∀ i ∈ items, i.valid = true)
    (a : Analysis) (rest : List (Option String)) :
    parseScan a ((items.flatMap Item.lines).map some ++ rest) =
      parseScan (items.foldl (fun acc i => i.apply acc) a) rest := by
  induction items generalizing a with
  | nil => rfl
  | cons i items ih =>
    rw [List.flatMap_cons, List.map_append, List.append_assoc,
      parseScan_item i (h i (List.mem_cons_self i items)),
      ih (fun x hx => h x (List.mem_cons_of_mem i hx))]
    rfl

/-! ### The scanner of `parse` -/

theorem utf8Size_pos (c : Char) : 1 ≤ utf8Size c := by
  unfold utf8Size
  split
  · exact Nat.le_refl 1
  · split
    · decide
    · split <;> decide

theorem length_le_byteLength (s : String) : s.data.length ≤ byteLength s := by
  unfold byteLength
  induction s.data with
  | nil => exact Nat.le_refl 0
  | cons c cs ih =>
    have hc := utf8Size_pos c
    simp only [List.length_cons, List.map_cons, List.sum_cons]
    omega

theorem byteLength_repeated (pre post : String) (c : Char) (n : Nat) :
    n ≤ byteLength (pre ++ repeated c n ++ post) := by
  refine Nat.le_trans ?_ (length_le_byteLength _)
  simp only [repeated, String.data_append, List.length_append, List.length_replicate]
  omega

theorem NewScanner_short (input : List String)
    (h : ∀ line ∈ input, byteLength line < MaxScanTokenSize) :
    NewScanner input = (input.map dropCR).map some := by
  induction input with
  | nil => rfl
  | cons line rest ih =>
    rw [NewScanner, if_pos (h line (List.mem_cons_self line rest)),
      ih (fun l hl => h l (List.mem_cons_of_mem line hl))]
    rfl

theorem NewScanner_long (before : List String) (long : String) (after : List String)
    (h : ∀ line ∈ before, byteLength line < MaxScanTokenSize)
    (hlong : MaxScanTokenSize ≤ byteLength long) :
    NewScanner (before ++ long :: after) =
      (before.map dropCR).map some ++ [none, some (bufferText long)] := by
  induction before with
  | nil =>
    rw [List.nil_append, NewScanner, if_neg (Nat.not_lt.mpr hlong)]
    rfl
  | cons line rest ih =>
    rw [List.cons_append, NewScanner, if_pos (h line (List.mem_cons_self line rest)),
      ih (fun l hl => h l (List.mem_cons_of_mem line hl))]
    rfl

/-- On an input whose lines all fit the buffer, `parse` is its loop on the
lines, each taken without a trailing carriage return. -/
theorem parse_eq (input tokens : List String)
    (hshort : ∀ line ∈ input, byteLength line < MaxScanTokenSize)
    (htokens : input.map dropCR = tokens) : parse input = parseLoop {} tokens := by
  rw [parse, NewScanner_short input hshort, htokens]
  exact parseScan_map_some tokens.length tokens _ (Nat.le_refl _)

theorem parseScan_unrecognized (input : List String) (a : Analysis)
    (h : ∀ line ∈ input, isRecognized (dropCR line) = false) :
    parseScan a (NewScanner input) = (a, none) := by
  induction input with
  | nil => exact parseScan_nil a
  | cons line rest ih =>
    rw [NewScanner]
    by_cases hs : byteLength line < MaxScanTokenSize
    · rw [if_pos hs, parseScan_ignored a _ _ (h line (List.mem_cons_self line rest))]
      exact ih (fun l hl => h l (List.mem_cons_of_mem line hl))
    · rw [if_neg hs, parseScan_none]

theorem extractValuesScan_nil (vs : List NameCount) :
    extractValuesScan vs [] = ((vs, none), []) := by
  rw [extractValuesScan]

theorem extractValuesScan_none (vs : List NameCount) (rest : List (Option String)) :
    extractValuesScan vs (none :: rest) = ((vs, none), rest) := by
  rw [extractValuesScan]

theorem extractValuesScan_length (scanner : List (Option String)) (vs : List NameCount) :
    (extractValuesScan vs scanner).2.length ≤ scanner.length := by
  induction scanner generalizing vs with
  | nil => rw [extractValuesScan_nil]
  | cons x rest ih =>
    cases x with
    | none => rw [extractValuesScan_none]; exact Nat.le_succ _
    | some line =>
      rw [extractValuesScan_some]
      split
      · exact Nat.le_succ _
      · split
        · exact Nat.le_succ_of_le (ih _)
        · exact Nat.le_succ _

theorem extractValuesScan_names (scanner : List (Option String)) (vs : List NameCount)
    (hvs : ∀ e ∈ vs, ' ' ∉ e.Name.data) (h : (extractValuesScan vs scanner).1.2 = none) :
    ∀ e ∈ (extractValuesScan vs scanner).1.1, ' ' ∉ e.Name.data := by
  induction scanner generalizing vs with
  | nil => rw [extractValuesScan_nil]; exact hvs
  | cons x rest ih =>
    cases x with
    | none => rw [extractValuesScan_none]; exact hvs
    | some line =>
      rw [extractValuesScan_some] at h ⊢
      by_cases hb : isBlank line = true
      · rw [if_pos hb]
        exact hvs
      · rw [if_neg hb] at h ⊢
        by_cases he : isEntryLine line = true
        · rw [if_pos he] at h ⊢
          refine ih _ ?_ h
          intro e hmem
          rcases List.mem_append.mp hmem with h1 | h1
          · exact hvs e h1
          · rw [List.mem_singleton.mp h1]
            exact entryOfLine_name line he
        · rw [if_neg he] at h
          exact Option.noConfusion h

/-- The classifier keeps the property that no stored name holds a space, also
on a scanner that stops before the end of input. -/
theorem parseScan_names :
    ∀ (n : Nat) (scanner : List (Option String)) (a r : Analysis), scanner.length ≤ n →
      (∀ sec : Section, ∀ e ∈ a.getList sec, ' ' ∉ e.Name.data) →
      parseScan a scanner = (r, none) →
      ∀ sec : Section, ∀ e ∈ r.getList sec, ' ' ∉ e.Name.data := by
  intro n
  induction n with
  | zero =>
    intro scanner a r hlen ha h
    have hnil : scanner = [] := List.eq_nil_of_length_eq_zero (Nat.le_zero.mp hlen)
    rw [hnil, parseScan_nil] at h
    rw [← (Prod.mk.inj h).1]
    exact ha
  | succ n ih =>
    intro scanner a r hlen ha h
    cases scanner with
    | nil =>
      rw [parseScan_nil] at h
      rw [← (Prod.mk.inj h).1]
      exact ha
    | cons x rest =>
      have hlen2 : rest.length ≤ n := by simpa using hlen
      cases x with
      | none =>
        rw [parseScan_none] at h
        rw [← (Prod.mk.inj h).1]
        exact ha
      | some line =>
        rcases line_cases line with ⟨t, rfl⟩ | ⟨t, rfl⟩ | ⟨c, t, rfl⟩ | ⟨sec2, rfl⟩ | hign
        · rw [parseScan_blockID] at h
          refine ih rest _ r hlen2 ?_ h
          intro sec e he
          exact ha sec e (by cases sec <;> exact he)
        · rw [parseScan_duration] at h
          refine ih rest _ r hlen2 ?_ h
          intro sec e he
          exact ha sec e (by cases sec <;> exact he)
        · rw [parseScan_counter] at h
          cases hp : (ParseUint t).2 with
          | some e =>
            rw [hp] at h
            exact Option.noConfusion (Prod.mk.inj h).2
          | none =>
            rw [hp] at h
            refine ih rest _ r hlen2 ?_ h
            intro sec e he
            rw [getList_setCounter] at he
            exact ha sec e he
        · rw [parseScan_section] at h
          cases hp : (extractValuesFrom rest).1.2 with
          | some e =>
            rw [hp] at h
            exact Option.noConfusion (Prod.mk.inj h).2
          | none =>
            rw [hp] at h
            have hlen3 : (extractValuesFrom rest).2.length ≤ rest.length :=
              extractValuesScan_length rest []
            refine ih _ _ r (Nat.le_trans hlen3 hlen2) ?_ h
            intro sec e he
            rw [getList_setList] at he
            by_cases hsec : sec2 = sec
            · rw [if_pos hsec] at he
              exact extractValuesScan_names rest [] (fun _ hx => absurd hx (List.not_mem_nil _))
                hp e he
            · rw [if_neg hsec] at he
              exact ha sec e he
        · rw [parseScan_ignored a line rest hign] at h
          exact ih rest _ r hlen2 ha h

/-! ### Dropping the carriage return -/

theorem dropCR_append (p t : String) (hp : p.data.getLast? ≠ some '\r') :
    dropCR (p ++ t) = p ++ dropCR t := by
  cases ht : t.data with
  | nil =>
    have ht2 : t = "" := String.ext ht
    subst ht2
    have h1 : dropCR "" = "" := by decide
    rw [h1, String.append_empty]
    unfold dropCR
    rw [if_neg hp]
  | cons c cs =>
    have hne : t.data ≠ [] := by rw [ht]; simp
    have hlast : (p ++ t).data.getLast? = t.data.getLast? := by
      rw [String.data_append, List.getLast?_append, ht]
      simp [List.getLast?_cons]
    unfold dropCR
    rw [hlast]
    by_cases hc : t.data.getLast? = some '\r'
    · rw [if_pos hc, if_pos hc]
      apply String.ext
      rw [String.data_append, String.data_append]
      exact List.dropLast_append_of_ne_nil _ hne
    · rw [if_neg hc, if_neg hc]

theorem dropCR_initial (line : String) : (dropCR line).data <+: line.data := by
  unfold dropCR
  split
  · exact List.dropLast_prefix _
  · exact List.prefix_refl _

theorem HasPrefix_of_dropCR (line pre : String) (h : HasPrefix (dropCR line) pre = true) :
    HasPrefix line pre = true := by
  unfold HasPrefix at h ⊢
  rw [List.isPrefixOf_iff_prefix] at h ⊢
  exact List.IsPrefix.trans h (dropCR_initial line)

theorem dropCR_title (sec : Section) : dropCR sec.title = sec.title := by
  cases sec <;> decide

theorem dropCR_recognized (line : String) (h : isRecognized line = true) :
    isRecognized (dropCR line) = true := by
  rcases line_cases line with ⟨t, rfl⟩ | ⟨t, rfl⟩ | ⟨c, t, rfl⟩ | ⟨sec, rfl⟩ | hign
  · rw [dropCR_append _ _ (by decide)]
    simp [isRecognized, (HasPrefix_iff _ _).mpr ⟨dropCR t, rfl⟩]
  · rw [dropCR_append _ _ (by decide)]
    have h2 : HasPrefix ("Duration: " ++ dropCR t) "Duration: " = true :=
      (HasPrefix_iff _ _).mpr ⟨dropCR t, rfl⟩
    simp [isRecognized, h2]
  · have hp : c.pre.data.getLast? ≠ some '\r' := by cases c <;> decide
    rw [dropCR_append _ _ hp]
    have h2 : HasPrefix (c.pre ++ dropCR t) c.pre = true :=
      (HasPrefix_iff _ _).mpr ⟨dropCR t, rfl⟩
    cases c <;> simp only [Counter.pre] at h2 <;> simp [isRecognized, Counter.pre, h2]
  · rw [dropCR_title]
    exact h
  · rw [hign] at h
    exact Bool.noConfusion h

theorem dropCR_entry (e : EntryText) (h : e.valid = true) :
    dropCR e.line = (EntryText.mk e.count (dropCR e.name)).line ∧
      (EntryText.mk e.count (dropCR e.name)).valid = true := by
  constructor
  · unfold EntryText.line
    have hp : (e.count ++ " ").data.getLast? ≠ some '\r' := by
      rw [String.data_append, List.getLast?_append]
      simp
    exact dropCR_append (e.count ++ " ") e.name hp
  · simp only [EntryText.valid, Bool.and_eq_true, decide_eq_true_eq] at h ⊢
    exact ⟨h.1, fun hm => h.2 ((dropCR_initial e.name).subset hm)⟩

/-! ### What the buffer holds is not a header -/

theorem isRecognized_head (s : String) (h : isRecognized s = true) :
    ∃ c, s.data.head? = some c ∧ c ∈ ['B', 'D', 'S', 'L', 'P', 'M', 'H'] := by
  rcases line_cases s with ⟨t, rfl⟩ | ⟨t, rfl⟩ | ⟨c, t, rfl⟩ | ⟨sec, rfl⟩ | hign
  · exact ⟨'B', by simp, by decide⟩
  · exact ⟨'D', by simp, by decide⟩
  · cases c
    · exact ⟨'S', by simp [Counter.pre], by decide⟩
    · exact ⟨'L', by simp [Counter.pre], by decide⟩
    · exact ⟨'P', by simp [Counter.pre], by decide⟩
    · exact ⟨'P', by simp [Counter.pre], by decide⟩
  · cases sec
    · exact ⟨'L', by decide, by decide⟩
    · exact ⟨'L', by decide, by decide⟩
    · exact ⟨'M', by decide, by decide⟩
    · exact ⟨'L', by decide, by decide⟩
    · exact ⟨'H', by decide, by decide⟩
    · exact ⟨'H', by decide, by decide⟩
  · rw [hign] at h
    exact Bool.noConfusion h

theorem firstBytes_head (n : Nat) (cs : List Char) :
    (firstBytes n cs).head? = none ∨ (firstBytes n cs).head? = cs.head? ∨
      (firstBytes n cs).head? = some (Char.ofNat 0xFFFD) := by
  cases cs with
  | nil => exact Or.inl rfl
  | cons c cs =>
    unfold firstBytes
    split
    · exact Or.inr (Or.inl rfl)
    · cases n with
      | zero => exact Or.inl rfl
      | succ n => exact Or.inr (Or.inr rfl)

theorem dropCR_head (s : String) :
    (dropCR s).data.head? = none ∨ (dropCR s).data.head? = s.data.head? := by
  unfold dropCR
  split
  · cases hs : s.data with
    | nil => exact Or.inl rfl
    | cons c cs =>
      cases cs with
      | nil => exact Or.inl rfl
      | cons d ds => exact Or.inr rfl
  · exact Or.inr rfl

theorem bufferText_unrecognized (line : String)
    (h : ∀ c, line.data.head? = some c → c ∉ ['B', 'D', 'S', 'L', 'P', 'M', 'H']) :
    isRecognized (bufferText line) = false := by
  cases hr : isRecognized (bufferText line) with
  | false => rfl
  | true =>
    obtain ⟨c, hc, hmem⟩ := isRecognized_head _ hr
    unfold bufferText at hc
    rcases dropCR_head (String.mk (firstBytes MaxScanTokenSize line.data)) with h1 | h1
    · rw [h1] at hc
      exact Option.noConfusion hc
    · rw [h1] at hc
      rcases firstBytes_head MaxScanTokenSize line.data with h2 | h2 | h2
      · rw [h2] at hc
        exact Option.noConfusion hc
      · rw [h2] at hc
        exact absurd hmem (h c hc)
      · rw [h2] at hc
        have hc2 : c = Char.ofNat 0xFFFD := (Option.some.inj hc).symm
        rw [hc2] at hmem
        exact absurd hmem (by decide)

/-! ### The loops up to the point where the scanner stops -/

theorem entries_or_stop (lines : List String) :
    (∀ line ∈ lines, isBlank line = false ∧ isEntryLine line = true) ∨
      ∃ line ∈ lines, isBlank line = true ∨ isEntryLine line = false := by
  by_cases h : ∃ line ∈ lines, isBlank line = true ∨ isEntryLine line = false
  · exact Or.inr h
  · left
    intro line hmem
    constructor
    · cases hb : isBlank line with
      | false => rfl
      | true => exact absurd ⟨line, hmem, Or.inl hb⟩ h
    · cases he : isEntryLine line with
      | true => rfl
      | false => exact absurd ⟨line, hmem, Or.inr he⟩ h

theorem extractValuesScan_append (lines : List String) (vs : List NameCount)
    (rest : List (Option String))
    (h : ∃ line ∈ lines, isBlank line = true ∨ isEntryLine line = false) :
    extractValuesScan vs (lines.map some ++ rest) =
      ((extractValuesLoop vs lines).1, (extractValuesLoop vs lines).2.map some ++ rest) := by
  induction lines generalizing vs with
  | nil =>
    obtain ⟨line, hmem, _⟩ := h
    exact absurd hmem (List.not_mem_nil _)
  | cons l ls ih =>
    rw [List.map_cons, List.cons_append, extractValuesScan_some]
    by_cases hb : isBlank l = true
    · rw [if_pos hb, extractValuesLoop_blank vs l ls hb]
    · rw [if_neg hb]
      simp only [Bool.not_eq_true] at hb
      by_cases he : isEntryLine l = true
      · rw [if_pos he, extractValuesLoop_entry vs l ls hb he]
        apply ih
        obtain ⟨line, hmem, hline⟩ := h
        rcases List.mem_cons.mp hmem with rfl | hmem2
        · rcases hline with h1 | h1
          · rw [hb] at h1
            exact Bool.noConfusion h1
          · rw [he] at h1
            exact Bool.noConfusion h1
        · exact ⟨line, hmem2, hline⟩
      · rw [if_neg he]
        simp only [Bool.not_eq_true] at he
        rw [extractValuesLoop_malformed vs l ls hb he]

theorem extractValuesLoop_append (lines : List String) (vs : List NameCount)
    (rest : List String)
    (h : ∃ line ∈ lines, isBlank line = true ∨ isEntryLine line = false) :
    extractValuesLoop vs (lines ++ rest) =
      ((extractValuesLoop vs lines).1, (extractValuesLoop vs lines).2 ++ rest) := by
  induction lines generalizing vs with
  | nil =>
    obtain ⟨line, hmem, _⟩ := h
    exact absurd hmem (List.not_mem_nil _)
  | cons l ls ih =>
    rw [List.cons_append]
    by_cases hb : isBlank l = true
    · rw [extractValuesLoop_blank vs l _ hb, extractValuesLoop_blank vs l ls hb]
    · simp only [Bool.not_eq_true] at hb
      by_cases he : isEntryLine l = true
      · rw [extractValuesLoop_entry vs l _ hb he, extractValuesLoop_entry vs l ls hb he]
        apply ih
        obtain ⟨line, hmem, hline⟩ := h
        rcases List.mem_cons.mp hmem with rfl | hmem2
        · rcases hline with h1 | h1
          · rw [hb] at h1
            exact Bool.noConfusion h1
          · rw [he] at h1
            exact Bool.noConfusion h1
        · exact ⟨line, hmem2, hline⟩
      · simp only [Bool.not_eq_true] at he
        rw [extractValuesLoop_malformed vs l _ hb he, extractValuesLoop_malformed vs l ls hb he]

theorem extractValuesScan_all_entries (lines : List String) (vs : List NameCount)
    (rest : List (Option String))
    (h : ∀ line ∈ lines, isBlank line = false ∧ isEntryLine line = true) :
    extractValuesScan vs (lines.map some ++ rest) =
      extractValuesScan (vs ++ lines.map entryOfLine) rest := by
  induction lines generalizing vs with
  | nil => simp
  | cons l ls ih =>
    have hl := h l (List.mem_cons_self l ls)
    have hnb : ¬ isBlank l = true := by rw [hl.1]; simp
    rw [List.map_cons, List.cons_append, extractValuesScan_some, if_neg hnb, if_pos hl.2,
      ih _ (fun x hx => h x (List.mem_cons_of_mem l hx))]
    simp

theorem extractValuesLoop_all_entries (lines : List String) (vs : List NameCount)
    (rest : List String)
    (h : ∀ line ∈ lines, isBlank line = false ∧ isEntryLine line = true) :
    extractValuesLoop vs (lines ++ rest) =
      extractValuesLoop (vs ++ lines.map entryOfLine) rest := by
  induction lines generalizing vs with
  | nil => simp
  | cons l ls ih =>
    have hl := h l (List.mem_cons_self l ls)
    rw [List.cons_append, extractValuesLoop_entry vs l _ hl.1 hl.2,
      ih _ (fun x hx => h x (List.mem_cons_of_mem l hx))]
    simp

/-- When `Scan` returns false before the end of input and then delivers the
text of the buffer, the classifier gives what it gives on the lines delivered
before the stop, or, when the stop is met inside a section body, on those lines
followed by an empty line and the text of the buffer. -/
theorem parseScan_stop (buf : String) :
    ∀ (n : Nat) (lines : List String) (a : Analysis), lines.length ≤ n →
      parseScan a (lines.map some ++ [none, some buf]) = parseLoop a lines ∨
      parseScan a (lines.map some ++ [none, some buf]) = parseLoop a (lines ++ ["", buf]) := by
  intro n
  induction n with
  | zero =>
    intro lines a hlen
    have hnil : lines = [] := List.eq_nil_of_length_eq_zero (Nat.le_zero.mp hlen)
    left
    rw [hnil, List.map_nil, List.nil_append, parseScan_none, parseLoop_nil]
  | succ n ih =>
    intro lines a hlen
    cases lines with
    | nil =>
      left
      rw [List.map_nil, List.nil_append, parseScan_none, parseLoop_nil]
    | cons line rest =>
      have hlen2 : rest.length ≤ n := by simpa using hlen
      rw [List.map_cons, List.cons_append, List.cons_append]
      rcases line_cases line with ⟨t, rfl⟩ | ⟨t, rfl⟩ | ⟨c, t, rfl⟩ | ⟨sec, rfl⟩ | hign
      · rw [parseScan_blockID, parseLoop_blockID, parseLoop_blockID]
        exact ih rest _ hlen2
      · rw [parseScan_duration, parseLoop_duration, parseLoop_duration]
        exact ih rest _ hlen2
      · rw [parseScan_counter, parseLoop_counter, parseLoop_counter]
        cases (ParseUint t).2 with
        | some e => exact Or.inl rfl
        | none => exact ih rest _ hlen2
      · rw [parseScan_section, parseLoop_section, parseLoop_section, extractValuesFrom,
          extractValues, extractValues]
        rcases entries_or_stop rest with hall | hstop
        · right
          have h1 := extractValuesScan_all_entries rest [] [none, some buf] hall
          have h2 := extractValuesLoop_all_entries rest [] ["", buf] hall
          rw [extractValuesScan_none] at h1
          rw [extractValuesLoop_blank _ "" _ (by decide)] at h2
          rw [h1, h2]
          exact parseScan_map_some 1 [buf] _ (Nat.le_refl _)
        · rw [extractValuesScan_append rest [] _ hstop, extractValuesLoop_append rest [] _ hstop]
          cases (extractValuesLoop [] rest).1.2 with
          | some e => exact Or.inl rfl
          | none =>
            have hlen3 := extractValues_rest_length rest
            unfold extractValues at hlen3
            exact ih _ _ (Nat.le_trans hlen3 hlen2)
      · rw [parseScan_ignored a line _ hign, parseLoop_ignored a line rest hign,
          parseLoop_ignored a line _ hign]
        exact ih rest _ hlen2

/-- An error that the classifier meets on the lines delivered is returned
whatever the scanner does afterwards. -/
theorem parseScan_error (more : List (Option String)) :
    ∀ (n : Nat) (lines : List String) (a r : Analysis) (e : Error), lines.length ≤ n →
      parseLoop a lines = (r, some e) → parseScan a (lines.map some ++ more) = (r, some e) := by
  intro n
  induction n with
  | zero =>
    intro lines a r e hlen h
    have hnil : lines = [] := List.eq_nil_of_length_eq_zero (Nat.le_zero.mp hlen)
    rw [hnil, parseLoop_nil] at h
    exact Option.noConfusion (Prod.mk.inj h).2
  | succ n ih =>
    intro lines a r e hlen h
    cases lines with
    | nil =>
      rw [parseLoop_nil] at h
      exact Option.noConfusion (Prod.mk.inj h).2
    | cons line rest =>
      have hlen2 : rest.length ≤ n := by simpa using hlen
      rw [List.map_cons, List.cons_append]
      rcases line_cases line with ⟨t, rfl⟩ | ⟨t, rfl⟩ | ⟨c, t, rfl⟩ | ⟨sec, rfl⟩ | hign
      · rw [parseLoop_blockID] at h
        rw [parseScan_blockID]
        exact ih rest _ r e hlen2 h
      · rw [parseLoop_duration] at h
        rw [parseScan_duration]
        exact ih rest _ r e hlen2 h
      · rw [parseLoop_counter] at h
        rw [parseScan_counter]
        cases hp : (ParseUint t).2 with
        | some e2 =>
          rw [hp] at h
          exact h
        | none =>
          rw [hp] at h
          exact ih rest _ r e hlen2 h
      · rw [parseLoop_section, extractValues] at h
        rw [parseScan_section, extractValuesFrom]
        rcases entries_or_stop rest with hall | hstop
        · have h2 := extractValuesLoop_all_entries rest [] [] hall
          rw [List.append_nil, extractValuesLoop_nil] at h2
          rw [h2] at h
          simp only [] at h
          rw [parseLoop_nil] at h
          exact Option.noConfusion (Prod.mk.inj h).2
        · rw [extractValuesScan_append rest [] _ hstop]
          cases hp : (extractValuesLoop [] rest).1.2 with
          | some e2 =>
            rw [hp] at h
            exact h
          | none =>
            rw [hp] at h
            have hlen3 := extractValues_rest_length rest
            unfold extractValues at hlen3
            exact ih _ _ r e (Nat.le_trans hlen3 hlen2) h
      · rw [parseLoop_ignored a line rest hign] at h
        rw [parseScan_ignored a line _ hign]
        exact ih rest _ r e hlen2 h

theorem NewScanner_append (pre post : List String)
    (h : ∀ line ∈ pre, byteLength line < MaxScanTokenSize) :
    NewScanner (pre ++ post) = (pre.map dropCR).map some ++ NewScanner post := by
  induction pre with
  | nil => rfl
  | cons line rest ih =>
    rw [List.cons_append, NewScanner, if_pos (h line (List.mem_cons_self line rest)),
      ih (fun l hl => h l (List.mem_cons_of_mem line hl))]
    rfl

/-- An error met on lines that all fit the buffer is returned whatever follows
them in the input. -/
theorem parse_error (pre post tokens : List String) (r : Analysis) (e : Error)
    (hshort : ∀ line ∈ pre, byteLength line < MaxScanTokenSize)
    (htokens : pre.map dropCR = tokens) (h : parseLoop {} tokens = (r, some e)) :
    parse (pre ++ post) = (r, some e) := by
  rw [parse, NewScanner_append pre post hshort, htokens]
  exact parseScan_error _ tokens.length tokens _ r e (Nat.le_refl _) h

/-- At the first line that does not fit the buffer, `parse` gives what its loop
gives on the lines before it, or on these followed by an empty line and the
text of the buffer. -/
theorem parse_long (before : List String) (long : String) (after : List String)
    (h : ∀ line ∈ before, byteLength line < MaxScanTokenSize)
    (hlong : MaxScanTokenSize ≤ byteLength long) :
    parse (before ++ long :: after) = parseLoop {} (before.map dropCR) ∨
    parse (before ++ long :: after) =
      parseLoop {} (before.map dropCR ++ ["", bufferText long]) := by
  rw [parse, NewScanner_long before long after h hlong]
  exact parseScan_stop _ _ _ _ (Nat.le_refl _)

theorem exists_first_long (lines : List String)
    (h : ¬ ∀ line ∈ lines, byteLength line < MaxScanTokenSize) :
    ∃ before long after, lines = before ++ long :: after ∧
      (∀ line ∈ before, byteLength line < MaxScanTokenSize) ∧
      MaxScanTokenSize ≤ byteLength long := by
  induction lines with
  | nil => exact absurd (fun _ hl => absurd hl (List.not_mem_nil _)) h
  | cons l ls ih =>
    by_cases hl : byteLength l < MaxScanTokenSize
    · have h2 : ¬ ∀ line ∈ ls, byteLength line < MaxScanTokenSize := by
        intro hall
        apply h
        intro line hmem
        rcases List.mem_cons.mp hmem with rfl | hmem2
        · exact hl
        · exact hall line hmem2
      obtain ⟨before, long, after, heq, hb, hlong⟩ := ih h2
      refine ⟨l :: before, long, after, by rw [heq]; rfl, ?_, hlong⟩
      intro line hmem
      rcases List.mem_cons.mp hmem with rfl | hmem2
      · exact hl
      · exact hb line hmem2
    · exact ⟨[], l, ls, rfl, fun _ hx => absurd hx (List.not_mem_nil _), Nat.not_lt.mp hl⟩

theorem firstBytes_initial (pre : List Char) (hp : Char.ofNat 0xFFFD ∉ pre) :
    ∀ (cs : List Char) (n : Nat), pre <+: firstBytes n cs → pre <+: cs := by
  induction pre with
  | nil => intro cs n _; exact List.nil_prefix
  | cons x xs ih =>
    intro cs n h
    have hx : x ≠ Char.ofNat 0xFFFD := fun hx => hp (by rw [hx]; exact List.mem_cons_self _ _)
    have hxs : Char.ofNat 0xFFFD ∉ xs := fun hm => hp (List.mem_cons_of_mem _ hm)
    cases cs with
    | nil =>
      rw [firstBytes] at h
      exact h
    | cons c cs =>
      rw [firstBytes] at h
      by_cases hfit : utf8Size c ≤ n
      · rw [if_pos hfit] at h
        obtain ⟨t, ht⟩ := h
        rw [List.cons_append] at ht
        have h1 := (List.cons.inj ht).1
        have h2 := (List.cons.inj ht).2
        have h3 := ih hxs cs _ ⟨t, h2⟩
        obtain ⟨u, hu⟩ := h3
        exact ⟨u, by rw [List.cons_append, hu, h1]⟩
      · rw [if_neg hfit] at h
        have hmem : x ∈ List.replicate n (Char.ofNat 0xFFFD) :=
          h.subset (List.mem_cons_self _ _)
        exact absurd (List.eq_of_mem_replicate hmem) hx

theorem HasPrefix_of_bufferText (line pre : String) (hp : Char.ofNat 0xFFFD ∉ pre.data)
    (h : HasPrefix (bufferText line) pre = true) : HasPrefix line pre = true := by
  unfold bufferText at h
  have h2 := HasPrefix_of_dropCR _ _ h
  unfold HasPrefix at h2 ⊢
  rw [List.isPrefixOf_iff_prefix] at h2 ⊢
  exact firstBytes_initial pre.data hp line.data _ h2

theorem long_repeated (pre : String) (c : Char) (n : Nat) (h : MaxScanTokenSize ≤ n) :
    MaxScanTokenSize ≤ byteLength (pre ++ repeated c n) := by
  have h2 := byteLength_repeated pre "" c n
  rw [String.append_empty] at h2
  exact Nat.le_trans h h2

theorem head_repeated (pre : String) (c x : Char) (n : Nat) (cs : List Char)
    (hpre : pre.data = x :: cs) : (pre ++ repeated c n).data.head? = some x := by
  rw [String.data_append, hpre]
  rfl

/-! ### The ordered classifier on the scanner of `parse` -/

theorem parseOrderedScan_nil (order : List Recognizer) (a : Analysis) :
    parseOrderedScan order a [] = (a, none) := by
  rw [parseOrderedScan]

theorem parseOrderedScan_none (order : List Recognizer) (a : Analysis)
    (rest : List (Option String)) : parseOrderedScan order a (none :: rest) = (a, none) := by
  rw [parseOrderedScan]

theorem parseOrderedScan_found (order : List Recognizer) (a : Analysis) (line : String)
    (rest : List (Option String)) (r : Recognizer) (hmem : r ∈ order)
    (h : r.test line = true) :
    parseOrderedScan order a (some line :: rest) =
      match r with
      | .blockID =>
        parseOrderedScan order { a with BlockID := TrimPrefix line "Block ID: " } rest
      | .duration =>
        parseOrderedScan order { a with Duration := TrimPrefix line "Duration: " } rest
      | .counter c =>
        match (ParseUint (TrimPrefix line c.pre)).2 with
        | some err => (a.setCounter c (ParseUint (TrimPrefix line c.pre)).1, some err)
        | none =>
          parseOrderedScan order (a.setCounter c (ParseUint (TrimPrefix line c.pre)).1) rest
      | .title sec =>
        match (extractValuesFrom rest).1.2 with
        | some err => (a, some err)
        | none =>
          parseOrderedScan order (a.setList sec (extractValuesFrom rest).1.1)
            (extractValuesFrom rest).2 := by
  rw [parseOrderedScan]
  simp only [find_test order line r hmem h]
  rcases r with _ | _ | c | sec
  · rfl
  · rfl
  · simp only
    rcases ParseUint (TrimPrefix line c.pre) with ⟨v, _ | e⟩ <;> rfl
  · simp only
    rcases extractValuesFrom rest with ⟨⟨v, _ | e⟩, s⟩ <;> rfl

theorem parseOrderedScan_ignored (order : List Recognizer) (a : Analysis) (line : String)
    (rest : List (Option String)) (h : isRecognized line = false) :
    parseOrderedScan order a (some line :: rest) = parseOrderedScan order a rest := by
  rw [parseOrderedScan]
  simp only [find_test_none order line h]

/-- With all twelve recognizers in the list, the ordered classifier does what
the loop of `parse` does on every scanner, whatever the order. -/
theorem parseOrderedScan_eq (order : List Recognizer) (hall : ∀ r : Recognizer, r ∈ order) :
    ∀ (n : Nat) (scanner : List (Option String)) (a : Analysis), scanner.length ≤ n →
      parseOrderedScan order a scanner = parseScan a scanner := by
  intro n
  induction n with
  | zero =>
    intro scanner a hlen
    have hnil : scanner = [] := List.eq_nil_of_length_eq_zero (Nat.le_zero.mp hlen)
    rw [hnil, parseOrderedScan_nil, parseScan_nil]
  | succ n ih =>
    intro scanner a hlen
    cases scanner with
    | nil => rw [parseOrderedScan_nil, parseScan_nil]
    | cons x rest =>
      have hlen2 : rest.length ≤ n := by simpa using hlen
      cases x with
      | none => rw [parseOrderedScan_none, parseScan_none]
      | some line =>
        rcases line_cases line with ⟨t, rfl⟩ | ⟨t, rfl⟩ | ⟨c, t, rfl⟩ | ⟨sec, rfl⟩ | hign
        · rw [parseOrderedScan_found order a _ rest Recognizer.blockID (hall _)
            ((HasPrefix_iff _ _).mpr ⟨t, rfl⟩), parseScan_blockID, TrimPrefix_append]
          exact ih rest _ hlen2
        · rw [parseOrderedScan_found order a _ rest Recognizer.duration (hall _)
            ((HasPrefix_iff _ _).mpr ⟨t, rfl⟩), parseScan_duration, TrimPrefix_append]
          exact ih rest _ hlen2
        · rw [parseOrderedScan_found order a _ rest (Recognizer.counter c) (hall _)
            ((HasPrefix_iff _ _).mpr ⟨t, rfl⟩), parseScan_counter]
          simp only [TrimPrefix_append]
          cases (ParseUint t).2 with
          | some e => rfl
          | none => exact ih rest _ hlen2
        · rw [parseOrderedScan_found order a _ rest (Recognizer.title sec) (hall _)
            (by simp [Recognizer.test]), parseScan_section]
          simp only []
          cases (extractValuesFrom rest).1.2 with
          | some e => rfl
          | none =>
            have hlen3 : (extractValuesFrom rest).2.length ≤ rest.length :=
              extractValuesScan_length rest []
            exact ih _ _ (Nat.le_trans hlen3 hlen2)
        · rw [parseOrderedScan_ignored order a line rest hign, parseScan_ignored a line rest hign]
          exact ih rest _ hlen2

theorem scanErr_long (before : List String) (long : String) (after : List String)
    (err : Option String) (hlong : MaxScanTokenSize ≤ byteLength long) :
    scanErr (Input.mk (before ++ long :: after) err) = some ScanError.ErrTooLong := by
  unfold scanErr
  rw [if_neg]
  intro hall
  rw [List.all_eq_true] at hall
  have h := hall long (List.mem_append_right _ (List.mem_cons_self _ _))
  exact absurd (of_decide_eq_true h) (Nat.not_lt.mpr hlong)

theorem scanErr_short (lines : List String) (err : Option String)
    (h : ∀ line ∈ lines, byteLength line < MaxScanTokenSize) :
    scanErr (Input.mk lines err) = err.map ScanError.ReadError := by
  unfold scanErr
  rw [if_pos]
  rw [List.all_eq_true]
  intro line hmem
  exact decide_eq_true (h line hmem)

/-! ### Helpers for inputs with a line that does not fit the buffer -/

theorem long_repeated_only (c : Char) (n : Nat) (h : MaxScanTokenSize ≤ n) :
    MaxScanTokenSize ≤ byteLength (repeated c n) := by
  have h2 := long_repeated "" c n h
  rw [String.empty_append] at h2
  exact h2

/-- The scanner of `parse` up to and after the first line that does not fit. -/
theorem parse_long_eq (before : List String) (long : String) (after tokens : List String)
    (h : ∀ line ∈ before, byteLength line < MaxScanTokenSize)
    (hlong : MaxScanTokenSize ≤ byteLength long) (htokens : before.map dropCR = tokens) :
    parse (before ++ long :: after) =
      parseScan {} (tokens.map some ++ [none, some (bufferText long)]) := by
  rw [parse, NewScanner_long before long after h hlong, htokens]

/-! ### The whole report -/

theorem parseLoop_end_to_end (bid dur : String) (s l pu pe : Nat) (entries : List NameCount)
    (b : String) (hs : s < 2 ^ 64) (hl : l < 2 ^ 64) (hpu : pu < 2 ^ 64) (hpe : pe < 2 ^ 64)
    (hentries : ∀ e ∈ entries, ' ' ∉ e.Name.data ∧ e.Count < 2 ^ 64)
    (hb : isBlank b = true) :
    parseLoop {} (["Block ID: " ++ bid, "Duration: " ++ dur, "Series: " ++ decimal s,
        "Label names: " ++ decimal l, "Postings (unique label pairs): " ++ decimal pu,
        "Postings entries (total label pairs): " ++ decimal pe,
        "Highest cardinality labels:"] ++ entries.map entryLine ++ [b]) =
      ({ BlockID := bid, Duration := dur, Series := s, LabelNames := l, PostingsUnique := pu,
         PostingsEntries := pe, HighestCardinalityLabels := entries }, none) := by
  have hmap : entries.map entryLine =
      (entries.map (fun e => EntryText.mk (decimal e.Count) e.Name)).map EntryText.line := by
    simp [List.map_map, Function.comp_def, entryLine_eq]
  have hvalid : ∀ t ∈ entries.map (fun e => EntryText.mk (decimal e.Count) e.Name),
      t.valid = true := by
    intro t ht
    obtain ⟨e, he, rfl⟩ := List.mem_map.mp ht
    exact (entryText_of_entry e (hentries e he).1 (hentries e he).2).1
  have hback : (entries.map (fun e => EntryText.mk (decimal e.Count) e.Name)).map
      EntryText.entry = entries := by
    rw [List.map_map]
    conv_rhs => rw [← List.map_id entries]
    apply List.map_congr_left
    intro e he
    exact (entryText_of_entry e (hentries e he).1 (hentries e he).2).2
  simp only [List.cons_append, List.nil_append]
  rw [parseLoop_blockID, parseLoop_duration]
  refine (parseLoop_counter _ Counter.Series _ _).trans ?_
  rw [ParseUint_ok _ (decimal_isUint64 s hs), (decimal_spec s).2]
  refine (parseLoop_counter _ Counter.LabelNames _ _).trans ?_
  rw [ParseUint_ok _ (decimal_isUint64 l hl), (decimal_spec l).2]
  refine (parseLoop_counter _ Counter.PostingsUnique _ _).trans ?_
  rw [ParseUint_ok _ (decimal_isUint64 pu hpu), (decimal_spec pu).2]
  refine (parseLoop_counter _ Counter.PostingsEntries _ _).trans ?_
  rw [ParseUint_ok _ (decimal_isUint64 pe hpe), (decimal_spec pe).2]
  rw [hmap]
  refine (parseLoop_section_blank _ Section.HighestCardinalityLabels _ hvalid b hb []).trans ?_
  rw [hback, parseLoop_nil]
  rfl

/-- The classifier on one section, closed by a blank line or by the end of
input. -/
theorem parseLoop_single_section (sec : Section) (es : List EntryText) (tail : List String)
    (hes : ∀ e ∈ es, e.valid = true)
    (htail : tail = [] ∨ ∃ b, isBlank b = true ∧ tail = [b]) :
    parseLoop {} (sec.title :: (es.map EntryText.line ++ tail)) =
      (Analysis.setList {} sec (es.map EntryText.entry), none) := by
  rcases htail with rfl | ⟨b, hb, rfl⟩
  · rw [List.append_nil]
    exact parseLoop_section_eof _ sec es hes
  · rw [parseLoop_section_blank _ sec es hes b hb [], parseLoop_nil]

theorem setList_fields (sec : Section) (vs : List NameCount) :
    (Analysis.setList {} sec vs).getList sec = vs ∧
    (∀ other : Section, other ≠ sec → (Analysis.setList {} sec vs).getList other = []) ∧
    (Analysis.setList {} sec vs).BlockID = "" ∧ (Analysis.setList {} sec vs).Duration = "" ∧
    ∀ c : Counter, (Analysis.setList {} sec vs).getCounter c = 0 := by
  refine ⟨?_, ?_, ?_, ?_, ?_⟩
  · cases sec <;> rfl
  · intro other hne
    cases sec <;> cases other <;> first | rfl | exact absurd rfl hne
  · cases sec <;> rfl
  · cases sec <;> rfl
  · intro c
    cases sec <;> cases c <;> rfl

/-- Each field of the report of well-formed parts is the value of the last part
that sets it. -/
theorem foldl_apply_last (items : List Item) :
    (items.foldl (fun (acc : Analysis) (i : Item) => i.apply acc) {}).BlockID =
      lastOf Item.blockIDValue "" items ∧
    (items.foldl (fun (acc : Analysis) (i : Item) => i.apply acc) {}).Duration =
      lastOf Item.durationValue "" items ∧
    (∀ c : Counter,
      (items.foldl (fun (acc : Analysis) (i : Item) => i.apply acc) {}).getCounter c =
        lastOf (Item.counterValue c) 0 items) ∧
    (∀ sec : Section,
      (items.foldl (fun (acc : Analysis) (i : Item) => i.apply acc) {}).getList sec =
        lastOf (Item.listValue sec) [] items) := by
  refine ⟨?_, ?_, ?_, ?_⟩
  · refine foldl_apply_field Analysis.BlockID Item.blockIDValue ?_ items _
    intro i a
    cases i with
    | counter c value => cases c <;> rfl
    | sect sec entries closing => cases sec <;> rfl
    | _ => rfl
  · refine foldl_apply_field Analysis.Duration Item.durationValue ?_ items _
    intro i a
    cases i with
    | counter c value => cases c <;> rfl
    | sect sec entries closing => cases sec <;> rfl
    | _ => rfl
  · intro c
    have hstep : ∀ (i : Item) (a : Analysis),
        (i.apply a).getCounter c = ((Item.counterValue c) i).getD (a.getCounter c) := by
      intro i a
      cases i with
      | counter c1 value => cases c1 <;> cases c <;> rfl
      | sect sec entries closing => cases sec <;> cases c <;> rfl
      | _ => cases c <;> rfl
    have hf := foldl_apply_field (fun a => a.getCounter c) (Item.counterValue c) hstep items {}
    have h0 : ({} : Analysis).getCounter c = 0 := by cases c <;> rfl
    simp only [h0] at hf
    exact hf
  · intro sec
    have hstep : ∀ (i : Item) (a : Analysis),
        (i.apply a).getList sec = ((Item.listValue sec) i).getD (a.getList sec) := by
      intro i a
      cases i with
      | counter c value => cases c <;> cases sec <;> rfl
      | sect sec1 entries closing => cases sec1 <;> cases sec <;> rfl
      | _ => cases sec <;> rfl
    have hf := foldl_apply_field (fun a => a.getList sec) (Item.listValue sec) hstep items {}
    have h0 : ({} : Analysis).getList sec = [] := by cases sec <;> rfl
    simp only [h0] at hf
    exact hf

/-! ### Helpers for the claims on whole inputs -/

theorem isRecognized_repeated (c : Char) (n : Nat)
    (hc : c ∉ ['B', 'D', 'S', 'L', 'P', 'M', 'H']) : isRecognized (repeated c n) = false := by
  cases hr : isRecognized (repeated c n) with
  | false => rfl
  | true =>
    obtain ⟨x, hx, hmem⟩ := isRecognized_head _ hr
    cases n with
    | zero => exact Option.noConfusion hx
    | succ n =>
      have h1 : (repeated c (n + 1)).data.head? = some c := rfl
      rw [h1] at hx
      rw [Option.some.inj hx] at hc
      exact absurd hmem hc

/-- The series counter after a successful scan in which `Series: 42` is the
last line that begins with `Series: `. -/
theorem series_42 (pre tail : List String) (a r : Analysis)
    (hok : parseLoop a (pre ++ "Series: 42" :: tail) = (r, none))
    (hlast : ∀ line ∈ tail, HasPrefix line "Series: " = false) : r.Series = 42 := by
  have h := parseLoop_series _ _ _ r (Nat.le_refl _) hok
  have hp : HasPrefix "Series: 42" "Series: " = true := by decide
  have hv : (ParseUint (TrimPrefix "Series: 42" "Series: ")).1 = 42 := by decide
  rw [h, seriesAfter_append, seriesAfter_cons, seriesAfter_skip _ tail hlast, if_pos hp, hv]

theorem not_hasPrefix_dropCR (line pre : String) (h : HasPrefix line pre = false) :
    HasPrefix (dropCR line) pre = false := by
  cases hd : HasPrefix (dropCR line) pre with
  | false => rfl
  | true =>
    rw [HasPrefix_of_dropCR line pre hd] at h
    exact Bool.noConfusion h

theorem not_hasPrefix_bufferText (line pre : String) (hp : Char.ofNat 0xFFFD ∉ pre.data)
    (h : HasPrefix line pre = false) : HasPrefix (bufferText line) pre = false := by
  cases hd : HasPrefix (bufferText line) pre with
  | false => rfl
  | true =>
    rw [HasPrefix_of_bufferText line pre hp hd] at h
    exact Bool.noConfusion h

/-- A line without effect at the head of the input. -/
theorem parse_ignored (raw : String) (input : List String)
    (hshort : byteLength raw < MaxScanTokenSize) (h : isRecognized (dropCR raw) = false) :
    parse (raw :: input) = parse input := by
  rw [parse, NewScanner, if_pos hshort, parseScan_ignored _ _ _ h]
  rfl

theorem isRecognized_of_blank (line : String)
    (h : isRecognized line = false ∨ isBlank line = true) : isRecognized line = false := by
  rcases h with h | h
  · exact h
  · cases hr : isRecognized line with
    | false => rfl
    | true =>
      rw [(recognized_not_consumed line hr).1] at h
      exact Bool.noConfusion h

/-! ### The text of the buffer for a line that ends in a repeated character -/

theorem firstBytes_replicate (c : Char) (hc : utf8Size c = 1) :
    ∀ (m n : Nat), firstBytes n (List.replicate m c) = List.replicate (min n m) c := by
  intro m
  induction m with
  | zero =>
    intro n
    rw [Nat.min_zero]
    rfl
  | succ m ih =>
    intro n
    rw [List.replicate_succ, firstBytes, hc]
    cases n with
    | zero =>
      rw [if_neg (by decide), Nat.zero_min]
      rfl
    | succ n =>
      rw [if_pos (Nat.succ_le_succ (Nat.zero_le n)), Nat.add_sub_cancel, ih n,
        Nat.succ_min_succ, List.replicate_succ]

theorem firstBytes_append (pre : List Char) (hpre : ∀ x ∈ pre, utf8Size x = 1) :
    ∀ (n : Nat) (cs : List Char), pre.length ≤ n →
      firstBytes n (pre ++ cs) = pre ++ firstBytes (n - pre.length) cs := by
  induction pre with
  | nil => intro n cs _; rfl
  | cons x xs ih =>
    intro n cs hlen
    have hx := hpre x (List.mem_cons_self x xs)
    have h1 : 1 ≤ n := Nat.le_trans (Nat.succ_le_succ (Nat.zero_le _)) hlen
    have h2 : xs.length ≤ n - 1 := by
      rw [List.length_cons] at hlen
      omega
    rw [List.cons_append, firstBytes, hx, if_pos h1,
      ih (fun y hy => hpre y (List.mem_cons_of_mem x hy)) (n - 1) cs h2, List.length_cons,
      List.cons_append]
    congr 3
    omega

theorem dropCR_repeated (c : Char) (k : Nat) (hc : c ≠ '\r') :
    dropCR (repeated c k) = repeated c k := by
  unfold dropCR
  rw [if_neg]
  intro h
  have hmem : '\r' ∈ (repeated c k).data := List.mem_of_getLast?_eq_some h
  exact hc (List.eq_of_mem_replicate hmem).symm

/-- What the buffer holds of a line made of an ASCII text followed by an ASCII
character repeated beyond the size of the buffer. -/
theorem bufferText_repeated (pre : String) (c : Char) (n : Nat)
    (hpre : ∀ x ∈ pre.data, utf8Size x = 1) (hc : utf8Size c = 1) (hcr : c ≠ '\r')
    (hlast : pre.data.getLast? ≠ some '\r') (hlen : pre.data.length ≤ MaxScanTokenSize)
    (hn : MaxScanTokenSize ≤ pre.data.length + n) :
    bufferText (pre ++ repeated c n) =
      pre ++ repeated c (MaxScanTokenSize - pre.data.length) := by
  have hmin : min (MaxScanTokenSize - pre.data.length) n = MaxScanTokenSize - pre.data.length :=
    Nat.min_eq_left (by omega)
  have h1 : String.mk (firstBytes MaxScanTokenSize (pre ++ repeated c n).data) =
      pre ++ repeated c (MaxScanTokenSize - pre.data.length) := by
    apply String.ext
    rw [String.data_append, String.data_append]
    show firstBytes MaxScanTokenSize (pre.data ++ List.replicate n c) =
      pre.data ++ List.replicate (MaxScanTokenSize - pre.data.length) c
    rw [firstBytes_append pre.data hpre _ _ hlen, firstBytes_replicate c hc, hmin]
  unfold bufferText
  rw [h1, dropCR_append pre _ hlast, dropCR_repeated c _ hcr]

/-! ## The properties of the specification, claim by claim -/

/-- C1, as stated, fails: with a block id of 70000 characters the first line
does not fit the buffer of the scanner, which stops there, and `parse` returns
the empty Report without an error instead of the Report of the six values and
the two entries. -/
theorem C1_end_to_end_counterexample :
    parse ["Block ID: " ++ repeated 'A' 70000, "Duration: 1h2m", "Series: 100",
        "Label names: 10", "Postings (unique label pairs): 50",
        "Postings entries (total label pairs): 200", "Highest cardinality labels:",
        "30 __name__", "12 job", ""] = ({}, none) := by
  refine (parse_long_eq [] _ _ [] (by decide) (long_repeated _ _ _ (by decide)) rfl).trans ?_
  exact parseScan_none _ _

/-- C1 (amended; end-to-end): for an input whose lines are all shorter than
65536 bytes and are, each taken as the scanner delivers it (without its line
terminator), the six header lines, with the four counters in decimal and below
`2^64`, then `Highest cardinality labels:`, one `<count> <name>` line per entry
(names without a space, counts below `2^64`) and a blank line, `parse` returns
no error and the Report holding exactly those six scalar values, the entries
in input order as `HighestCardinalityLabels`, and five empty lists. -/
theorem C1_end_to_end (input : List String) (bid dur : String) (s l pu pe : Nat)
    (entries : List NameCount) (b : String)
    (hshort : ∀ line ∈ input, byteLength line < MaxScanTokenSize)
    (hs : s < 2 ^ 64) (hl : l < 2 ^ 64) (hpu : pu < 2 ^ 64) (hpe : pe < 2 ^ 64)
    (hentries : ∀ e ∈ entries, ' ' ∉ e.Name.data ∧ e.Count < 2 ^ 64)
    (hb : isBlank b = true)
    (hinput : input.map dropCR =
      ["Block ID: " ++ bid, "Duration: " ++ dur, "Series: " ++ decimal s,
        "Label names: " ++ decimal l, "Postings (unique label pairs): " ++ decimal pu,
        "Postings entries (total label pairs): " ++ decimal pe,
        "Highest cardinality labels:"] ++ entries.map entryLine ++ [b]) :
    parse input =
      ({ BlockID := bid, Duration := dur, Series := s, LabelNames := l, PostingsUnique := pu,
         PostingsEntries := pe, HighestCardinalityLabels := entries }, none) := by
  rw [parse_eq input _ hshort hinput]
  exact parseLoop_end_to_end bid dur s l pu pe entries b hs hl hpu hpe hentries hb

/-- The example of the specification, as an instance of the amended C1, here
with the line terminator `\r\n` on the first two lines. -/
theorem C1_end_to_end_witness :
    (∀ line ∈ ["Block ID: 01ABCD\r", "Duration: 1h2m\r", "Series: 100", "Label names: 10",
        "Postings (unique label pairs): 50", "Postings entries (total label pairs): 200",
        "Highest cardinality labels:", "30 __name__", "12 job", ""],
      byteLength line < MaxScanTokenSize) ∧
    (100 < 2 ^ 64 ∧ 10 < 2 ^ 64 ∧ 50 < 2 ^ 64 ∧ 200 < 2 ^ 64) ∧
    (∀ e ∈ [NameCount.mk "__name__" 30, NameCount.mk "job" 12],
      ' ' ∉ e.Name.data ∧ e.Count < 2 ^ 64) ∧
    isBlank "" = true ∧
    parse ["Block ID: 01ABCD\r", "Duration: 1h2m\r", "Series: 100", "Label names: 10",
        "Postings (unique label pairs): 50", "Postings entries (total label pairs): 200",
        "Highest cardinality labels:", "30 __name__", "12 job", ""] =
      ({ BlockID := "01ABCD", Duration := "1h2m", Series := 100, LabelNames := 10,
         PostingsUnique := 50, PostingsEntries := 200,
         HighestCardinalityLabels := [NameCount.mk "__name__" 30, NameCount.mk "job" 12] },
        none) :=
  ⟨by decide, by decide, by decide, by decide,
    C1_end_to_end _ "01ABCD" "1h2m" 100 10 50 200
      [NameCount.mk "__name__" 30, NameCount.mk "job" 12] ""
      (by decide) (by decide) (by decide) (by decide) (by decide) (by decide) (by decide)
      (by decide)⟩

/-- C2, as stated, fails: the entry line `10 aaa…` with a name of 70000
characters is a valid entry line, but it does not fit the buffer of the scanner;
the extractor sees the scanner stop, and `parse` returns no error and an empty
list where the claim has the entry. -/
theorem C2_single_section_counterexample :
    (EntryText.mk "10" (repeated 'a' 70000)).valid = true ∧
    parse ["Most common label pairs:", (EntryText.mk "10" (repeated 'a' 70000)).line, ""] =
      ({ MostCommonLabelPairs := [] }, none) := by
  constructor
  · simp only [EntryText.valid, Bool.and_eq_true, decide_eq_true_eq]
    refine ⟨by decide, ?_⟩
    intro hmem
    exact absurd (List.eq_of_mem_replicate hmem) (by decide)
  · refine (parse_long_eq ["Most common label pairs:"] _ _ ["Most common label pairs:"]
      (by decide) (long_repeated _ _ _ (by decide)) (by decide)).trans ?_
    refine (parseScan_section _ Section.MostCommonLabelPairs [none, _]).trans ?_
    rw [extractValuesFrom, extractValuesScan_none]
    refine (parseScan_ignored _ _ _ (bufferText_unrecognized _ ?_)).trans ?_
    · intro c hc
      have h1 : (EntryText.mk "10" (repeated 'a' 70000)).line.data.head? = some '1' :=
        head_repeated "10 " 'a' '1' 70000 ['0', ' '] rfl
      rw [← Option.some.inj (h1.symm.trans hc)]
      decide
    · rw [parseScan_nil]
      rfl

/-- C2 (amended; one section): for an input whose lines are all shorter than
65536 bytes and are, each taken as the scanner delivers it, a section title
followed by valid entry lines `<count> <name>` (possibly none) and then a blank
line or the end of input, `parse` returns no error; the list of that section
holds the entries as (name, count) pairs in the order of the lines, and the
five other lists and the six scalar fields keep their defaults. -/
theorem C2_single_section (input : List String) (sec : Section) (es : List EntryText)
    (tail : List String)
    (hshort : ∀ line ∈ input, byteLength line < MaxScanTokenSize)
    (hes : ∀ e ∈ es, e.valid = true)
    (htail : tail = [] ∨ ∃ b, isBlank b = true ∧ tail = [b])
    (hinput : input.map dropCR = sec.title :: (es.map EntryText.line ++ tail)) :
    (parse input).2 = none ∧
    (parse input).1.getList sec = es.map EntryText.entry ∧
    (∀ other : Section, other ≠ sec → (parse input).1.getList other = []) ∧
    (parse input).1.BlockID = "" ∧
    (parse input).1.Duration = "" ∧
    (∀ c : Counter, (parse input).1.getCounter c = 0) := by
  rw [parse_eq input _ hshort hinput, parseLoop_single_section sec es tail hes htail]
  exact ⟨rfl, setList_fields sec _⟩

/-- The example of the specification, as an instance of the amended C2. -/
theorem C2_single_section_witness :
    (∀ line ∈ ["Most common label pairs:", "10 foo", "5 bar", ""],
      byteLength line < MaxScanTokenSize) ∧
    (∀ e ∈ [EntryText.mk "10" "foo", EntryText.mk "5" "bar"], e.valid = true) ∧
    ([""] = [] ∨ ∃ b, isBlank b = true ∧ [""] = [b]) ∧
    (parse ["Most common label pairs:", "10 foo", "5 bar", ""]).2 = none ∧
    (parse ["Most common label pairs:", "10 foo", "5 bar", ""]).1.MostCommonLabelPairs =
      [NameCount.mk "foo" 10, NameCount.mk "bar" 5] :=
  have h := C2_single_section ["Most common label pairs:", "10 foo", "5 bar", ""]
    Section.MostCommonLabelPairs [EntryText.mk "10" "foo", EntryText.mk "5" "bar"] [""]
    (by decide) (by decide) (Or.inr ⟨"", rfl, rfl⟩) (by decide)
  ⟨by decide, by decide, Or.inr ⟨"", rfl, rfl⟩, h.1, h.2.1⟩

/-- C3 (failure of the extractor): `extractValues` fails exactly when one of
the lines it reads before the first blank line or the end of input is
malformed, that is, cut at every single space it does not give exactly two
pieces or its first piece is not a decimal unsigned integer below `2^64`; the
error then names the first such line and no list is returned. Otherwise it
returns one entry (name = second piece, count = value of the first piece) per
line read, in order. -/
theorem C3_extractValues_fails_iff (scanner : List String) :
    ((∃ err, (extractValues scanner).1.2 = some err) ↔
      ∃ line ∈ bodyLines scanner, isEntryLine line = false) ∧
    (extractValues scanner).1 =
      match firstMalformed scanner with
      | none => ((bodyLines scanner).map entryOfLine, none)
      | some line => ([], some (entryError line)) := by
  have key := extractValuesLoop_eq scanner []
  rw [List.nil_append] at key
  refine ⟨?_, key⟩
  unfold extractValues
  rw [key]
  cases hf : firstMalformed scanner with
  | none =>
    simp only [firstMalformed, List.find?_eq_none, Bool.not_eq_true', Bool.not_eq_false] at hf
    constructor
    · rintro ⟨err, herr⟩
      exact Option.noConfusion herr
    · rintro ⟨line, hmem, hbad⟩
      rw [hf line hmem] at hbad
      exact Bool.noConfusion hbad
  | some line =>
    constructor
    · intro _
      have hmem := List.mem_of_find?_eq_some hf
      have hbad := List.find?_some hf
      exact ⟨line, hmem, by simpa using hbad⟩
    · intro _
      exact ⟨_, rfl⟩

/-- The failing example of the specification: the body line `notanumber baz`. -/
theorem C3_extractValues_fails_iff_witness :
    (extractValues ["notanumber baz"]).1 =
      ([], some (Error.Errorf "expected uint64 as first part of label pair %q"
        "notanumber baz")) :=
  (C3_extractValues_fails_iff ["notanumber baz"]).2.trans (by decide)

/-- C4, as stated, fails: the count and the name of `10\tfoo` and of `10  foo`
are two whitespace-separated tokens of which the first is an unsigned integer,
yet both lines are rejected; and `10 ` holds the single token `10`, yet it is
accepted, with the empty name. -/
theorem C4_whitespace_tokens_counterexample :
    (whitespaceTokens "10\tfoo" = ["10", "foo"] ∧ isUint64 "10" = true ∧
      isBlank "10\tfoo" = false ∧
      extractValues ["10\tfoo"] =
        (([], some (Error.Errorf "expected two parts in label pair %q" "10\tfoo")), [])) ∧
    (whitespaceTokens "10  foo" = ["10", "foo"] ∧ isBlank "10  foo" = false ∧
      extractValues ["10  foo"] =
        (([], some (Error.Errorf "expected two parts in label pair %q" "10  foo")), [])) ∧
    (whitespaceTokens "10 " = ["10"] ∧ isBlank "10 " = false ∧
      extractValues ["10 "] = (([NameCount.mk "" 10], none), [])) := by
  decide

/-- C4 (amended): inside a section a non-blank line is cut at every single
space character; it is accepted exactly when that gives exactly two pieces and
the first piece is the text of an unsigned 64-bit integer, and the entry
appended is then (name = second piece, count = value of the first piece);
otherwise the extractor stops with an error and returns no list. -/
theorem C4_single_space_split (vs : List NameCount) (line : String) (rest : List String)
    (hb : isBlank line = false) :
    extractValuesLoop vs (line :: rest) =
      match Split line ' ' with
      | [part0, part1] =>
        if isUint64 part0 = true then
          extractValuesLoop (vs ++ [NameCount.mk part1 (decValue part0)]) rest
        else
          (([], some (Error.Errorf "expected uint64 as first part of label pair %q" line)), rest)
      | _ => (([], some (Error.Errorf "expected two parts in label pair %q" line)), rest) := by
  by_cases he : isEntryLine line = true
  · rw [extractValuesLoop_entry vs line rest hb he]
    unfold isEntryLine at he
    unfold entryOfLine
    rcases hs : Split line ' ' with _ | ⟨p0, _ | ⟨p1, _ | ⟨p2, t⟩⟩⟩
    all_goals simp only [hs] at he ⊢
    all_goals first
      | exact Bool.noConfusion he
      | rw [if_pos he]
  · simp only [Bool.not_eq_true] at he
    rw [extractValuesLoop_malformed vs line rest hb he]
    unfold isEntryLine at he
    unfold entryError
    rcases hs : Split line ' ' with _ | ⟨p0, _ | ⟨p1, _ | ⟨p2, t⟩⟩⟩
    all_goals simp only [hs] at he ⊢
    · rfl
    · rfl
    · simp [he]
    · simp

/-- Instances of the amended C4: a tab or two spaces between count and name
are rejected, one space is accepted. -/
theorem C4_single_space_split_witness :
    isBlank "10 foo" = false ∧
    extractValuesLoop [] ["10 foo", "5\tbar"] =
      (([], some (Error.Errorf "expected two parts in label pair %q" "5\tbar")), []) :=
  ⟨by decide, (C4_single_space_split [] "10 foo" ["5\tbar"] (by decide)).trans (by decide)⟩

/-- C5 (numeric header fields): when the classifier meets a line made of one
of the four numeric prefixes and a remainder `s`, it stores the value of `s` in
the counter of that prefix and goes on with the next line if `s` is a
non-empty string of ASCII decimal digits whose value is below `2^64`; for every
other `s` the parse stops there with an error and the following lines are not
read. -/
theorem C5_numeric_field (c : Counter) (s : String) (a : Analysis) (rest : List String) :
    (isUint64 s = true ∧
      parseLoop a ((c.pre ++ s) :: rest) = parseLoop (a.setCounter c (decValue s)) rest) ∨
    (isUint64 s = false ∧
      ∃ err, parseLoop a ((c.pre ++ s) :: rest) = (a.setCounter c (ParseUint s).1, some err)) := by
  rw [parseLoop_counter]
  by_cases h : isUint64 s = true
  · left
    refine ⟨h, ?_⟩
    rw [ParseUint_ok s h]
  · simp only [Bool.not_eq_true] at h
    right
    obtain ⟨e, he⟩ := ParseUint_err s h
    refine ⟨h, e, ?_⟩
    rw [he]

/-- The bounds of C5 on a whole input: `18446744073709551615` is accepted as
the maximum and the next integer is rejected. -/
theorem C5_numeric_field_witness :
    parse ["Series: 18446744073709551615"] = ({ Series := 18446744073709551615 }, none) ∧
    ∃ err, (parse ["Series: 18446744073709551616"]).2 = some err := by
  constructor
  · refine (parse_eq _ ["Series: 18446744073709551615"] (by decide) (by decide)).trans ?_
    rcases C5_numeric_field Counter.Series "18446744073709551615" {} [] with h | h
    · exact h.2.trans (by rw [parseLoop_nil]; decide)
    · exact absurd h.1 (by decide)
  · rw [parse_eq _ ["Series: 18446744073709551616"] (by decide) (by decide)]
    rcases C5_numeric_field Counter.Series "18446744073709551616" {} [] with h | h
    · exact absurd h.1 (by decide)
    · obtain ⟨err, herr⟩ := h.2
      exact ⟨err, congrArg Prod.snd herr⟩

/-- C6, as stated, fails: the line `Series: abc` appears in the input, after a
line of 70000 characters that does not fit the buffer of the scanner; the
scanner stops at that line, `Series: abc` is never read, and `parse` returns
success. -/
theorem C6_malformed_scalar_fatal_counterexample :
    (ParseUint "abc").2 ≠ none ∧
    parse [repeated 'y' 70000, "Series: abc"] = ({}, none) := by
  refine ⟨by decide, ?_⟩
  refine (parse_long_eq [] _ _ [] (by decide) (long_repeated_only _ _ (by decide)) rfl).trans ?_
  exact parseScan_none _ _

/-- C6 (amended; a malformed numeric field is fatal): when a line of the
input, at any position, is shorter than 65536 bytes, as are all the lines
before it, and is, as the scanner delivers it, made of one of the four numeric
prefixes followed by a remainder that `ParseUint` rejects, `parse` returns an
error, whether the line is met by the classifier, read as a section body line,
or comes after an earlier failure, and whatever follows it. -/
theorem C6_malformed_scalar_fatal (before after : List String) (line : String) (c : Counter)
    (s : String) (hbefore : ∀ l ∈ before, byteLength l < MaxScanTokenSize)
    (hline : byteLength line < MaxScanTokenSize) (hl : dropCR line = c.pre ++ s)
    (hbad : (ParseUint s).2 ≠ none) :
    (parse (before ++ line :: after)).2 ≠ none := by
  have hshort : ∀ l ∈ before ++ [line], byteLength l < MaxScanTokenSize := by
    intro l hmem
    rcases List.mem_append.mp hmem with h1 | h1
    · exact hbefore l h1
    · rw [List.mem_singleton.mp h1]
      exact hline
  have hfail := parseLoop_bad_counter c s hbad _ ((before ++ [line]).map dropCR) {}
    (Nat.le_refl _) (by rw [List.map_append, List.map_singleton, hl]; simp)
  rcases hp : parseLoop {} ((before ++ [line]).map dropCR) with ⟨r, _ | e⟩
  · rw [hp] at hfail
    exact absurd rfl hfail
  · have h := parse_error (before ++ [line]) after _ r e hshort rfl hp
    rw [List.append_assoc, List.singleton_append] at h
    rw [h]
    exact fun hn => Option.noConfusion hn

/-- The example of the specification for C6, `Series: abc`, here inside a
section body and followed by a line that does not fit the buffer. -/
theorem C6_malformed_scalar_fatal_witness :
    (∀ l ∈ ["Block ID: X", "Most common label pairs:", "10 foo"],
      byteLength l < MaxScanTokenSize) ∧
    byteLength "Series: abc\r" < MaxScanTokenSize ∧
    dropCR "Series: abc\r" = Counter.Series.pre ++ "abc" ∧ (ParseUint "abc").2 ≠ none ∧
    (parse (["Block ID: X", "Most common label pairs:", "10 foo"] ++
      "Series: abc\r" :: [repeated 'y' 70000])).2 ≠ none :=
  ⟨by decide, by decide, by decide, by decide,
    C6_malformed_scalar_fatal ["Block ID: X", "Most common label pairs:", "10 foo"]
      [repeated 'y' 70000] "Series: abc\r" Counter.Series "abc" (by decide) (by decide)
      (by decide) (by decide)⟩

/-- C7, as stated, fails: a later `Series: ` line overwrites the 42; a
`Series: 42` read as a section body line is an error that leaves the counter
at 0; and a `Series: 42` that follows a line of 70000 characters is never read,
the scanner having stopped. -/
theorem C7_series_42_counterexample :
    parse ["Series: 42", "Series: 7"] = ({ Series := 7 }, none) ∧
    parse ["Most common label pairs:", "Series: 42"] =
      ({}, some (Error.Errorf "expected uint64 as first part of label pair %q" "Series: 42")) ∧
    parse ["Series: 7", repeated 'y' 70000, "Series: 42"] = ({ Series := 7 }, none) := by
  have h42 : ParseUint "42" = (42, none) := by decide
  have h7 : ParseUint "7" = (7, none) := by decide
  refine ⟨?_, ?_, ?_⟩
  · refine (parse_eq _ ["Series: 42", "Series: 7"] (by decide) (by decide)).trans ?_
    refine (parseLoop_counter _ Counter.Series "42" _).trans ?_
    rw [h42]
    refine (parseLoop_counter _ Counter.Series "7" _).trans ?_
    rw [h7, parseLoop_nil]
    rfl
  · refine (parse_eq _ ["Most common label pairs:", "Series: 42"] (by decide)
      (by decide)).trans ?_
    refine (parseLoop_section _ Section.MostCommonLabelPairs _).trans ?_
    have he : extractValues ["Series: 42"] =
        (([], some (Error.Errorf "expected uint64 as first part of label pair %q"
          "Series: 42")), []) := by decide
    rw [he]
  · refine (parse_long_eq ["Series: 7"] _ _ ["Series: 7"] (by decide)
      (long_repeated_only _ _ (by decide)) (by decide)).trans ?_
    refine (parseScan_counter _ Counter.Series "7" [none, _]).trans ?_
    rw [h7, parseScan_none]
    rfl

/-- C7 (amended): for every input on which `parse` succeeds, in which the
lines before the line `Series: 42` are all shorter than 65536 bytes and in
which `Series: 42` is the last line that begins with `Series: `, the returned
Report has the series counter 42. -/
theorem C7_last_series_42 (before after : List String) (r : Analysis)
    (hshort : ∀ line ∈ before, byteLength line < MaxScanTokenSize)
    (hok : parse (before ++ "Series: 42" :: after) = (r, none))
    (hlast : ∀ line ∈ after, HasPrefix line "Series: " = false) :
    r.Series = 42 := by
  have h42 : dropCR "Series: 42" = "Series: 42" := by decide
  have hmap : ∀ xs : List String, (∀ line ∈ xs, HasPrefix line "Series: " = false) →
      ∀ line ∈ xs.map dropCR, HasPrefix line "Series: " = false := by
    intro xs hxs line hmem
    obtain ⟨raw, hraw, rfl⟩ := List.mem_map.mp hmem
    exact not_hasPrefix_dropCR raw _ (hxs raw hraw)
  by_cases hall : ∀ line ∈ after, byteLength line < MaxScanTokenSize
  · have hs : ∀ line ∈ before ++ "Series: 42" :: after, byteLength line < MaxScanTokenSize := by
      intro line hmem
      rcases List.mem_append.mp hmem with h1 | h1
      · exact hshort line h1
      · rcases List.mem_cons.mp h1 with h2 | h2
        · rw [h2]
          decide
        · exact hall line h2
    rw [parse_eq _ _ hs rfl, List.map_append, List.map_cons, h42] at hok
    exact series_42 _ _ _ r hok (hmap after hlast)
  · obtain ⟨a1, long, a2, heq, ha1, hlong⟩ := exists_first_long after hall
    have hs : ∀ line ∈ before ++ "Series: 42" :: a1, byteLength line < MaxScanTokenSize := by
      intro line hmem
      rcases List.mem_append.mp hmem with h1 | h1
      · exact hshort line h1
      · rcases List.mem_cons.mp h1 with h2 | h2
        · rw [h2]
          decide
        · exact ha1 line h2
    have hin : before ++ "Series: 42" :: after =
        (before ++ "Series: 42" :: a1) ++ long :: a2 := by
      rw [heq]
      simp
    have ha1last : ∀ line ∈ a1, HasPrefix line "Series: " = false :=
      fun line hmem => hlast line (by rw [heq]; exact List.mem_append_left _ hmem)
    have hlonglast : HasPrefix long "Series: " = false :=
      hlast long (by rw [heq]; exact List.mem_append_right _ (List.mem_cons_self _ _))
    rw [hin] at hok
    rcases parse_long _ long a2 hs hlong with h | h
    · rw [h, List.map_append, List.map_cons, h42] at hok
      exact series_42 _ _ _ r hok (hmap a1 ha1last)
    · rw [h, List.map_append, List.map_cons, h42, List.append_assoc, List.cons_append] at hok
      refine series_42 _ _ _ r hok ?_
      intro line hmem
      rcases List.mem_append.mp hmem with h1 | h1
      · exact hmap a1 ha1last line h1
      · rcases List.mem_cons.mp h1 with h2 | h2
        · rw [h2]
          decide
        · rw [List.mem_singleton.mp h2]
          exact not_hasPrefix_bufferText long _ (by decide) hlonglast

/-- An instance of the amended C7. -/
theorem C7_last_series_42_witness :
    (∀ line ∈ ["Series: 7"], byteLength line < MaxScanTokenSize) ∧
    parse (["Series: 7"] ++ "Series: 42" :: ["Block ID: X"]) =
      ({ BlockID := "X", Series := 42 }, none) ∧
    (∀ line ∈ ["Block ID: X"], HasPrefix line "Series: " = false) ∧
    ({ BlockID := "X", Series := 42 } : Analysis).Series = 42 :=
  have hok : parse (["Series: 7"] ++ "Series: 42" :: ["Block ID: X"]) =
      ({ BlockID := "X", Series := 42 }, none) := by
    refine (parse_eq _ ["Series: 7", "Series: 42", "Block ID: X"] (by decide)
      (by decide)).trans ?_
    refine (parseLoop_counter _ Counter.Series "7" _).trans ?_
    have h7 : ParseUint "7" = (7, none) := by decide
    rw [h7]
    refine (parseLoop_counter _ Counter.Series "42" _).trans ?_
    have h42 : ParseUint "42" = (42, none) := by decide
    rw [h42]
    refine (parseLoop_blockID _ "X" _).trans ?_
    rw [parseLoop_nil]
    rfl
  ⟨by decide, hok, by decide,
    C7_last_series_42 ["Series: 7"] ["Block ID: X"] _ (by decide) hok (by decide)⟩

/-- C8, as stated, fails: `Block ID: AAA…` with 70000 characters and
`Series: 42` are scalar field lines with valid values, but the first does not
fit the buffer of the scanner, which stops there; `parse` returns the empty
Report, in which the series counter is 0 and not the 42 of the last `Series: `
line. -/
theorem C8_last_write_wins_counterexample :
    (∀ i ∈ [Item.blockID (repeated 'A' 70000), Item.counter Counter.Series "42"],
      i.valid = true) ∧
    [Item.blockID (repeated 'A' 70000), Item.counter Counter.Series "42"].flatMap Item.lines =
      ["Block ID: " ++ repeated 'A' 70000, "Series: 42"] ∧
    lastOf (Item.counterValue Counter.Series) 0
      [Item.blockID (repeated 'A' 70000), Item.counter Counter.Series "42"] = 42 ∧
    parse ["Block ID: " ++ repeated 'A' 70000, "Series: 42"] = ({ Series := 0 }, none) := by
  refine ⟨?_, rfl, by decide, ?_⟩
  · intro i hi
    rcases List.mem_cons.mp hi with h | h
    · rw [h]
      rfl
    · rw [List.mem_singleton.mp h]
      decide
  · refine (parse_long_eq [] _ _ [] (by decide) (long_repeated _ _ _ (by decide)) rfl).trans ?_
    exact parseScan_none _ _

/-- C8 (amended; last write wins): on an input whose lines are all shorter
than 65536 bytes and are, each taken as the scanner delivers it, only scalar
field lines with valid values, blank lines, and sections consisting of a
title, valid entry lines and a closing blank line, `parse` succeeds, and each
of the six scalar fields and six lists has the value given by the last
occurrence of its prefix or title, or its default when there is none. -/
theorem C8_last_write_wins (input : List String) (items : List Item)
    (hshort : ∀ line ∈ input, byteLength line < MaxScanTokenSize)
    (h : ∀ i ∈ items, i.valid = true) (hinput : input.map dropCR = items.flatMap Item.lines) :
    (parse input).2 = none ∧
    (parse input).1.BlockID = lastOf Item.blockIDValue "" items ∧
    (parse input).1.Duration = lastOf Item.durationValue "" items ∧
    (∀ c : Counter, (parse input).1.getCounter c = lastOf (Item.counterValue c) 0 items) ∧
    (∀ sec : Section, (parse input).1.getList sec = lastOf (Item.listValue sec) [] items) := by
  rw [parse_eq input _ hshort hinput, parseLoop_items items h]
  exact ⟨rfl, foldl_apply_last items⟩

/-- An instance of the amended C8: a second `Series: ` line and a second,
empty `Most common label pairs:` section replace the first ones. -/
theorem C8_last_write_wins_witness :
    (∀ line ∈ ["Series: 1", "Most common label pairs:", "10 foo", "", "Series: 2",
      "Most common label pairs:", " "], byteLength line < MaxScanTokenSize) ∧
    (∀ i ∈ [Item.counter Counter.Series "1",
        Item.sect Section.MostCommonLabelPairs [EntryText.mk "10" "foo"] "",
        Item.counter Counter.Series "2", Item.sect Section.MostCommonLabelPairs [] " "],
      i.valid = true) ∧
    (parse ["Series: 1", "Most common label pairs:", "10 foo", "", "Series: 2",
      "Most common label pairs:", " "]).2 = none ∧
    (parse ["Series: 1", "Most common label pairs:", "10 foo", "", "Series: 2",
      "Most common label pairs:", " "]).1.Series = 2 ∧
    (parse ["Series: 1", "Most common label pairs:", "10 foo", "", "Series: 2",
      "Most common label pairs:", " "]).1.MostCommonLabelPairs = [] :=
  have h := C8_last_write_wins ["Series: 1", "Most common label pairs:", "10 foo", "",
    "Series: 2", "Most common label pairs:", " "] [Item.counter Counter.Series "1",
    Item.sect Section.MostCommonLabelPairs [EntryText.mk "10" "foo"] "",
    Item.counter Counter.Series "2", Item.sect Section.MostCommonLabelPairs [] " "]
    (by decide) (by decide) (by decide)
  ⟨by decide, by decide, h.1, (h.2.2.2.1 Counter.Series).trans (by decide),
    (h.2.2.2.2 Section.MostCommonLabelPairs).trans (by decide)⟩

/-- C9 (cursor hand-back): from any Report state, scanning a section title,
valid entry lines, one blank line and then `rest` is the same as scanning
`rest` from the state whose list for that title holds the entries; the
extractor consumes exactly the entry lines and the one blank line and leaves
the scanner at the first line of `rest`. -/
theorem C9_cursor_hand_back (a : Analysis) (sec : Section) (es : List EntryText) (b : String)
    (rest : List String) (hes : ∀ e ∈ es, e.valid = true) (hb : isBlank b = true) :
    parseLoop a (sec.title :: (es.map EntryText.line ++ b :: rest)) =
      parseLoop (a.setList sec (es.map EntryText.entry)) rest ∧
    extractValues (es.map EntryText.line ++ b :: rest) =
      ((es.map EntryText.entry, none), rest) := by
  constructor
  · exact parseLoop_section_blank a sec es hes b hb rest
  · have h := extractValuesLoop_entries_blank es hes [] b hb rest
    rw [List.nil_append] at h
    exact h

/-- An instance of C9: the line after the blank line is the next one the
classifier sees. -/
theorem C9_cursor_hand_back_witness :
    (∀ e ∈ [EntryText.mk "30" "__name__"], e.valid = true) ∧ isBlank " " = true ∧
    parseLoop {} ["Highest cardinality labels:", "30 __name__", " ", "Series: 7"] =
      parseLoop { HighestCardinalityLabels := [NameCount.mk "__name__" 30] } ["Series: 7"] ∧
    extractValues ["30 __name__", " ", "Series: 7"] =
      (([NameCount.mk "__name__" 30], none), ["Series: 7"]) :=
  ⟨by decide, by decide,
    C9_cursor_hand_back {} Section.HighestCardinalityLabels [EntryText.mk "30" "__name__"] " "
      ["Series: 7"] (by decide) (by decide)⟩

/-- C10 (nothing recognized): when no line of the input begins with one of the
six prefixes or equals one of the six titles, `parse` returns no error and the
Report with both texts empty, the four counters 0 and the six lists empty. This
holds of the loop on any lines delivered, and of `parse` on every input, the
lines being taken as the scanner delivers them, also when the scanner stops
before the end of the input. -/
theorem C10_nothing_recognized (input : List String) :
    ((∀ line ∈ input, isRecognized line = false) →
      parseLoop {} input =
        ({ BlockID := "", Duration := "", Series := 0, LabelNames := 0, PostingsUnique := 0,
           PostingsEntries := 0, LabelPairsMostInvolvedInChurning := [],
           LabelNamesMostInvolvedInChurning := [], MostCommonLabelPairs := [],
           LabelNamesWithHighestCumulativeLabelValueLength := [],
           HighestCardinalityLabels := [], HighestCardinalityMetricNames := [] }, none)) ∧
    ((∀ line ∈ input, isRecognized (dropCR line) = false) →
      parse input =
        ({ BlockID := "", Duration := "", Series := 0, LabelNames := 0, PostingsUnique := 0,
           PostingsEntries := 0, LabelPairsMostInvolvedInChurning := [],
           LabelNamesMostInvolvedInChurning := [], MostCommonLabelPairs := [],
           LabelNamesWithHighestCumulativeLabelValueLength := [],
           HighestCardinalityLabels := [], HighestCardinalityMetricNames := [] }, none)) :=
  ⟨fun h => parseLoop_unrecognized input _ h, fun h => parseScan_unrecognized input _ h⟩

/-- An instance of C10: lines that only resemble headers are ignored. -/
theorem C10_nothing_recognized_witness :
    (∀ line ∈ ["series: 42", "", "Block ID:", "12 job", " Most common label pairs:"],
      isRecognized line = false) ∧
    (∀ line ∈ ["series: 42", "", "Block ID:", "12 job", " Most common label pairs:"],
      isRecognized (dropCR line) = false) ∧
    parseLoop {} ["series: 42", "", "Block ID:", "12 job", " Most common label pairs:"] =
      ({ BlockID := "", Duration := "", Series := 0, LabelNames := 0, PostingsUnique := 0,
         PostingsEntries := 0, LabelPairsMostInvolvedInChurning := [],
         LabelNamesMostInvolvedInChurning := [], MostCommonLabelPairs := [],
         LabelNamesWithHighestCumulativeLabelValueLength := [], HighestCardinalityLabels := [],
         HighestCardinalityMetricNames := [] }, none) ∧
    parse ["series: 42", "", "Block ID:", "12 job", " Most common label pairs:"] =
      ({ BlockID := "", Duration := "", Series := 0, LabelNames := 0, PostingsUnique := 0,
         PostingsEntries := 0, LabelPairsMostInvolvedInChurning := [],
         LabelNamesMostInvolvedInChurning := [], MostCommonLabelPairs := [],
         LabelNamesWithHighestCumulativeLabelValueLength := [], HighestCardinalityLabels := [],
         HighestCardinalityMetricNames := [] }, none) :=
  ⟨by decide, by decide,
    (C10_nothing_recognized
      ["series: 42", "", "Block ID:", "12 job", " Most common label pairs:"]).1 (by decide),
    (C10_nothing_recognized
      ["series: 42", "", "Block ID:", "12 job", " Most common label pairs:"]).2 (by decide)⟩

/-- C11, as stated, fails: a line of 70000 times `y` begins with none of the
six prefixes and equals none of the six titles, but it does not fit the buffer
of the scanner, which stops there; `parse` of that line followed by `Series: 7`
returns the series counter 0, and `parse` of `Series: 7` alone returns 7. -/
theorem C11_ignored_line_counterexample :
    isRecognized (repeated 'y' 70000) = false ∧
    parse [repeated 'y' 70000, "Series: 7"] = ({ Series := 0 }, none) ∧
    parse ["Series: 7"] = ({ Series := 7 }, none) := by
  refine ⟨isRecognized_repeated _ _ (by decide), ?_, ?_⟩
  · refine (parse_long_eq [] _ _ [] (by decide) (long_repeated_only _ _ (by decide))
      rfl).trans ?_
    exact parseScan_none _ _
  · refine (parse_eq _ ["Series: 7"] (by decide) (by decide)).trans ?_
    refine (parseLoop_counter _ Counter.Series "7" _).trans ?_
    have h7 : ParseUint "7" = (7, none) := by decide
    rw [h7, parseLoop_nil]
    rfl

/-- C11 (amended; ignored lines): a line that begins with none of the six
prefixes and equals none of the six titles, a blank line in particular, has no
effect when the scanner delivers it: from any Report state the classifier
gives the same result on the line followed by `rest` as on `rest` alone; and so
`parse (raw :: input) = parse input` for every line `raw` shorter than 65536
bytes that the scanner delivers as such a line. -/
theorem C11_ignored_line (line : String) (rest : List String) (a : Analysis)
    (h : isRecognized line = false ∨ isBlank line = true) :
    parseLoop a (line :: rest) = parseLoop a rest ∧
    ∀ (raw : String) (input : List String), byteLength raw < MaxScanTokenSize →
      dropCR raw = line → parse (raw :: input) = parse input := by
  have hrec := isRecognized_of_blank line h
  refine ⟨parseLoop_ignored a line rest hrec, ?_⟩
  intro raw input hshort hraw
  exact parse_ignored raw input hshort (by rw [hraw]; exact hrec)

/-- Instances of the amended C11: a line that only resembles a header, and a
blank line that ends with `\r\n`. -/
theorem C11_ignored_line_witness :
    (isRecognized "Series 42" = false ∨ isBlank "Series 42" = true) ∧
    (isRecognized " \t" = false ∨ isBlank " \t" = true) ∧
    parseLoop {} ["Series 42", "Series: 7"] = parseLoop {} ["Series: 7"] ∧
    parse ["Series 42", "Series: 7"] = parse ["Series: 7"] ∧
    parse [" \t\r", "Series: 7"] = parse ["Series: 7"] :=
  ⟨by decide, by decide,
    (C11_ignored_line "Series 42" ["Series: 7"] {} (by decide)).1,
    (C11_ignored_line "Series 42" [] {} (by decide)).2 "Series 42" ["Series: 7"] (by decide)
      (by decide),
    (C11_ignored_line " \t" [] {} (by decide)).2 " \t\r" ["Series: 7"] (by decide)
      (by decide)⟩

/-- C12, as stated, fails: the Report returned with the error of
`Block ID: X`, `Series: abc` has the block id `X`, and a counter that does not
fit is even returned as `2^64 - 1`. -/
theorem C12_partial_report_counterexample :
    parse ["Block ID: X", "Series: abc"] =
      ({ BlockID := "X" }, some (Error.NumError "ParseUint" "abc" NumErr.ErrSyntax)) ∧
    parse ["Block ID: X", "Series: 18446744073709551616"] =
      ({ BlockID := "X", Series := 18446744073709551615 },
        some (Error.NumError "ParseUint" "18446744073709551616" NumErr.ErrRange)) := by
  constructor
  · refine (parse_eq _ ["Block ID: X", "Series: abc"] (by decide) (by decide)).trans ?_
    refine (parseLoop_blockID _ "X" _).trans ?_
    refine (parseLoop_counter _ Counter.Series "abc" _).trans ?_
    have hp : ParseUint "abc" =
        (0, some (Error.NumError "ParseUint" "abc" NumErr.ErrSyntax)) := by decide
    rw [hp]
    rfl
  · refine (parse_eq _ ["Block ID: X", "Series: 18446744073709551616"] (by decide)
      (by decide)).trans ?_
    refine (parseLoop_blockID _ "X" _).trans ?_
    refine (parseLoop_counter _ Counter.Series "18446744073709551616" _).trans ?_
    have hp : ParseUint "18446744073709551616" =
        (18446744073709551615,
          some (Error.NumError "ParseUint" "18446744073709551616" NumErr.ErrRange)) := by
      decide
    rw [hp]
    rfl

/-- C12 (amended): with an error `parse` returns the Report as built up to the
failing line. After well-formed lines, a numeric field whose value is not the
text of an unsigned 64-bit integer gives the Report of those lines with that
counter overwritten by what `ParseUint` returns, 0 or `2^64 - 1`; a section
whose body has a malformed line gives the Report of the lines before the
section title. This is what the loop gives on the lines delivered, and `parse`
returns the Report and the error of its loop on the lines up to the failure
when these fit the buffer of the scanner, whatever follows them. -/
theorem C12_report_returned_with_error (items : List Item) (rest : List String)
    (hitems : ∀ i ∈ items, i.valid = true) :
    (∀ (c : Counter) (s : String), isUint64 s = false →
      (∃ err, parseLoop {} (items.flatMap Item.lines ++ (c.pre ++ s) :: rest) =
        ((items.foldl (fun (acc : Analysis) (i : Item) => i.apply acc) {}).setCounter c
          (ParseUint s).1, some err)) ∧
      ((ParseUint s).1 = 0 ∨ (ParseUint s).1 = 2 ^ 64 - 1)) ∧
    (∀ (sec : Section) (line : String), firstMalformed rest = some line →
      parseLoop {} (items.flatMap Item.lines ++ sec.title :: rest) =
        (items.foldl (fun (acc : Analysis) (i : Item) => i.apply acc) {},
          some (entryError line))) ∧
    (∀ (pre post : List String) (r : Analysis) (err : Error),
      (∀ line ∈ pre, byteLength line < MaxScanTokenSize) →
      parseLoop {} (pre.map dropCR) = (r, some err) → parse (pre ++ post) = (r, some err)) := by
  refine ⟨?_, ?_, ?_⟩
  · intro c s hs
    obtain ⟨e, he⟩ := ParseUint_err s hs
    constructor
    · refine ⟨e, ?_⟩
      rw [parseLoop_items_append items hitems, parseLoop_counter, he]
    · exact ParseUint_err_value s (by rw [he]; simp)
  · intro sec line hline
    rw [parseLoop_items_append items hitems, parseLoop_section]
    have key := extractValuesLoop_eq rest []
    rw [hline] at key
    unfold extractValues
    rw [key]
  · intro pre post r err hshort h
    exact parse_error pre post _ r err hshort rfl h

/-- An instance of the amended C12: the fields set before the failing line are
returned with the error, also by `parse` on an input that goes on after the
failure. -/
theorem C12_report_returned_with_error_witness :
    (∀ i ∈ [Item.blockID "X", Item.counter Counter.LabelNames "7"], i.valid = true) ∧
    firstMalformed ["10 foo", "oops", ""] = some "oops" ∧
    (∀ line ∈ ["Block ID: X", "Label names: 7", "Most common label pairs:", "10 foo", "oops"],
      byteLength line < MaxScanTokenSize) ∧
    parseLoop {} ["Block ID: X", "Label names: 7", "Most common label pairs:", "10 foo", "oops",
        ""] =
      ({ BlockID := "X", LabelNames := 7 },
        some (Error.Errorf "expected two parts in label pair %q" "oops")) ∧
    parse (["Block ID: X", "Label names: 7", "Most common label pairs:", "10 foo", "oops"] ++
        ["", "Series: 1"]) =
      ({ BlockID := "X", LabelNames := 7 },
        some (Error.Errorf "expected two parts in label pair %q" "oops")) :=
  have h1 : parseLoop {} ["Block ID: X", "Label names: 7", "Most common label pairs:",
      "10 foo", "oops", ""] =
        ({ BlockID := "X", LabelNames := 7 },
          some (Error.Errorf "expected two parts in label pair %q" "oops")) :=
    ((C12_report_returned_with_error [Item.blockID "X", Item.counter Counter.LabelNames "7"]
      ["10 foo", "oops", ""] (by decide)).2.1 Section.MostCommonLabelPairs "oops"
        (by decide)).trans (by decide)
  have h2 : parseLoop {} ["Block ID: X", "Label names: 7", "Most common label pairs:",
      "10 foo", "oops"] =
        ({ BlockID := "X", LabelNames := 7 },
          some (Error.Errorf "expected two parts in label pair %q" "oops")) :=
    ((C12_report_returned_with_error [Item.blockID "X", Item.counter Counter.LabelNames "7"]
      ["10 foo", "oops"] (by decide)).2.1 Section.MostCommonLabelPairs "oops"
        (by decide)).trans (by decide)
  ⟨by decide, by decide, by decide, h1,
    (C12_report_returned_with_error [] [] (by decide)).2.2
      ["Block ID: X", "Label names: 7", "Most common label pairs:", "10 foo", "oops"]
      ["", "Series: 1"] _ _ (by decide) h2⟩

/-- C13, as stated, fails: the lines `a"b` and `5<tab>bar` are rejected, and
the message quotes them, `"a\"b"` and `"5\tbar"` with a backslash before the
quote and the letter `t` for the tab, so that the characters of the line do
not occur in the message as they are. -/
theorem C13_verbatim_counterexample :
    (isBlank "a\"b" = false ∧ isEntryLine "a\"b" = false ∧
      parse ["Most common label pairs:", "a\"b"] =
        ({}, some (Error.Errorf "expected two parts in label pair %q" "a\"b"))) ∧
    (∀ table : Char → Bool,
      Error.message table (Error.Errorf "expected two parts in label pair %q" "a\"b") =
        "expected two parts in label pair \"a\\\"b\"") ∧
    occursIn "a\"b" "expected two parts in label pair \"a\\\"b\"" = false ∧
    (isBlank "5\tbar" = false ∧ isEntryLine "5\tbar" = false ∧
      parse ["Most common label pairs:", "5\tbar"] =
        ({}, some (Error.Errorf "expected two parts in label pair %q" "5\tbar"))) ∧
    (∀ table : Char → Bool,
      Error.message table (Error.Errorf "expected two parts in label pair %q" "5\tbar") =
        "expected two parts in label pair \"5\\tbar\"") ∧
    occursIn "5\tbar" "expected two parts in label pair \"5\\tbar\"" = false := by
  refine ⟨⟨by decide, by decide, ?_⟩, ?_, by decide, ⟨by decide, by decide, ?_⟩, ?_, by decide⟩
  · refine (parse_eq _ ["Most common label pairs:", "a\"b"] (by decide) (by decide)).trans ?_
    exact parseLoop_section_malformed {} Section.MostCommonLabelPairs [] (by decide) "a\"b"
      (by decide) (by decide) []
  · intro table
    apply String.ext
    simp [Error.message, Sprintf, Quote, appendEscapedRune, IsPrint]
  · refine (parse_eq _ ["Most common label pairs:", "5\tbar"] (by decide) (by decide)).trans ?_
    exact parseLoop_section_malformed {} Section.MostCommonLabelPairs [] (by decide) "5\tbar"
      (by decide) (by decide) []
  · intro table
    apply String.ext
    simp [Error.message, Sprintf, Quote, appendEscapedRune, IsPrint]

/-- C13 (amended): for a section body line rejected as a malformed ranked
entry, the message of the error that `parse` returns includes the line as the
verb `%q` prints it, that is, in the form `strconv.Quote` gives it: between
double quotes, with a backslash before `"` and `\` and with the characters that
are not printable escaped. When every character of the line is printable and
none is `"` or `\`, the characters of the line occur in the message as they
are. -/
theorem C13_message_quotes_line (table : Char → Bool) (a : Analysis) (sec : Section)
    (es : List EntryText) (line : String) (rest : List String)
    (hes : ∀ e ∈ es, e.valid = true) (hb : isBlank line = false)
    (he : isEntryLine line = false) :
    (parseLoop a (sec.title :: (es.map EntryText.line ++ line :: rest))).2 =
      some (entryError line) ∧
    occursIn (Quote table line) (Error.message table (entryError line)) = true ∧
    ((∀ c ∈ line.data, c ≠ '"' ∧ c ≠ '\\' ∧ IsPrint table c = true) →
      occursIn line (Error.message table (entryError line)) = true) := by
  obtain ⟨text, htext⟩ := message_entryError table line
  refine ⟨?_, ?_, ?_⟩
  · rw [parseLoop_section_malformed a sec es hes line hb he rest]
  · have h := occursIn_of_append (Quote table line) text ""
    rw [String.append_empty] at h
    rw [htext]
    exact h
  · intro hplain
    have h := occursIn_of_append line (text ++ "\"") "\""
    rw [htext, Quote_plain table line hplain]
    simp only [String.append_assoc] at h ⊢
    exact h

/-- The example of the specification for C13: the line `notanumber baz` is
printable and occurs in the message as it is. -/
theorem C13_message_quotes_line_witness :
    (∀ e ∈ ([] : List EntryText), e.valid = true) ∧ isBlank "notanumber baz" = false ∧
    isEntryLine "notanumber baz" = false ∧
    (parseLoop {} ["Most common label pairs:", "notanumber baz"]).2 =
      some (Error.Errorf "expected uint64 as first part of label pair %q" "notanumber baz") ∧
    Error.message (fun _ => false)
        (Error.Errorf "expected uint64 as first part of label pair %q" "notanumber baz") =
      "expected uint64 as first part of label pair \"notanumber baz\"" ∧
    occursIn "notanumber baz"
      (Error.message (fun _ => false) (entryError "notanumber baz")) = true :=
  have h := C13_message_quotes_line (fun _ => false) {} Section.MostCommonLabelPairs []
    "notanumber baz" [] (by decide) (by decide) (by decide)
  ⟨by decide, by decide, by decide, h.1.trans (by decide), by decide, h.2.2 (by decide)⟩

/-- C14, as stated, fails: when the third line does not fit the buffer of the
scanner, reading stops with `ErrTooLong`, and when a read fails after one line,
reading stops with that error; in both cases `parse` returns no error but the
Report built from the lines read so far. -/
theorem C14_read_error_counterexample :
    scanErr (Input.mk ["Block ID: X", "Series: 42", repeated 'y' 70000, "Duration: 1h"] none) =
      some ScanError.ErrTooLong ∧
    parseInput (Input.mk ["Block ID: X", "Series: 42", repeated 'y' 70000, "Duration: 1h"]
      none) = ({ BlockID := "X", Series := 42 }, none) ∧
    scanErr (Input.mk ["Series: 42"] (some "unexpected EOF")) =
      some (ScanError.ReadError "unexpected EOF") ∧
    parseInput (Input.mk ["Series: 42"] (some "unexpected EOF")) = ({ Series := 42 }, none) := by
  have h42 : ParseUint "42" = (42, none) := by decide
  refine ⟨?_, ?_, ?_, ?_⟩
  · exact scanErr_long ["Block ID: X", "Series: 42"] _ _ _ (long_repeated_only _ _ (by decide))
  · refine (parse_long_eq ["Block ID: X", "Series: 42"] _ _ ["Block ID: X", "Series: 42"]
      (by decide) (long_repeated_only _ _ (by decide)) (by decide)).trans ?_
    refine (parseScan_blockID _ "X" [some "Series: 42", none, _]).trans ?_
    refine (parseScan_counter _ Counter.Series "42" [none, _]).trans ?_
    rw [h42, parseScan_none]
    rfl
  · exact scanErr_short _ _ (by decide)
  · refine (parse_eq _ ["Series: 42"] (by decide) (by decide)).trans ?_
    refine (parseLoop_counter _ Counter.Series "42" _).trans ?_
    rw [h42, parseLoop_nil]
    rfl

/-- C14 (amended): when reading the input fails part-way, `parse` does not
return that error, which it never consults. When a read fails after lines that
fit the buffer, the result is that of the loop on the lines delivered, as if
the input ended there. When a line of 65536 bytes or more is met after such
lines, the scanner stops with `ErrTooLong` and nothing after that line is read;
the result is that of the loop on the lines before it or, when the line is met
inside a section body, on those lines followed by an empty line and the first
65536 bytes of the long line. In particular, after well-formed lines (scalar
lines with valid values, blank lines, closed sections) `parse` returns success
with the Report built from them; after well-formed lines, a section title and
valid entry lines, the entries are stored as the list of the section and the
first 65536 bytes of the long line are classified as one more line. -/
theorem C14_read_error_ignored (items : List Item) (before : List String) (long : String)
    (after : List String) (err : Option String)
    (hitems : ∀ i ∈ items, i.valid = true)
    (hbefore : ∀ line ∈ before, byteLength line < MaxScanTokenSize)
    (hlong : MaxScanTokenSize ≤ byteLength long) :
    (scanErr (Input.mk before err) = err.map ScanError.ReadError ∧
      parseInput (Input.mk before err) = parseLoop {} (before.map dropCR)) ∧
    (scanErr (Input.mk (before ++ long :: after) err) = some ScanError.ErrTooLong ∧
      (parseInput (Input.mk (before ++ long :: after) err) = parseLoop {} (before.map dropCR) ∨
        parseInput (Input.mk (before ++ long :: after) err) =
          parseLoop {} (before.map dropCR ++ ["", bufferText long]))) ∧
    (before.map dropCR = items.flatMap Item.lines →
      parseInput (Input.mk before err) =
        (items.foldl (fun (acc : Analysis) (i : Item) => i.apply acc) {}, none) ∧
      parseInput (Input.mk (before ++ long :: after) err) =
        (items.foldl (fun (acc : Analysis) (i : Item) => i.apply acc) {}, none)) ∧
    (∀ (sec : Section) (es : List EntryText), (∀ e ∈ es, e.valid = true) →
      before.map dropCR = items.flatMap Item.lines ++ sec.title :: es.map EntryText.line →
      parseInput (Input.mk (before ++ long :: after) err) =
        parseLoop ((items.foldl (fun (acc : Analysis) (i : Item) => i.apply acc) {}).setList sec
          (es.map EntryText.entry)) [bufferText long]) := by
  refine ⟨⟨scanErr_short before err hbefore, parse_eq before _ hbefore rfl⟩,
    ⟨scanErr_long before long after err hlong, parse_long before long after hbefore hlong⟩,
    ?_, ?_⟩
  · intro hclosed
    constructor
    · exact (parse_eq before _ hbefore hclosed).trans (parseLoop_items items hitems {})
    · refine (parse_long_eq before long after _ hbefore hlong hclosed).trans ?_
      rw [parseScan_items_append items hitems, parseScan_none]
  · intro sec es hes hopen
    refine (parse_long_eq before long after _ hbefore hlong hopen).trans ?_
    rw [List.map_append, List.append_assoc, parseScan_items_append items hitems, List.map_cons,
      List.cons_append, parseScan_section, extractValuesFrom,
      extractValuesScan_all_entries (es.map EntryText.line) [] _
        (fun line hmem => by
          obtain ⟨e, he, rfl⟩ := List.mem_map.mp hmem
          exact ⟨EntryText.not_blank e (hes e he), EntryText.isEntryLine e (hes e he)⟩),
      extractValuesScan_none]
    simp only [List.nil_append, List.map_map]
    have hmap : List.map (entryOfLine ∘ EntryText.line) es = es.map EntryText.entry :=
      List.map_congr_left (fun e he => EntryText.entryOfLine e (hes e he))
    rw [hmap]
    exact parseScan_map_some 1 [bufferText long] _ (Nat.le_refl _)

/-- Instances of the amended C14. A read that fails after three lines: the
result is that of the loop on these lines. A line of 70000 characters met
inside a section body: the entry read is stored, and the first 65536 bytes of
that line are classified; when the line is `Block ID: yyy…` the block id is
set to 65526 times `y` and `parse` succeeds, and when it is `Series: xxx…`
`parse` returns the error of `ParseUint`. -/
theorem C14_read_error_ignored_witness :
    (∀ i ∈ [Item.blockID "X"], i.valid = true) ∧
    (∀ line ∈ ["Block ID: X", "Most common label pairs:", "10 foo"],
      byteLength line < MaxScanTokenSize) ∧
    MaxScanTokenSize ≤ byteLength ("Block ID: " ++ repeated 'y' 70000) ∧
    MaxScanTokenSize ≤ byteLength ("Series: " ++ repeated 'x' 70000) ∧
    parseInput (Input.mk ["Block ID: X", "Most common label pairs:", "10 foo"]
      (some "unexpected EOF")) =
        parseLoop {} ["Block ID: X", "Most common label pairs:", "10 foo"] ∧
    parseInput (Input.mk (["Block ID: X", "Most common label pairs:", "10 foo"] ++
      ("Block ID: " ++ repeated 'y' 70000) :: ["Series: 1"]) none) =
        ({ BlockID := repeated 'y' 65526,
           MostCommonLabelPairs := [NameCount.mk "foo" 10] }, none) ∧
    parseInput (Input.mk (["Block ID: X", "Most common label pairs:", "10 foo"] ++
      ("Series: " ++ repeated 'x' 70000) :: ["Series: 1"]) none) =
        ({ BlockID := "X", MostCommonLabelPairs := [NameCount.mk "foo" 10] },
          some (Error.NumError "ParseUint" (repeated 'x' 65528) NumErr.ErrSyntax)) :=
  have hy : bufferText ("Block ID: " ++ repeated 'y' 70000) =
      "Block ID: " ++ repeated 'y' 65526 :=
    bufferText_repeated "Block ID: " 'y' 70000 (by decide) (by decide) (by decide) (by decide)
      (by decide) (by decide)
  have hx : bufferText ("Series: " ++ repeated 'x' 70000) = "Series: " ++ repeated 'x' 65528 :=
    bufferText_repeated "Series: " 'x' 70000 (by decide) (by decide) (by decide) (by decide)
      (by decide) (by decide)
  have hp : ParseUint (repeated 'x' 65528) =
      (0, some (Error.NumError "ParseUint" (repeated 'x' 65528) NumErr.ErrSyntax)) := rfl
  ⟨by decide, by decide, long_repeated _ _ _ (by decide), long_repeated _ _ _ (by decide),
    (C14_read_error_ignored [Item.blockID "X"]
      ["Block ID: X", "Most common label pairs:", "10 foo"] ("Block ID: " ++ repeated 'y' 70000)
      ["Series: 1"] (some "unexpected EOF") (by decide) (by decide)
      (long_repeated _ _ _ (by decide))).1.2,
    ((C14_read_error_ignored [Item.blockID "X"]
      ["Block ID: X", "Most common label pairs:", "10 foo"] ("Block ID: " ++ repeated 'y' 70000)
      ["Series: 1"] none (by decide) (by decide) (long_repeated _ _ _ (by decide))).2.2.2
        Section.MostCommonLabelPairs [EntryText.mk "10" "foo"] (by decide) (by decide)).trans
      (by rw [hy, parseLoop_blockID, parseLoop_nil]; rfl),
    ((C14_read_error_ignored [Item.blockID "X"]
      ["Block ID: X", "Most common label pairs:", "10 foo"] ("Series: " ++ repeated 'x' 70000)
      ["Series: 1"] none (by decide) (by decide) (long_repeated _ _ _ (by decide))).2.2.2
        Section.MostCommonLabelPairs [EntryText.mk "10" "foo"] (by decide) (by decide)).trans
      (by
        rw [hx]
        refine (parseLoop_counter _ Counter.Series _ _).trans ?_
        rw [hp]
        rfl)⟩

/-- C15 (mutually exclusive recognizers): for every line at most one of the
six tests `line begins with <prefix>` and the six tests `line equals <title>`
holds; therefore, for every order of the twelve recognizers, the classifier
that tries them in that order and lets the first match win gives the same
result as `parse`: as its loop from any Report state on any lines delivered,
and as `parse` itself on every input. -/
theorem C15_order_irrelevant (order : List Recognizer) (input : List String) (a : Analysis)
    (horder : order.Perm Recognizer.all) :
    (∀ (line : String) (r1 r2 : Recognizer),
      r1.test line = true → r2.test line = true → r1 = r2) ∧
    parseOrdered order a input = parseLoop a input ∧
    parseOrdered order {} input = parseLoop {} input ∧
    parseOrderedScan order {} (NewScanner input) = parse input := by
  have hall : ∀ r : Recognizer, r ∈ order := fun r => horder.symm.subset (mem_all r)
  exact ⟨test_exclusive, parseOrdered_eq order hall input.length input a (Nat.le_refl _),
    parseOrdered_eq order hall input.length input _ (Nat.le_refl _),
    parseOrderedScan_eq order hall _ _ _ (Nat.le_refl _)⟩

/-- An instance of C15: the twelve tests tried in the reverse order. -/
theorem C15_order_irrelevant_witness :
    Recognizer.all.reverse.Perm Recognizer.all ∧
    parseOrdered Recognizer.all.reverse {}
        ["Label names: 10", "Label names most involved in churning:", "3 job", ""] =
      parseLoop {} ["Label names: 10", "Label names most involved in churning:", "3 job", ""] ∧
    parseOrderedScan Recognizer.all.reverse {}
        (NewScanner ["Label names: 10", "Label names most involved in churning:", "3 job",
          ""]) =
      parse ["Label names: 10", "Label names most involved in churning:", "3 job", ""] :=
  ⟨List.reverse_perm _,
    (C15_order_irrelevant Recognizer.all.reverse
      ["Label names: 10", "Label names most involved in churning:", "3 job", ""] {}
      (List.reverse_perm _)).2.2.1,
    (C15_order_irrelevant Recognizer.all.reverse
      ["Label names: 10", "Label names most involved in churning:", "3 job", ""] {}
      (List.reverse_perm _)).2.2.2⟩

/-- C16 (no partial list): when a section body holds a malformed line after
valid entry lines, `extractValues` returns the error with the empty list, none
of the entries already read, and `parse` stops with the Report it had when it
met the title, so that the list of the section is unchanged. -/
theorem C16_no_partial_list (a : Analysis) (sec : Section) (es : List EntryText) (line : String)
    (rest : List String) (hes : ∀ e ∈ es, e.valid = true) (hb : isBlank line = false)
    (he : isEntryLine line = false) :
    extractValues (es.map EntryText.line ++ line :: rest) =
      (([], some (entryError line)), rest) ∧
    parseLoop a (sec.title :: (es.map EntryText.line ++ line :: rest)) =
      (a, some (entryError line)) ∧
    (parseLoop a (sec.title :: (es.map EntryText.line ++ line :: rest))).1.getList sec =
      a.getList sec := by
  have h1 := extractValuesLoop_entries_malformed es hes [] line hb he rest
  have h2 := parseLoop_section_malformed a sec es hes line hb he rest
  exact ⟨h1, h2, by rw [h2]⟩

/-- An instance of C16: the entry read before the malformed line is not kept,
and the list stored earlier for the section stays. -/
theorem C16_no_partial_list_witness :
    (∀ e ∈ [EntryText.mk "10" "foo"], e.valid = true) ∧ isBlank "notanumber baz" = false ∧
    isEntryLine "notanumber baz" = false ∧
    extractValues ["10 foo", "notanumber baz", "5 bar"] =
      (([], some (Error.Errorf "expected uint64 as first part of label pair %q"
        "notanumber baz")), ["5 bar"]) ∧
    (parseLoop { MostCommonLabelPairs := [NameCount.mk "old" 1] }
      ["Most common label pairs:", "10 foo", "notanumber baz", "5 bar"]).1.MostCommonLabelPairs =
        [NameCount.mk "old" 1] :=
  have h := C16_no_partial_list { MostCommonLabelPairs := [NameCount.mk "old" 1] }
    Section.MostCommonLabelPairs [EntryText.mk "10" "foo"] "notanumber baz" ["5 bar"]
    (by decide) (by decide) (by decide)
  ⟨by decide, by decide, by decide, h.1, h.2.2⟩

/-- C17 (names are single tokens): when `parse` succeeds, no name in any of the
six lists of the returned Report holds a space character. This holds of the
loop on any lines delivered, and of `parse` on every input, also when the
scanner stops before the end of the input. -/
theorem C17_names_without_space (input : List String) (r : Analysis) :
    (parseLoop {} input = (r, none) →
      ∀ sec : Section, ∀ e ∈ r.getList sec, ' ' ∉ e.Name.data) ∧
    (parse input = (r, none) →
      ∀ sec : Section, ∀ e ∈ r.getList sec, ' ' ∉ e.Name.data) := by
  have h0 : ∀ sec : Section, ∀ e ∈ ({} : Analysis).getList sec, ' ' ∉ e.Name.data := by
    intro sec e he
    cases sec <;> simp [Analysis.getList] at he
  exact ⟨fun hok => parseLoop_names input.length input _ r (Nat.le_refl _) h0 hok,
    fun hok => parseScan_names _ _ _ r (Nat.le_refl _) h0 hok⟩

/-- An instance of C17. -/
theorem C17_names_without_space_witness :
    parse ["Most common label pairs:", "10 foo", "5 a\tb"] =
      ({ MostCommonLabelPairs := [NameCount.mk "foo" 10, NameCount.mk "a\tb" 5] }, none) ∧
    ∀ sec : Section, ∀ e ∈
      ({ MostCommonLabelPairs := [NameCount.mk "foo" 10, NameCount.mk "a\tb" 5] } :
        Analysis).getList sec, ' ' ∉ e.Name.data :=
  have hok : parse ["Most common label pairs:", "10 foo", "5 a\tb"] =
      ({ MostCommonLabelPairs := [NameCount.mk "foo" 10, NameCount.mk "a\tb" 5] }, none) :=
    (parse_eq _ ["Most common label pairs:", "10 foo", "5 a\tb"] (by decide) (by decide)).trans
      (parseLoop_section_eof {} Section.MostCommonLabelPairs
        [EntryText.mk "10" "foo", EntryText.mk "5" "a\tb"] (by decide))
  ⟨hok, (C17_names_without_space _ _).2 hok⟩

/-- C18, as stated, fails: when a line of 70000 characters stands before the
section, or is an entry line of the section, the scanner stops at that line,
the recognized line `Series: 3` that follows the unclosed section is never
read, and `parse` returns success. -/
theorem C18_unclosed_section_fails_counterexample :
    parse [repeated 'y' 70000, "Most common label pairs:", "Series: 3"] = ({}, none) ∧
    (EntryText.mk "10" (repeated 'a' 70000)).valid = true ∧
    parse ["Most common label pairs:", (EntryText.mk "10" (repeated 'a' 70000)).line,
      "Series: 3"] = ({}, none) := by
  refine ⟨?_, ?_, ?_⟩
  · refine (parse_long_eq [] _ _ [] (by decide) (long_repeated_only _ _ (by decide))
      rfl).trans ?_
    exact parseScan_none _ _
  · simp only [EntryText.valid, Bool.and_eq_true, decide_eq_true_eq]
    refine ⟨by decide, ?_⟩
    intro hmem
    exact absurd (List.eq_of_mem_replicate hmem) (by decide)
  · refine (parse_long_eq ["Most common label pairs:"] _ _ ["Most common label pairs:"]
      (by decide) (long_repeated _ _ _ (by decide)) (by decide)).trans ?_
    refine (parseScan_section _ Section.MostCommonLabelPairs [none, _]).trans ?_
    rw [extractValuesFrom, extractValuesScan_none]
    refine (parseScan_ignored _ _ _ (bufferText_unrecognized _ ?_)).trans ?_
    · intro c hc
      have h1 : (EntryText.mk "10" (repeated 'a' 70000)).line.data.head? = some '1' :=
        head_repeated "10 " 'a' '1' 70000 ['0', ' '] rfl
      rw [← Option.some.inj (h1.symm.trans hc)]
      decide
    · rw [parseScan_nil]
      rfl

/-- C18 (amended; an unclosed section swallows the next header): when a
section title is followed by valid entry lines (possibly none) and then, with
no blank line in between, by a line that begins with one of the six prefixes or
equals one of the six titles, the extractor reads that line as a ranked entry
and rejects it (it is not blank and not a well-formed entry line), so the loop
of `parse` fails on the lines delivered, whatever comes before and after; and
`parse` fails on every input with these lines in which the lines up to and
including that line are shorter than 65536 bytes. -/
theorem C18_unclosed_section_fails (before after : List String) (sec : Section)
    (es : List EntryText) (line : String) (a : Analysis) (hes : ∀ e ∈ es, e.valid = true)
    (hl : isRecognized line = true) :
    (isBlank line = false ∧ isEntryLine line = false) ∧
    parseLoop a (sec.title :: (es.map EntryText.line ++ line :: after)) =
      (a, some (entryError line)) ∧
    (parseLoop {} (before ++ sec.title :: (es.map EntryText.line ++ line :: after))).2 ≠ none ∧
    ((∀ l ∈ before ++ sec.title :: (es.map EntryText.line ++ [line]),
        byteLength l < MaxScanTokenSize) →
      (parse (before ++ sec.title :: (es.map EntryText.line ++ line :: after))).2 ≠ none) := by
  have hnc := recognized_not_consumed line hl
  refine ⟨hnc, parseLoop_section_malformed a sec es hes line hnc.1 hnc.2 after,
    parseLoop_unclosed_section sec es hes line hl after before.length before _ (Nat.le_refl _),
    ?_⟩
  intro hshort
  have hes2 : ∀ e ∈ es.map (fun e => EntryText.mk e.count (dropCR e.name)),
      e.valid = true := by
    intro e hmem
    obtain ⟨e0, he0, rfl⟩ := List.mem_map.mp hmem
    exact (dropCR_entry e0 (hes e0 he0)).2
  have hlines : (es.map EntryText.line).map dropCR =
      (es.map (fun e => EntryText.mk e.count (dropCR e.name))).map EntryText.line := by
    rw [List.map_map, List.map_map]
    exact List.map_congr_left (fun e he => (dropCR_entry e (hes e he)).1)
  have htokens : (before ++ sec.title :: (es.map EntryText.line ++ [line])).map dropCR =
      before.map dropCR ++ sec.title ::
        ((es.map (fun e => EntryText.mk e.count (dropCR e.name))).map EntryText.line ++
          dropCR line :: []) := by
    rw [List.map_append, List.map_cons, List.map_append, List.map_singleton, dropCR_title,
      hlines]
  have hfail := parseLoop_unclosed_section sec _ hes2 (dropCR line) (dropCR_recognized line hl)
    [] (before.map dropCR).length (before.map dropCR) {} (Nat.le_refl _)
  rcases hp : parseLoop {} (before.map dropCR ++ sec.title ::
      ((es.map (fun e => EntryText.mk e.count (dropCR e.name))).map EntryText.line ++
        dropCR line :: [])) with ⟨r, _ | e⟩
  · rw [hp] at hfail
    exact absurd rfl hfail
  · have h := parse_error _ after _ r e hshort htokens hp
    have hin : (before ++ sec.title :: (es.map EntryText.line ++ [line])) ++ after =
        before ++ sec.title :: (es.map EntryText.line ++ line :: after) := by
      simp
    rw [hin] at h
    rw [h]
    exact fun hn => Option.noConfusion hn

/-- An instance of the amended C18: `Series: 3` directly after the entries of a
section, in an input that goes on with a line that does not fit the buffer. -/
theorem C18_unclosed_section_fails_witness :
    (∀ e ∈ [EntryText.mk "10" "foo"], e.valid = true) ∧ isRecognized "Series: 3" = true ∧
    (∀ l ∈ ["Duration: 1h"] ++ Section.MostCommonLabelPairs.title ::
        ([EntryText.mk "10" "foo"].map EntryText.line ++ ["Series: 3"]),
      byteLength l < MaxScanTokenSize) ∧
    parseLoop {} ["Most common label pairs:", "10 foo", "Series: 3", repeated 'y' 70000] =
      ({}, some (Error.Errorf "expected uint64 as first part of label pair %q" "Series: 3")) ∧
    (parse ["Duration: 1h", "Most common label pairs:", "10 foo", "Series: 3",
      repeated 'y' 70000]).2 ≠ none :=
  have h := C18_unclosed_section_fails ["Duration: 1h"] [repeated 'y' 70000]
    Section.MostCommonLabelPairs [EntryText.mk "10" "foo"] "Series: 3" {} (by decide) (by decide)
  ⟨by decide, by decide, by decide, h.2.1.trans (by decide), h.2.2.2 (by decide)⟩

end TsdbAnalyze
